import Mathlib

/-!
Verification of the recurring-task core of the ObsidianTasksAsFiles
repository: the recurrence-rule grammar (`parseRecurrence`), the due-date
calculator (`calculateNextDueDate`, `getMissedRecurrences`), the completion
ledger editor (`addCompletionRecord`), the missed-occurrence orchestration
(`TaskManager.handleMissedRecurrences`) and the task classifier
(`isNoteATask`).

The embedding follows `src/src/recurrence-parser.ts` (the variant that
preserves the input's date/datetime precision, whose loop bodies the spec
describes), `src/src/utils/completion-records.ts`,
`src/src/task-manager.ts` and `src/src/utils/frontmatter-helper.ts`.

Modelling conventions:
* moment.js instants are modelled at second granularity by the `DateTime`
  structure; moment's `add(n, unit)` semantics (month/year day-of-month
  clamping, weeks = 7 days) are reproduced in `addMonthsN` / `addYearsN` /
  `addDaysN`.  Comparisons (`isBefore` / `isAfter`) compare the timestamp
  `toStamp`, exactly as moment compares epoch values for valid dates.
* the ambient clock `moment()` is an explicit `now : DateTime` parameter.
* the two unbounded `while` loops of the source are given an explicit
  `fuel` parameter; the termination claims are stated as stabilisation of
  the fuelled loop (enough fuel exists after which the value never changes).
* JavaScript strings are modelled as `List Char`; the JS regexes of the
  ledger editor are executed by a faithful backtracking matcher
  (`matchToks`) over their token lists (literal pieces and single
  character-class repetitions, with JS greedy/lazy ordering).
-/

set_option maxRecDepth 100000

namespace TasksAsFiles

/-! ### Calendar model (moment.js date arithmetic) -/

/-- An instant at second granularity (the source only ever constructs
whole-second instants; moment's millisecond field is identically zero on
every input the program builds). -/
structure DateTime where
  year : ℕ
  month : ℕ
  day : ℕ
  hour : ℕ
  minute : ℕ
  second : ℕ
  deriving DecidableEq, Repr

/-- Gregorian leap-year rule, as implemented by moment.js. -/
def isLeapYear (y : ℕ) : Bool :=
  (y % 4 = 0 && y % 100 ≠ 0) || y % 400 = 0

/-- Number of days of month `m` (1-based) of year `y`. -/
def daysInMonth (y m : ℕ) : ℕ :=
  match m with
  | 1 => 31
  | 2 => if isLeapYear y then 29 else 28
  | 3 => 31
  | 4 => 30
  | 5 => 31
  | 6 => 30
  | 7 => 31
  | 8 => 31
  | 9 => 30
  | 10 => 31
  | 11 => 30
  | 12 => 31
  | _ => 30

def daysInYear (y : ℕ) : ℕ := if isLeapYear y then 366 else 365

/-- Number of leap years in `[0, y)` (inclusion-exclusion over the
multiples of 4, 100 and 400). -/
def leapsCount (y : ℕ) : ℕ :=
  (y + 3) / 4 - (y + 99) / 100 + (y + 399) / 400

/-- Days from the epoch (year 0, Jan 1) to Jan 1 of year `y`. -/
def daysBeforeYear (y : ℕ) : ℕ := 365 * y + leapsCount y

/-- Days from Jan 1 to the first day of month `m` (1-based) in year `y`. -/
def daysBeforeMonth (y : ℕ) : ℕ → ℕ
  | 0 => 0
  | 1 => 0
  | m + 1 => daysBeforeMonth y m + daysInMonth y m

/-- Day number (rata die from the epoch) of a date. -/
def rata (d : DateTime) : ℕ :=
  daysBeforeYear d.year + daysBeforeMonth d.year d.month + (d.day - 1)

/-- Timestamp in seconds from the epoch; the quantity moment compares with
`isBefore` / `isAfter`. -/
def toStamp (d : DateTime) : ℕ :=
  ((rata d * 24 + d.hour) * 60 + d.minute) * 60 + d.second

/-- A structurally valid calendar instant. -/
def ValidDate (d : DateTime) : Prop :=
  1 ≤ d.month ∧ d.month ≤ 12 ∧ 1 ≤ d.day ∧ d.day ≤ daysInMonth d.year d.month ∧
    d.hour ≤ 23 ∧ d.minute ≤ 59 ∧ d.second ≤ 59

instance (d : DateTime) : Decidable (ValidDate d) := by
  unfold ValidDate; infer_instance

/-- Successor day (used to implement moment's `add(n, 'days')`). -/
def nextDay (d : DateTime) : DateTime :=
  if d.day < daysInMonth d.year d.month then
    { d with day := d.day + 1 }
  else if d.month < 12 then
    { d with month := d.month + 1, day := 1 }
  else
    { d with year := d.year + 1, month := 1, day := 1 }

/-- moment's `add(n, 'days')` (also implements weeks as `7 * n` days). -/
def addDaysN (n : ℕ) (d : DateTime) : DateTime := nextDay^[n] d

/-- moment's `add(n, 'months')`: move `n` months forward carrying the year
and clamp the day-of-month once into the target month. -/
def addMonthsN (n : ℕ) (d : DateTime) : DateTime :=
  let t := 12 * d.year + (d.month - 1) + n
  let y := t / 12
  let m := t % 12 + 1
  { d with year := y, month := m, day := min d.day (daysInMonth y m) }

/-- moment's `add(n, 'years')`: step the year and clamp the day-of-month
(Feb 29 falls back to Feb 28 in a non-leap target year). -/
def addYearsN (n : ℕ) (d : DateTime) : DateTime :=
  { d with year := d.year + n,
           day := min d.day (daysInMonth (d.year + n) d.month) }

/-! #### Basic calendar lemmas -/

/-- Start-of-month day number as a function of the absolute month index
`12 * year + (month - 1)`. -/
def startOfMonthIdx (i : ℕ) : ℕ :=
  daysBeforeYear (i / 12) + daysBeforeMonth (i / 12) (i % 12 + 1)

/-- Month-table: cumulative days before month `m` in a non-leap year. -/
def monthTable : ℕ → ℕ
  | 0 => 0
  | 1 => 0
  | 2 => 31
  | 3 => 59
  | 4 => 90
  | 5 => 120
  | 6 => 151
  | 7 => 181
  | 8 => 212
  | 9 => 243
  | 10 => 273
  | 11 => 304
  | 12 => 334
  | 13 => 365
  | _ => 0

inductive RUnit where
  | day | week | month | year
  deriving DecidableEq, Repr

inductive RMode where
  | after_due | after_completion
  deriving DecidableEq, Repr

/-- The normalized recurrence rule `{ amount, unit, mode }`. -/
structure RecurrenceInfo where
  amount : ℕ
  unit : RUnit
  mode : RMode
  deriving DecidableEq, Repr

/-- The `switch (recurrence.unit)` blocks of `calculateNextDueDate` /
`getMissedRecurrences` / `addRecurrencePeriod`: one `amount`-`unit`
increment applied by moment's `add`. -/
def addRecurrencePeriod (d : DateTime) (r : RecurrenceInfo) : DateTime :=
  match r.unit with
  | RUnit.day => addDaysN r.amount d
  | RUnit.week => addDaysN (7 * r.amount) d
  | RUnit.month => addMonthsN r.amount d
  | RUnit.year => addYearsN r.amount d

def ensureFutureFuel : ℕ → DateTime → RecurrenceInfo → DateTime → DateTime
  | 0, _, _, d => d
  | fuel + 1, now, r, d =>
      if toStamp d < toStamp now then
        ensureFutureFuel fuel now r (addRecurrencePeriod d r)
      else d

def missedLoop : ℕ → DateTime → RecurrenceInfo → DateTime → List DateTime
  | 0, _, _, _ => []
  | fuel + 1, now, r, d =>
      let d2 := addRecurrencePeriod d r
      if toStamp now < toStamp d2 then []
      else d2 :: missedLoop fuel now r d2

def isDigitCh (c : Char) : Bool := 48 ≤ c.toNat && c.toNat ≤ 57

def digitVal (c : Char) : ℕ := c.toNat - 48

def digitsVal (l : List Char) : ℕ :=
  l.foldl (fun a c => 10 * a + digitVal c) 0

def digitChar (d : ℕ) : Char :=
  match d with
  | 0 => '0' | 1 => '1' | 2 => '2' | 3 => '3' | 4 => '4'
  | 5 => '5' | 6 => '6' | 7 => '7' | 8 => '8' | 9 => '9'
  | _ => '*'

/-- Digit accumulator of `natToChars`, with explicit fuel so the kernel
can evaluate it (the fuel `n` always suffices: each step divides by 10). -/
def natToCharsCore : ℕ → ℕ → List Char
  | 0, _ => []
  | fuel + 1, n =>
      if n = 0 then []
      else natToCharsCore fuel (n / 10) ++ [digitChar (n % 10)]

/-- Decimal rendering of a natural number (JS number-to-string for the
integers the program manipulates). -/
def natToChars (n : ℕ) : List Char :=
  if n = 0 then ['0'] else natToCharsCore n n

/-- Two-digit zero-padded rendering (for values below 100). -/
def pad2 (n : ℕ) : List Char := [digitChar (n / 10 % 10), digitChar (n % 10)]

/-- Four-digit zero-padded rendering (for values below 10000). -/
def pad4 (n : ℕ) : List Char :=
  [digitChar (n / 1000 % 10), digitChar (n / 100 % 10),
   digitChar (n / 10 % 10), digitChar (n % 10)]

/-- moment's `format()` output at second granularity. -/
def formatFull (d : DateTime) : List Char :=
  pad4 d.year ++ '-' :: pad2 d.month ++ '-' :: pad2 d.day ++
    'T' :: pad2 d.hour ++ ':' :: pad2 d.minute ++ ':' :: pad2 d.second

/-- moment's `format('YYYY-MM-DD')` output. -/
def formatDateOnly (d : DateTime) : List Char :=
  pad4 d.year ++ '-' :: pad2 d.month ++ '-' :: pad2 d.day

/-- Parse the optional time part of an ISO string (after the date part). -/
def parseTimePart (l : List Char) : Option (ℕ × ℕ × ℕ) :=
  match l with
  | [] => some (0, 0, 0)
  | 'T' :: p :: q :: ':' :: u :: v :: rest =>
      if isDigitCh p && isDigitCh q && isDigitCh u && isDigitCh v then
        match rest with
        | [] => some (digitsVal [p, q], digitsVal [u, v], 0)
        | ':' :: w :: x :: [] =>
            if isDigitCh w && isDigitCh x then
              some (digitsVal [p, q], digitsVal [u, v], digitsVal [w, x])
            else none
        | _ => none
      else none
  | _ => none

/-- moment's ISO parsing of the date strings the program handles; `none` is
moment's invalid date. -/
def parseMomentL (l : List Char) : Option DateTime :=
  match l with
  | a :: b :: c :: e :: '-' :: f :: g :: '-' :: h :: i :: rest =>
      if isDigitCh a && isDigitCh b && isDigitCh c && isDigitCh e &&
          isDigitCh f && isDigitCh g && isDigitCh h && isDigitCh i then
        match parseTimePart rest with
        | some (hh, mm, ss) =>
            let dt : DateTime :=
              { year := digitsVal [a, b, c, e], month := digitsVal [f, g],
                day := digitsVal [h, i], hour := hh, minute := mm,
                second := ss }
            if ValidDate dt then some dt else none
        | none => none
      else none
  | _ => none

/-- The `/T\d{2}:\d{2}/` test of `calculateNextDueDate`, at one position. -/
def timePatAt (l : List Char) : Bool :=
  match l with
  | c0 :: c1 :: c2 :: c3 :: c4 :: c5 :: _ =>
      (c0 = 'T' : Bool) && isDigitCh c1 && isDigitCh c2 &&
        (c3 = ':' : Bool) && isDigitCh c4 && isDigitCh c5
  | _ => false

/-- The `/T\d{2}:\d{2}/.test(currentDue)` check: true iff the pattern
occurs anywhere in the string. -/
def hasTimePattern : List Char → Bool
  | [] => false
  | c :: rest => timePatAt (c :: rest) || hasTimePattern rest

def isWSCh (c : Char) : Bool :=
  c = ' ' || c = '\t' || c = '\n' || c = '\r'

def toLowerCh (c : Char) : Char :=
  if 'A' ≤ c ∧ c ≤ 'Z' then Char.ofNat (c.toNat + 32) else c

/-- `recurrenceString.trim().toLowerCase()`. -/
def normalizeRec (l : List Char) : List Char :=
  (((l.dropWhile isWSCh).reverse.dropWhile (isWSCh ·)).reverse).map
    toLowerCh

def unitOfChar (c : Char) : Option RUnit :=
  if c = 'd' then some RUnit.day
  else if c = 'w' then some RUnit.week
  else if c = 'm' then some RUnit.month
  else if c = 'y' then some RUnit.year
  else none

/-- The shorthand regex `^(\d+)\s*(d|w|m|y)(c)?$` together with the
unit-letter `switch` and mode selection of `parseRecurrence`. -/
def matchShorthand (l : List Char) : Option RecurrenceInfo :=
  let ds := l.takeWhile isDigitCh
  let rest := l.dropWhile isDigitCh
  if ds.isEmpty then none
  else
    match (rest.dropWhile isWSCh) with
    | u :: rest3 =>
        match unitOfChar u with
        | some unit =>
            match rest3 with
            | [] => some ⟨digitsVal ds, unit, RMode.after_due⟩
            | ['c'] => some ⟨digitsVal ds, unit, RMode.after_completion⟩
            | _ => none
        | none => none
    | [] => none

/-- Match one of the longform unit words at the head of the input. -/
def unitWordAt (l : List Char) : Option (RUnit × List Char) :=
  if l.take 3 = ['d', 'a', 'y'] then some (RUnit.day, l.drop 3)
  else if l.take 4 = ['w', 'e', 'e', 'k'] then some (RUnit.week, l.drop 4)
  else if l.take 5 = ['m', 'o', 'n', 't', 'h'] then
    some (RUnit.month, l.drop 5)
  else if l.take 4 = ['y', 'e', 'a', 'r'] then some (RUnit.year, l.drop 4)
  else none

/-- The tolerated plural `s` of the longform unit word. -/
def dropPlural (l : List Char) : List Char :=
  match l with
  | 's' :: t => t
  | _ => l

/-- The optional trailing phrase `(\s+after\s+completion)$`. -/
def matchAfterCompletion (l : List Char) : Bool :=
  let w1 := l.takeWhile isWSCh
  let r1 := l.dropWhile isWSCh
  if w1.isEmpty then false
  else if r1.take 5 = ['a', 'f', 't', 'e', 'r'] then
    let r2 := r1.drop 5
    let w2 := r2.takeWhile isWSCh
    let r3 := r2.dropWhile isWSCh
    if w2.isEmpty then false
    else r3 = ['c', 'o', 'm', 'p', 'l', 'e', 't', 'i', 'o', 'n']
  else false

/-- The longform regex together with the unit-word dispatch and mode
selection of `parseRecurrence`. -/
def matchLongform (l : List Char) : Option RecurrenceInfo :=
  let ds := l.takeWhile isDigitCh
  let rest := l.dropWhile isDigitCh
  if ds.isEmpty then none
  else
    match unitWordAt (rest.dropWhile isWSCh) with
    | some (unit, r) =>
        let r2 := dropPlural r
        if r2.isEmpty then some ⟨digitsVal ds, unit, RMode.after_due⟩
        else if matchAfterCompletion r2 then
          some ⟨digitsVal ds, unit, RMode.after_completion⟩
        else none
    | none => none

/-- `parseRecurrence` of `recurrence-parser.ts`: empty input gives no rule;
otherwise normalize and try the shorthand then the longform pattern. -/
def parseRecurrence (s : String) : Option RecurrenceInfo :=
  if s.data.isEmpty then none
  else
    match matchShorthand (normalizeRec s.data) with
    | some r => some r
    | none => matchLongform (normalizeRec s.data)

/-! ### `calculateNextDueDate` and `getMissedRecurrences`
(lines 175-249 and 251-299 of `recurrence-parser.ts`) -/

/-- `calculateNextDueDate(currentDue, completionTime, recurrence)`.  The
ambient `moment()` of the catch-up loop is the explicit `now`; the loop
carries the `fuel` artifact; an unparseable date (moment's invalid date)
is `none`. -/
def calculateNextDueDate (fuel : ℕ) (now : DateTime)
    (currentDue completionTime : String) (r : RecurrenceInfo) :
    Option String :=
  match parseMomentL currentDue.data, parseMomentL completionTime.data with
  | some currentDueM, some completionM =>
      let hasTime := hasTimePattern currentDue.data
      let base : DateTime :=
        if r.mode = RMode.after_completion then
          if hasTime then
            { completionM with
              hour := currentDueM.hour,
              minute := currentDueM.minute,
              second := currentDueM.second }
          else completionM
        else currentDueM
      let next := addRecurrencePeriod base r
      let next2 :=
        if r.mode = RMode.after_due then ensureFutureFuel fuel now r next
        else next
      some (String.mk (if hasTime then formatFull next2
                       else formatDateOnly next2))
  | _, _ => none

/-- `getMissedRecurrences(currentDue, recurrence)` with the ambient
`moment()` explicit and the enumeration loop fuelled. -/
def getMissedRecurrences (fuel : ℕ) (now : DateTime) (currentDue : String)
    (r : RecurrenceInfo) : Option (List String) :=
  if r.mode ≠ RMode.after_due then some []
  else
    match parseMomentL currentDue.data with
    | some currentDueM =>
        if toStamp now < toStamp currentDueM then some []
        else
          some ((currentDueM :: missedLoop fuel now r currentDueM).map
            (fun d => String.mk (formatFull d)))
    | none => none


/-! ### Languages of the two recurrence regexes

Specification-side predicates describing exactly the strings the two
anchored regexes accept (after normalization): used to settle the claim
that `parse` returns absence exactly off these languages. -/

/-- The language of `^(\d+)\s*(d|w|m|y)(c)?$`. -/
def ShorthandLang (l : List Char) : Prop :=
  ∃ ds ws u copt, l = ds ++ ws ++ u :: copt ∧ ds ≠ [] ∧
    (∀ c ∈ ds, isDigitCh c = true) ∧ (∀ c ∈ ws, isWSCh c = true) ∧
    (u = 'd' ∨ u = 'w' ∨ u = 'm' ∨ u = 'y') ∧ (copt = [] ∨ copt = ['c'])

/-- The unit word of the longform grammar. -/
def unitWordOf : RUnit → List Char
  | RUnit.day => ['d', 'a', 'y']
  | RUnit.week => ['w', 'e', 'e', 'k']
  | RUnit.month => ['m', 'o', 'n', 't', 'h']
  | RUnit.year => ['y', 'e', 'a', 'r']

/-- The language of
`^(\d+)\s*(day|days|week|weeks|month|months|year|years)(\s+after\s+completion)?$`. -/
def LongformLang (l : List Char) : Prop :=
  ∃ ds ws ru sOpt phrase,
    l = ds ++ ws ++ unitWordOf ru ++ sOpt ++ phrase ∧ ds ≠ [] ∧
    (∀ c ∈ ds, isDigitCh c = true) ∧ (∀ c ∈ ws, isWSCh c = true) ∧
    (sOpt = [] ∨ sOpt = ['s']) ∧
    (phrase = [] ∨ ∃ w1 w2,
      phrase = w1 ++ ['a', 'f', 't', 'e', 'r'] ++ w2 ++
        ['c', 'o', 'm', 'p', 'l', 'e', 't', 'i', 'o', 'n'] ∧
      w1 ≠ [] ∧ w2 ≠ [] ∧
      (∀ c ∈ w1, isWSCh c = true) ∧ (∀ c ∈ w2, isWSCh c = true))

/-! ### A backtracking matcher for the ledger regexes

The three table regexes of `completion-records.ts` are concatenations of
literal pieces and repeated single character classes.  `matchToks` runs
them with JS backtracking order: a greedy repetition tries the longest
span of its class first, a lazy (`*?`) one the shortest, and on failure
the rightmost choice point is retried first. -/

/-- One regex token. -/
inductive Tok where
  | lit (cs : List Char)
  | many (p : Char → Bool) (lazyRep : Bool)
  | many1 (p : Char → Bool) (lazyRep : Bool)

/-- Prepend the segment a token consumed onto a match result. -/
def npSegs (seg : List Char) (r : Option (List (List Char) × List Char)) :
    Option (List (List Char) × List Char) :=
  r.map (fun q => (seg :: q.1, q.2))

/-- First success over a list of candidate repeat counts. -/
def firstSome {α : Type} (f : ℕ → Option α) : List ℕ → Option α
  | [] => none
  | k :: ks =>
      match f k with
      | some v => some v
      | none => firstSome f ks

/-- Candidate repeat counts in JS preference order: a lazy repetition
counts up from the minimum, a greedy one counts down from the longest
class span. -/
def countsFor (span : ℕ) (lazyRep : Bool) (min1 : Bool) : List ℕ :=
  let base := if lazyRep then List.range (span + 1)
              else (List.range (span + 1)).reverse
  if min1 then base.filter (fun k => 0 < k) else base

/-- Run a token list at the start of the input; on success return the
segment each token consumed and the remaining suffix. -/
def matchToks : List Tok → List Char → Option (List (List Char) × List Char)
  | [], s => some ([], s)
  | Tok.lit cs :: ts, s =>
      if s.take cs.length = cs then
        npSegs cs (matchToks ts (s.drop cs.length))
      else none
  | Tok.many p lz :: ts, s =>
      firstSome (fun k => npSegs (s.take k) (matchToks ts (s.drop k)))
        (countsFor (s.takeWhile p).length lz false)
  | Tok.many1 p lz :: ts, s =>
      firstSome (fun k => npSegs (s.take k) (matchToks ts (s.drop k)))
        (countsFor (s.takeWhile p).length lz true)

/-- Leftmost unanchored match (JS `search` / `match`): try every start
position from the left; return start index, segments, and suffix after
the match. -/
def searchToksAux (ts : List Tok) :
    List Char → ℕ → Option (ℕ × List (List Char) × List Char)
  | [], i =>
      match matchToks ts [] with
      | some q => some (i, q.1, q.2)
      | none => none
  | c :: rest, i =>
      match matchToks ts (c :: rest) with
      | some q => some (i, q.1, q.2)
      | none => searchToksAux ts rest (i + 1)

/-- Global scan (JS `exec` loop with the `g` flag): repeated leftmost
matches, resuming after each match's end.  All patterns scanned this way
contain literals, so every match consumes input; the fuel is the
embedding's bound. -/
def scanToksAux (ts : List Tok) : ℕ → List Char → List (List (List Char))
  | 0, _ => []
  | fuel + 1, s =>
      match searchToksAux ts s 0 with
      | none => []
      | some (_, segs, rest) => segs :: scanToksAux ts fuel rest

def scanToks (ts : List Tok) (s : List Char) : List (List (List Char)) :=
  scanToksAux ts (s.length + 1) s

/-- JS `.` (anything but a line terminator). -/
def isDotRe (c : Char) : Bool := !(c = '\n' || c = '\r')

def isDashRe (c : Char) : Bool := c = '-'

/-- `/\|\s*Date\s*\|\s*Status\s*\|\s*#\s*\|/` as tokens. -/
def headerToks : List Tok :=
  [Tok.lit ['|'], Tok.many isWSCh false, Tok.lit ['D', 'a', 't', 'e'],
   Tok.many isWSCh false, Tok.lit ['|'], Tok.many isWSCh false,
   Tok.lit ['S', 't', 'a', 't', 'u', 's'], Tok.many isWSCh false,
   Tok.lit ['|'], Tok.many isWSCh false, Tok.lit ['#'],
   Tok.many isWSCh false, Tok.lit ['|']]

/-- `/\|\s*-+\s*\|\s*-+\s*\|\s*-+\s*\|/` as tokens. -/
def dividerToks : List Tok :=
  [Tok.lit ['|'], Tok.many isWSCh false, Tok.many1 isDashRe false,
   Tok.many isWSCh false, Tok.lit ['|'], Tok.many isWSCh false,
   Tok.many1 isDashRe false, Tok.many isWSCh false, Tok.lit ['|'],
   Tok.many isWSCh false, Tok.many1 isDashRe false, Tok.many isWSCh false,
   Tok.lit ['|']]

/-- `/\|\s*.*?\s*\|\s*.*?\s*\|\s*(\d+)\s*\|/g` as tokens; the capture
group is the token at index 10. -/
def rowToks : List Tok :=
  [Tok.lit ['|'], Tok.many isWSCh false, Tok.many isDotRe true,
   Tok.many isWSCh false, Tok.lit ['|'], Tok.many isWSCh false,
   Tok.many isDotRe true, Tok.many isWSCh false, Tok.lit ['|'],
   Tok.many isWSCh false, Tok.many1 isDigitCh false,
   Tok.many isWSCh false, Tok.lit ['|']]

/-- The numbers captured by the global row scan (`parseInt(match[1])`
for each match). -/
def rowScanNumbers (s : List Char) : List ℕ :=
  (scanToks rowToks s).map (fun segs => digitsVal (segs.getD 10 []))

/-! ### String primitives of the ledger editor -/

/-- Boolean prefix test. -/
def isPrefixL (p s : List Char) : Bool := decide (s.take p.length = p)

def indexOfSubstrAux (pat : List Char) : List Char → ℕ → Option ℕ
  | s, i =>
      if isPrefixL pat s then some i
      else
        match s with
        | [] => none
        | _ :: rest => indexOfSubstrAux pat rest (i + 1)

/-- JS `content.indexOf(pat)` (also `search` on a metacharacter-free
regex, as built from the configured heading). -/
def indexOfSubstr (pat s : List Char) : Option ℕ := indexOfSubstrAux pat s 0

/-- JS `content.indexOf(char, from)`. -/
def indexOfCharFrom (c : Char) (s : List Char) (i : ℕ) : Option ℕ :=
  (List.findIdx? (fun x => x = c) (s.drop i)).map (fun j => i + j)

/-- JS `content.indexOf(pat, from)`. -/
def indexOfSubstrFrom (pat s : List Char) (i : ℕ) : Option ℕ :=
  (indexOfSubstr pat (s.drop i)).map (fun j => i + j)

/-- JS `content.substring(a, b)` for `a ≤ b`. -/
def sliceL (a b : ℕ) (s : List Char) : List Char := (s.drop a).take (b - a)

/-! ### The ledger editor (`addCompletionRecord` of
`utils/completion-records.ts`) -/

inductive LedgerPosition where
  | top | bottom
  deriving DecidableEq, Repr

def headerRowText : List Char :=
  ['|', ' ', 'D', 'a', 't', 'e', ' ', '|', ' ', 'S', 't', 'a', 't', 'u',
   's', ' ', '|', ' ', '#', ' ', '|']

def dividerRowText : List Char :=
  ['|', ' ', '-', '-', '-', '-', ' ', '|', ' ', '-', '-', '-', '-', '-',
   '-', ' ', '|', ' ', '-', ' ', '|']

/-- One data row `| <datetime> | <indicator> | <n> |`. -/
def rowText (f ind : List Char) (n : ℕ) : List Char :=
  ['|', ' '] ++ f ++ [' ', '|', ' '] ++ ind ++ [' ', '|', ' '] ++
    natToChars n ++ [' ', '|']

/-- The fresh three-line table template of the source. -/
def tableText (f ind : List Char) : List Char :=
  headerRowText ++ '\n' :: dividerRowText ++ '\n' :: rowText f ind 1

/-- `addCompletionRecord(content, datetime, status, heading, position,
dateTimeFormat, completedIndicator, skippedIndicator)`.

`fmtFn` stands for `d => moment(d).format(dateTimeFormat)` (the rendering
with the configured display format); the configured heading is assumed
regex-metacharacter free, so `new RegExp("## " + heading)` is the literal
substring search.  JS `indexOf` returning `-1` followed by `+ 1` / `+ 4`
and the `tableEndPos > 0` test are reproduced as in the source. -/
def addCompletionRecordL (content : List Char)
    (datetime status heading : String) (position : LedgerPosition)
    (fmtFn : String → List Char)
    (completedIndicator skippedIndicator : String) : List Char :=
  let headingPat := ['#', '#', ' '] ++ heading.data
  let f := fmtFn datetime
  let ind := (if status = "completed" then completedIndicator
              else skippedIndicator).data
  match indexOfSubstr headingPat content with
  | some headingPos =>
      let afterHeadingPos :=
        match indexOfCharFrom '\n' content headingPos with
        | some j => j + 1
        | none => 0
      match searchToksAux headerToks (content.drop afterHeadingPos) 0 with
      | some (hOff, _, _) =>
          let tableStartPos := afterHeadingPos + hOff
          let headerLineEndPos :=
            match indexOfCharFrom '\n' content tableStartPos with
            | some j => j + 1
            | none => 0
          match searchToksAux dividerToks (content.drop headerLineEndPos) 0 with
          | some (dOff, _, _) =>
              let dividerPos := headerLineEndPos + dOff
              let dividerEndPos :=
                match indexOfCharFrom '\n' content dividerPos with
                | some j => j + 1
                | none => 0
              let tableContent :=
                match indexOfSubstrFrom ['\n', '\n'] content dividerEndPos with
                | some t => if 0 < t then sliceL dividerEndPos t content
                            else content.drop dividerEndPos
                | none => content.drop dividerEndPos
              let highestCount := (rowScanNumbers tableContent).foldl max 0
              content.take dividerEndPos ++
                rowText f ind (highestCount + 1) ++
                '\n' :: content.drop dividerEndPos
          | none =>
              match indexOfSubstrFrom ['\n', '\n'] content tableStartPos with
              | some t =>
                  if 0 < t then
                    content.take tableStartPos ++ tableText f ind ++
                      content.drop t
                  else content.take tableStartPos ++ tableText f ind
              | none => content.take tableStartPos ++ tableText f ind
      | none =>
          content.take afterHeadingPos ++ '\n' :: tableText f ind ++
            '\n' :: content.drop afterHeadingPos
  | none =>
      let newContent := headingPat ++ '\n' :: tableText f ind
      match position with
      | LedgerPosition.top =>
          let fm1 :=
            match indexOfSubstr ['-', '-', '-', '\n'] content with
            | some i => i + 4
            | none => 3
          let fm2 :=
            match indexOfSubstrFrom ['-', '-', '-', '\n'] content fm1 with
            | some i => i + 4
            | none => 3
          content.take fm2 ++ '\n' :: '\n' :: newContent ++ content.drop fm2
      | LedgerPosition.bottom => content ++ '\n' :: '\n' :: newContent

/-! ### The orchestrator (`TaskManager.handleMissedRecurrences`) -/

/-- The settings fields the missed-recurrence path reads.  `displayFormat`
stands for `d => moment(d).format(settings.dateTimeFormat)`. -/
structure RecurringTasksSettings where
  dueProperty : String
  completionHeading : String
  completionPosition : LedgerPosition
  completedIndicator : String
  skippedIndicator : String
  displayFormat : String → List Char

/-- The two persistent channels the orchestrator writes: the due-date
frontmatter property (via `processFrontMatter`) and the body text (via
`vault.read` / `vault.modify`). -/
structure NoteModel where
  dueValue : String
  content : List Char

/-- `TaskManager.handleMissedRecurrences(file, action, missedDates, now,
currentDue, recurrence)`: compute the next due date with `now` as the
completion time, write it to the due property, then append one completion
record per missed date, stamped with the missed date, with the outcome
selected by `action`.  `now` is the instant captured by
`completeRecurrence` (its string form is `moment().format()`). -/
def handleMissedRecurrences (fuel : ℕ) (now : DateTime)
    (settings : RecurringTasksSettings) (note : NoteModel) (action : String)
    (missedDates : List String) (currentDue : String) (r : RecurrenceInfo) :
    Option NoteModel :=
  match calculateNextDueDate fuel now currentDue
      (String.mk (formatFull now)) r with
  | some nextDue =>
      let status := if action = "complete" then "completed" else "skipped"
      let updated := missedDates.foldl
        (fun c missedDate =>
          addCompletionRecordL c missedDate status
            settings.completionHeading settings.completionPosition
            settings.displayFormat settings.completedIndicator
            settings.skippedIndicator)
        note.content
      some { dueValue := nextDue, content := updated }
  | none => none

/-! ### The task classifier (`isNoteATask` of
`utils/frontmatter-helper.ts`) -/

/-- A frontmatter value as the classifier can meet it. -/
inductive FMValue where
  | str (s : String)
  | boolean (b : Bool)
  | num (n : Int)
  | arr (l : List FMValue)
  | null

/-- JS strict equality `v === s` against a string value: true exactly for
that string. -/
def fmIsStrEq (v : FMValue) (s : String) : Bool :=
  match v with
  | FMValue.str t => t = s
  | _ => false

/-- `isNoteATask(frontmatter, taskTypeProperty, taskTypeValue)`: absent
frontmatter and empty (falsy) configuration strings give `false`;
otherwise the property must strictly equal the type value or be an array
containing it. -/
def isNoteATask (frontmatter : Option (List (String × FMValue)))
    (taskTypeProperty taskTypeValue : String) : Bool :=
  match frontmatter with
  | none => false
  | some fm =>
      if taskTypeProperty = "" || taskTypeValue = "" then false
      else
        match fm.lookup taskTypeProperty with
        | none => false
        | some v =>
            fmIsStrEq v taskTypeValue ||
              (match v with
               | FMValue.arr l => l.any (fun x => fmIsStrEq x taskTypeValue)
               | _ => false)


/-- Cleanliness of a rendered table cell: nonempty, no line terminator, no
whitespace, no pipe. -/
def cleanCellP (c : List Char) : Prop :=
  c ≠ [] ∧ ∀ ch ∈ c, isDotRe ch = true ∧ isWSCh ch = false ∧ ch ≠ '|'

instance (c : List Char) : Decidable (cleanCellP c) := by
  unfold cleanCellP
  infer_instance

/-- The rendered data-row block: rows joined by single newlines, newest
first, as the editor produces it. -/
def rowsJoin : List (List Char × List Char × ℕ) → List Char
  | [] => []
  | [r] => rowText r.1 r.2.1 r.2.2
  | r :: rest => rowText r.1 r.2.1 r.2.2 ++ '\n' :: rowsJoin rest

/-- The rows the repeated bottom-appends produce: processing `d :: tl`
writes `d` with number `m + 1`, then stacks `tl` on top of it. -/
def stackRows (f : String → List Char) (ind : List Char) :
    ℕ → List String → List (List Char × List Char × ℕ)
  | _, [] => []
  | m, d :: tl => stackRows f ind (m + 1) tl ++ [(f d, ind, m + 1)]

/-- The shorthand letter of each unit. -/
def unitLetterOf : RUnit → Char
  | RUnit.day => 'd'
  | RUnit.week => 'w'
  | RUnit.month => 'm'
  | RUnit.year => 'y'

/-! ## Lemmas and theorems -/

theorem daysBeforeYear_succ (y : ℕ) :
    daysBeforeYear (y + 1) = daysBeforeYear y + daysInYear y := by
  unfold daysBeforeYear daysInYear leapsCount
  rcases h : isLeapYear y with _ | _
  · have h2 : ¬ ((y % 4 = 0 ∧ ¬ y % 100 = 0) ∨ y % 400 = 0) := by
      intro hcon
      have : isLeapYear y = true := by
        unfold isLeapYear
        rcases hcon with ⟨ha, hb⟩ | hc
        · simp [ha, hb]
        · simp [hc]
      rw [h] at this
      cases this
    simp only [Bool.false_eq_true, if_false]
    omega
  · have h2 : (y % 4 = 0 ∧ ¬ y % 100 = 0) ∨ y % 400 = 0 := by
      have := h
      unfold isLeapYear at this
      rcases Bool.or_eq_true_iff.mp this with hand | hc
      · left
        obtain ⟨ha, hb⟩ := Bool.and_eq_true_iff.mp hand
        refine ⟨by simpa using ha, by simpa using hb⟩
      · right
        simpa using hc
    simp only [if_true]
    omega


theorem daysInMonth_pos (y m : ℕ) : 1 ≤ daysInMonth y m := by
  unfold daysInMonth
  rcases m with _ | _ | _ | _ | _ | _ | _ | _ | _ | _ | _ | _ | _ | m <;>
    first
      | omega
      | (cases isLeapYear y <;> simp)

theorem daysInMonth_le (y m : ℕ) : daysInMonth y m ≤ 31 := by
  unfold daysInMonth
  rcases m with _ | _ | _ | _ | _ | _ | _ | _ | _ | _ | _ | _ | _ | m <;>
    first
      | omega
      | (cases isLeapYear y <;> simp)

theorem daysInMonth_ge (y m : ℕ) : 28 ≤ daysInMonth y m := by
  unfold daysInMonth
  rcases m with _ | _ | _ | _ | _ | _ | _ | _ | _ | _ | _ | _ | _ | m <;>
    first
      | omega
      | (cases isLeapYear y <;> simp)

theorem daysBeforeMonth_succ (y m : ℕ) (h : 1 ≤ m) :
    daysBeforeMonth y (m + 1) = daysBeforeMonth y m + daysInMonth y m := by
  rcases m with _ | m
  · omega
  · rfl

theorem daysBeforeMonth_full (y : ℕ) :
    daysBeforeMonth y 13 = daysInYear y := by
  cases h : isLeapYear y <;>
    simp [daysBeforeMonth, daysInMonth, daysInYear, h]

theorem rata_nextDay (d : DateTime) (hv : ValidDate d) :
    rata (nextDay d) = rata d + 1 := by
  obtain ⟨h1, h2, h3, h4, _, _, _⟩ := hv
  unfold nextDay
  by_cases hd : d.day < daysInMonth d.year d.month
  · simp only [hd, if_true]
    unfold rata
    dsimp only
    omega
  · simp only [hd, if_false]
    by_cases hm : d.month < 12
    · simp only [hm, if_true]
      unfold rata
      dsimp only
      have := daysBeforeMonth_succ d.year d.month h1
      omega
    · simp only [hm, if_false]
      unfold rata
      dsimp only
      have hm12 : d.month = 12 := by omega
      have hfull := daysBeforeMonth_full d.year
      have hstep : daysBeforeMonth d.year 13 =
          daysBeforeMonth d.year 12 + daysInMonth d.year 12 := rfl
      have hby : daysBeforeYear (d.year + 1) =
          daysBeforeYear d.year + daysInYear d.year := daysBeforeYear_succ _
      have hd31 : daysInMonth d.year 12 = 31 := rfl
      have h0 : daysBeforeMonth (d.year + 1) 1 = 0 := rfl
      rw [hm12] at hd h4 ⊢
      omega

theorem valid_nextDay (d : DateTime) (hv : ValidDate d) :
    ValidDate (nextDay d) := by
  obtain ⟨h1, h2, h3, h4, h5, h6, h7⟩ := hv
  unfold nextDay
  by_cases hd : d.day < daysInMonth d.year d.month
  · simp only [hd, if_true]
    unfold ValidDate
    dsimp only
    exact ⟨h1, h2, by omega, by omega, h5, h6, h7⟩
  · simp only [hd, if_false]
    by_cases hm : d.month < 12
    · simp only [hm, if_true]
      unfold ValidDate
      dsimp only
      exact ⟨by omega, by omega, by omega, daysInMonth_pos d.year (d.month + 1),
        h5, h6, h7⟩
    · simp only [hm, if_false]
      unfold ValidDate
      dsimp only
      exact ⟨by omega, by omega, by omega, daysInMonth_pos (d.year + 1) 1,
        h5, h6, h7⟩

theorem rata_addDaysN (n : ℕ) (d : DateTime) (hv : ValidDate d) :
    rata (addDaysN n d) = rata d + n ∧ ValidDate (addDaysN n d) := by
  induction n with
  | zero => exact ⟨rfl, hv⟩
  | succ n ih =>
      have hstep : addDaysN (n + 1) d = nextDay (addDaysN n d) := by
        unfold addDaysN
        exact Function.iterate_succ_apply' nextDay n d
      constructor
      · rw [hstep, rata_nextDay _ ih.2, ih.1]; omega
      · rw [hstep]; exact valid_nextDay _ ih.2

theorem startOfMonthIdx_succ (i : ℕ) :
    startOfMonthIdx (i + 1) =
      startOfMonthIdx i + daysInMonth (i / 12) (i % 12 + 1) := by
  by_cases h : i % 12 = 11
  · have e1 : (i + 1) / 12 = i / 12 + 1 := by omega
    have e2 : (i + 1) % 12 = 0 := by omega
    unfold startOfMonthIdx
    rw [e1, e2, h]
    have hby : daysBeforeYear (i / 12 + 1) =
        daysBeforeYear (i / 12) + daysInYear (i / 12) := daysBeforeYear_succ _
    have hfull := daysBeforeMonth_full (i / 12)
    have hstep : daysBeforeMonth (i / 12) 13 =
        daysBeforeMonth (i / 12) 12 + daysInMonth (i / 12) 12 := rfl
    have h1 : daysBeforeMonth (i / 12 + 1) (0 + 1) = 0 := rfl
    have h2 : (11 : ℕ) + 1 = 12 := rfl
    rw [h1, h2]
    omega
  · have e1 : (i + 1) / 12 = i / 12 := by omega
    have e2 : (i + 1) % 12 = i % 12 + 1 := by omega
    unfold startOfMonthIdx
    rw [e1, e2]
    have := daysBeforeMonth_succ (i / 12) (i % 12 + 1) (by omega)
    omega

theorem startOfMonthIdx_le (i j : ℕ) (h : i ≤ j) :
    startOfMonthIdx i ≤ startOfMonthIdx j := by
  induction j with
  | zero => simp_all
  | succ j ih =>
      rcases Nat.lt_or_ge i (j + 1) with h1 | h1
      · have := ih (by omega)
        rw [startOfMonthIdx_succ]
        omega
      · have : i = j + 1 := by omega
        simp [this]

theorem daysBeforeMonth_eval (y m : ℕ) (hm : m ≤ 13) :
    daysBeforeMonth y m =
      monthTable m + (if isLeapYear y ∧ 3 ≤ m then 1 else 0) := by
  interval_cases m <;> cases h : isLeapYear y <;>
    simp [daysBeforeMonth, daysInMonth, monthTable, h]

theorem daysBeforeMonth_close (y y' m : ℕ) (hm : m ≤ 13) :
    daysBeforeMonth y m ≤ daysBeforeMonth y' m + 1 := by
  rw [daysBeforeMonth_eval y m hm, daysBeforeMonth_eval y' m hm]
  split <;> split <;> omega

theorem daysBeforeYear_add (y k : ℕ) :
    daysBeforeYear y + 365 * k ≤ daysBeforeYear (y + k) := by
  induction k with
  | zero => simp
  | succ k ih =>
      have h1 : daysBeforeYear (y + (k + 1)) =
          daysBeforeYear (y + k) + daysInYear (y + k) := daysBeforeYear_succ _
      have h2 : 365 ≤ daysInYear (y + k) := by
        unfold daysInYear; split <;> omega
      omega

/-! #### Strict increase of the moment `add` operations -/

theorem rata_addMonthsN (n : ℕ) (d : DateTime) (hv : ValidDate d)
    (hn : 1 ≤ n) :
    rata d + 1 ≤ rata (addMonthsN n d) ∧ ValidDate (addMonthsN n d) := by
  obtain ⟨h1, h2, h3, h4, h5, h6, h7⟩ := hv
  have hdiv : (12 * d.year + (d.month - 1)) / 12 = d.year := by omega
  have hmod : (12 * d.year + (d.month - 1)) % 12 = d.month - 1 := by omega
  have hm1 : d.month - 1 + 1 = d.month := by omega
  have hidx : startOfMonthIdx (12 * d.year + (d.month - 1)) =
      daysBeforeYear d.year + daysBeforeMonth d.year d.month := by
    unfold startOfMonthIdx
    rw [hdiv, hmod, hm1]
  have hlt : rata d < startOfMonthIdx (12 * d.year + (d.month - 1) + 1) := by
    rw [startOfMonthIdx_succ, hidx, hdiv, hmod, hm1]
    unfold rata
    have := daysInMonth_pos d.year d.month
    omega
  have hmin : 1 ≤ min d.day
      (daysInMonth ((12 * d.year + (d.month - 1) + n) / 12)
        ((12 * d.year + (d.month - 1) + n) % 12 + 1)) :=
    le_min h3 (daysInMonth_pos _ _)
  have hrata2 : startOfMonthIdx (12 * d.year + (d.month - 1) + n) ≤
      rata (addMonthsN n d) := by
    unfold addMonthsN rata startOfMonthIdx
    dsimp only
    omega
  have hmono : startOfMonthIdx (12 * d.year + (d.month - 1) + 1) ≤
      startOfMonthIdx (12 * d.year + (d.month - 1) + n) :=
    startOfMonthIdx_le _ _ (by omega)
  refine ⟨by omega, ?_⟩
  unfold addMonthsN ValidDate
  dsimp only
  exact ⟨by omega, by omega, hmin, by omega, h5, h6, h7⟩

theorem rata_addYearsN (n : ℕ) (d : DateTime) (hv : ValidDate d)
    (hn : 1 ≤ n) :
    rata d + 1 ≤ rata (addYearsN n d) ∧ ValidDate (addYearsN n d) := by
  obtain ⟨h1, h2, h3, h4, h5, h6, h7⟩ := hv
  have hby : daysBeforeYear d.year + 365 * n ≤ daysBeforeYear (d.year + n) :=
    daysBeforeYear_add d.year n
  have hbm : daysBeforeMonth d.year d.month ≤
      daysBeforeMonth (d.year + n) d.month + 1 :=
    daysBeforeMonth_close _ _ _ (by omega)
  have hge : 28 ≤ daysInMonth (d.year + n) d.month := daysInMonth_ge _ _
  have hle : d.day ≤ 31 := le_trans h4 (daysInMonth_le _ _)
  constructor
  · unfold addYearsN rata
    dsimp only
    omega
  · unfold addYearsN ValidDate
    dsimp only
    exact ⟨h1, h2, by omega, by omega, h5, h6, h7⟩

/-! ### Recurrence rules (`RecurrenceInfo` of `recurrence-parser.ts`) -/

theorem nextDay_time (d : DateTime) :
    (nextDay d).hour = d.hour ∧ (nextDay d).minute = d.minute ∧
      (nextDay d).second = d.second := by
  unfold nextDay
  split
  · exact ⟨rfl, rfl, rfl⟩
  · split
    · exact ⟨rfl, rfl, rfl⟩
    · exact ⟨rfl, rfl, rfl⟩

theorem addDaysN_time (n : ℕ) (d : DateTime) :
    (addDaysN n d).hour = d.hour ∧ (addDaysN n d).minute = d.minute ∧
      (addDaysN n d).second = d.second := by
  induction n with
  | zero => exact ⟨rfl, rfl, rfl⟩
  | succ n ih =>
      have hstep : addDaysN (n + 1) d = nextDay (addDaysN n d) := by
        unfold addDaysN
        exact Function.iterate_succ_apply' nextDay n d
      rw [hstep]
      obtain ⟨f1, f2, f3⟩ := nextDay_time (addDaysN n d)
      obtain ⟨e1, e2, e3⟩ := ih
      exact ⟨f1.trans e1, f2.trans e2, f3.trans e3⟩

theorem addRecurrencePeriod_step (d : DateTime) (r : RecurrenceInfo)
    (hv : ValidDate d) (ha : 1 ≤ r.amount) :
    rata d + 1 ≤ rata (addRecurrencePeriod d r) ∧
      ValidDate (addRecurrencePeriod d r) := by
  obtain ⟨a, u, m⟩ := r
  cases u with
  | day =>
      have := rata_addDaysN a d hv
      have ha2 : 1 ≤ a := ha
      exact ⟨by have h1 := this.1; simp only [addRecurrencePeriod] at h1 ⊢; omega,
        by have h2 := this.2; simpa only [addRecurrencePeriod] using h2⟩
  | week =>
      have := rata_addDaysN (7 * a) d hv
      have ha2 : 1 ≤ a := ha
      exact ⟨by have h1 := this.1; simp only [addRecurrencePeriod] at h1 ⊢; omega,
        by have h2 := this.2; simpa only [addRecurrencePeriod] using h2⟩
  | month =>
      have := rata_addMonthsN a d hv ha
      exact ⟨by have h1 := this.1; simpa only [addRecurrencePeriod] using h1,
        by have h2 := this.2; simpa only [addRecurrencePeriod] using h2⟩
  | year =>
      have := rata_addYearsN a d hv ha
      exact ⟨by have h1 := this.1; simpa only [addRecurrencePeriod] using h1,
        by have h2 := this.2; simpa only [addRecurrencePeriod] using h2⟩

theorem addRecurrencePeriod_time (d : DateTime) (r : RecurrenceInfo) :
    (addRecurrencePeriod d r).hour = d.hour ∧
      (addRecurrencePeriod d r).minute = d.minute ∧
      (addRecurrencePeriod d r).second = d.second := by
  obtain ⟨a, u, m⟩ := r
  cases u with
  | day => simpa only [addRecurrencePeriod] using addDaysN_time a d
  | week => simpa only [addRecurrencePeriod] using addDaysN_time (7 * a) d
  | month => exact ⟨rfl, rfl, rfl⟩
  | year => exact ⟨rfl, rfl, rfl⟩

theorem toStamp_step (d : DateTime) (r : RecurrenceInfo)
    (hv : ValidDate d) (ha : 1 ≤ r.amount) :
    toStamp d + 86400 ≤ toStamp (addRecurrencePeriod d r) := by
  obtain ⟨hr, _⟩ := addRecurrencePeriod_step d r hv ha
  obtain ⟨e1, e2, e3⟩ := addRecurrencePeriod_time d r
  obtain ⟨_, _, _, _, h5, h6, h7⟩ := hv
  unfold toStamp
  rw [e1, e2, e3]
  nlinarith [hr]

/-! ### The two `while` loops, with explicit fuel

`ensureFutureFuel` is the catch-up loop of `calculateNextDueDate`
(`while (baseMoment.isBefore(now)) { ...add... }`, lines 223-241) and of
`ensureFutureDate` in `utils/recurrence-utils.ts`; `missedLoop` is the
enumeration loop of `getMissedRecurrences` (`while (true) { ...add...; if
(dateMoment.isAfter(now)) break; push }`).  The JS loops are unbounded; the
`fuel` argument is the embedding artifact, and the termination claims are
stated as: some fuel exists past which the result never changes. -/

/-- With enough fuel the catch-up loop has reached its natural stopping
condition: the value is not before `now`. -/
theorem ensureFutureFuel_done (now : DateTime) (r : RecurrenceInfo)
    (ha : 1 ≤ r.amount) :
    ∀ fuel d, ValidDate d → toStamp now ≤ toStamp d + 86400 * fuel →
      ¬ toStamp (ensureFutureFuel fuel now r d) < toStamp now := by
  intro fuel
  induction fuel with
  | zero =>
      intro d _ hb
      unfold ensureFutureFuel
      omega
  | succ fuel ih =>
      intro d hv hb
      unfold ensureFutureFuel
      by_cases hlt : toStamp d < toStamp now
      · simp only [hlt, if_true]
        obtain ⟨_, hv2⟩ := addRecurrencePeriod_step d r hv ha
        have := toStamp_step d r hv ha
        exact ih (addRecurrencePeriod d r) hv2 (by omega)
      · simp only [hlt, if_false]
        exact not_false

/-- With enough fuel the catch-up loop's value is stable under extra fuel. -/
theorem ensureFutureFuel_stable (now : DateTime) (r : RecurrenceInfo)
    (ha : 1 ≤ r.amount) :
    ∀ fuel d, ValidDate d → toStamp now ≤ toStamp d + 86400 * fuel →
      ensureFutureFuel (fuel + 1) now r d = ensureFutureFuel fuel now r d := by
  intro fuel
  induction fuel with
  | zero =>
      intro d _ hb
      show (if toStamp d < toStamp now then _ else d) = d
      have : ¬ toStamp d < toStamp now := by omega
      simp [this]
  | succ fuel ih =>
      intro d hv hb
      show (if toStamp d < toStamp now then
              ensureFutureFuel (fuel + 1) now r (addRecurrencePeriod d r)
            else d) =
           (if toStamp d < toStamp now then
              ensureFutureFuel fuel now r (addRecurrencePeriod d r)
            else d)
      by_cases hlt : toStamp d < toStamp now
      · simp only [hlt, if_true]
        obtain ⟨_, hv2⟩ := addRecurrencePeriod_step d r hv ha
        have := toStamp_step d r hv ha
        exact ih (addRecurrencePeriod d r) hv2 (by omega)
      · simp [hlt]

/-- With enough fuel the enumeration loop's value is stable under extra
fuel. -/
theorem missedLoop_stable (now : DateTime) (r : RecurrenceInfo)
    (ha : 1 ≤ r.amount) :
    ∀ fuel d, ValidDate d → toStamp now ≤ toStamp d + 86400 * fuel →
      missedLoop (fuel + 1) now r d = missedLoop fuel now r d := by
  intro fuel
  induction fuel with
  | zero =>
      intro d hv hb
      show (if toStamp now < toStamp (addRecurrencePeriod d r) then []
            else _) = ([] : List DateTime)
      have := toStamp_step d r hv ha
      have hc : toStamp now < toStamp (addRecurrencePeriod d r) := by omega
      simp [hc]
  | succ fuel ih =>
      intro d hv hb
      show (if toStamp now < toStamp (addRecurrencePeriod d r) then []
            else addRecurrencePeriod d r ::
              missedLoop (fuel + 1) now r (addRecurrencePeriod d r)) =
           (if toStamp now < toStamp (addRecurrencePeriod d r) then []
            else addRecurrencePeriod d r ::
              missedLoop fuel now r (addRecurrencePeriod d r))
      by_cases hc : toStamp now < toStamp (addRecurrencePeriod d r)
      · simp [hc]
      · simp only [hc, if_false]
        obtain ⟨_, hv2⟩ := addRecurrencePeriod_step d r hv ha
        have := toStamp_step d r hv ha
        rw [ih (addRecurrencePeriod d r) hv2 (by omega)]

/-! ### Decimal digits, date-string parsing and formatting

The source passes dates around as strings and parses them with `moment(...)`.
`parseMomentL` models moment's ISO parsing for the formats the program
produces and consumes (`YYYY-MM-DD`, `YYYY-MM-DDTHH:mm`,
`YYYY-MM-DDTHH:mm:ss`); out-of-range components give an invalid date,
modelled as `none`.  `formatFull` models `moment.format()` (timezone-free,
second granularity) and `formatDateOnly` models `format('YYYY-MM-DD')`. -/

theorem digitVal_digitChar (d : ℕ) (h : d < 10) :
    digitVal (digitChar d) = d := by
  interval_cases d <;> rfl

theorem isDigitCh_digitChar (d : ℕ) (h : d < 10) :
    isDigitCh (digitChar d) = true := by
  interval_cases d <;> rfl

theorem digitsVal_append_digit (a : List Char) (c : Char) :
    digitsVal (a ++ [c]) = 10 * digitsVal a + digitVal c := by
  unfold digitsVal
  rw [List.foldl_append]
  rfl

theorem natToCharsCore_val (fuel : ℕ) :
    ∀ n, n ≤ fuel → digitsVal (natToCharsCore fuel n) = n := by
  induction fuel with
  | zero =>
      intro n hn
      interval_cases n
      rfl
  | succ fuel ih =>
      intro n hn
      by_cases h : n = 0
      · subst h
        simp [natToCharsCore, digitsVal]
      · rw [natToCharsCore, if_neg h, digitsVal_append_digit,
          ih (n / 10) (by omega), digitVal_digitChar (n % 10) (by omega)]
        omega

/-- Decimal rendering followed by decimal reading is the identity. -/
theorem digitsVal_natToChars (n : ℕ) : digitsVal (natToChars n) = n := by
  unfold natToChars
  by_cases h : n = 0
  · simp [h, digitsVal, digitVal]
  · rw [if_neg h]
    exact natToCharsCore_val n n le_rfl

theorem isDigit_natToCharsCore (fuel : ℕ) :
    ∀ n c, c ∈ natToCharsCore fuel n → isDigitCh c = true := by
  induction fuel with
  | zero =>
      intro n c hc
      simp [natToCharsCore] at hc
  | succ fuel ih =>
      intro n c hc
      rw [natToCharsCore] at hc
      by_cases h : n = 0
      · rw [if_pos h] at hc
        cases hc
      · rw [if_neg h] at hc
        rcases List.mem_append.mp hc with h1 | h1
        · exact ih (n / 10) c h1
        · simp only [List.mem_cons, List.not_mem_nil, or_false] at h1
          rw [h1]
          exact isDigitCh_digitChar _ (by omega)

theorem isDigit_natToChars (n : ℕ) :
    ∀ c ∈ natToChars n, isDigitCh c = true := by
  unfold natToChars
  by_cases h : n = 0
  · intro c hc
    rw [if_pos h] at hc
    simp only [List.mem_cons, List.not_mem_nil, or_false] at hc
    rw [hc]
    decide
  · intro c hc
    rw [if_neg h] at hc
    exact isDigit_natToCharsCore n n c hc

theorem parseMomentL_valid (l : List Char) (d : DateTime)
    (h : parseMomentL l = some d) : ValidDate d := by
  unfold parseMomentL at h
  split at h
  · split at h
    · split at h
      · rename_i hval
        dsimp only at h
        split at h
        · cases h
          assumption
        · cases h
      · cases h
    · cases h
  · cases h

/-! #### Format / parse round trips -/

theorem digitsVal_pad2 (n : ℕ) (h : n < 100) : digitsVal (pad2 n) = n := by
  unfold pad2 digitsVal
  simp only [List.foldl_cons, List.foldl_nil]
  rw [digitVal_digitChar _ (Nat.mod_lt _ (by norm_num)),
    digitVal_digitChar _ (Nat.mod_lt _ (by norm_num))]
  omega

theorem digitsVal_pad4 (n : ℕ) (h : n < 10000) : digitsVal (pad4 n) = n := by
  unfold pad4 digitsVal
  simp only [List.foldl_cons, List.foldl_nil]
  rw [digitVal_digitChar _ (Nat.mod_lt _ (by norm_num)),
    digitVal_digitChar _ (Nat.mod_lt _ (by norm_num)),
    digitVal_digitChar _ (Nat.mod_lt _ (by norm_num)),
    digitVal_digitChar _ (Nat.mod_lt _ (by norm_num))]
  omega

theorem isDigitCh_pad2 (n : ℕ) : ∀ c ∈ pad2 n, isDigitCh c = true := by
  intro c hc
  simp only [pad2, List.mem_cons, List.not_mem_nil, or_false] at hc
  rcases hc with rfl | rfl
  · exact isDigitCh_digitChar _ (Nat.mod_lt _ (by norm_num))
  · exact isDigitCh_digitChar _ (Nat.mod_lt _ (by norm_num))

theorem parseMomentL_formatFull (d : DateTime) (hv : ValidDate d)
    (hy : d.year < 10000) : parseMomentL (formatFull d) = some d := by
  obtain ⟨y, mo, da, hh, mi, ss⟩ := d
  obtain ⟨h1, h2, h3, h4, h5, h6, h7⟩ := hv
  simp only at h1 h2 h3 h4 h5 h6 h7 hy
  have hda : da < 100 := by
    have := daysInMonth_le y mo
    omega
  have e1 : isDigitCh (digitChar (y / 1000 % 10)) = true :=
    isDigitCh_digitChar _ (Nat.mod_lt _ (by norm_num))
  have e2 : isDigitCh (digitChar (y / 100 % 10)) = true :=
    isDigitCh_digitChar _ (Nat.mod_lt _ (by norm_num))
  have e3 : isDigitCh (digitChar (y / 10 % 10)) = true :=
    isDigitCh_digitChar _ (Nat.mod_lt _ (by norm_num))
  have e4 : isDigitCh (digitChar (y % 10)) = true :=
    isDigitCh_digitChar _ (Nat.mod_lt _ (by norm_num))
  have e5 : isDigitCh (digitChar (mo / 10 % 10)) = true :=
    isDigitCh_digitChar _ (Nat.mod_lt _ (by norm_num))
  have e6 : isDigitCh (digitChar (mo % 10)) = true :=
    isDigitCh_digitChar _ (Nat.mod_lt _ (by norm_num))
  have e7 : isDigitCh (digitChar (da / 10 % 10)) = true :=
    isDigitCh_digitChar _ (Nat.mod_lt _ (by norm_num))
  have e8 : isDigitCh (digitChar (da % 10)) = true :=
    isDigitCh_digitChar _ (Nat.mod_lt _ (by norm_num))
  have e9 : isDigitCh (digitChar (hh / 10 % 10)) = true :=
    isDigitCh_digitChar _ (Nat.mod_lt _ (by norm_num))
  have e10 : isDigitCh (digitChar (hh % 10)) = true :=
    isDigitCh_digitChar _ (Nat.mod_lt _ (by norm_num))
  have e11 : isDigitCh (digitChar (mi / 10 % 10)) = true :=
    isDigitCh_digitChar _ (Nat.mod_lt _ (by norm_num))
  have e12 : isDigitCh (digitChar (mi % 10)) = true :=
    isDigitCh_digitChar _ (Nat.mod_lt _ (by norm_num))
  have e13 : isDigitCh (digitChar (ss / 10 % 10)) = true :=
    isDigitCh_digitChar _ (Nat.mod_lt _ (by norm_num))
  have e14 : isDigitCh (digitChar (ss % 10)) = true :=
    isDigitCh_digitChar _ (Nat.mod_lt _ (by norm_num))
  have vmo : digitsVal (pad2 mo) = mo := digitsVal_pad2 _ (by omega)
  have vda : digitsVal (pad2 da) = da := digitsVal_pad2 _ hda
  have vhh : digitsVal (pad2 hh) = hh := digitsVal_pad2 _ (by omega)
  have vmi : digitsVal (pad2 mi) = mi := digitsVal_pad2 _ (by omega)
  have vss : digitsVal (pad2 ss) = ss := digitsVal_pad2 _ (by omega)
  have vy : digitsVal (pad4 y) = y := digitsVal_pad4 _ hy
  simp only [formatFull, pad4, pad2, List.cons_append, List.nil_append]
  simp only [parseMomentL, parseTimePart, e1, e2, e3, e4, e5, e6, e7, e8, e9,
    e10, e11, e12, e13, e14, Bool.and_self, Bool.and_true, Bool.true_and,
    if_true]
  simp only [pad4, pad2, digitsVal] at vmo vda vhh vmi vss vy
  simp only [digitsVal]
  rw [vmo, vda, vhh, vmi, vss, vy]
  rw [if_pos]
  exact ⟨h1, h2, h3, h4, h5, h6, h7⟩

theorem parseMomentL_formatDateOnly (d : DateTime) (hv : ValidDate d)
    (hy : d.year < 10000) (ht : d.hour = 0) (htm : d.minute = 0)
    (hts : d.second = 0) : parseMomentL (formatDateOnly d) = some d := by
  obtain ⟨y, mo, da, hh, mi, ss⟩ := d
  obtain ⟨h1, h2, h3, h4, h5, h6, h7⟩ := hv
  simp only at h1 h2 h3 h4 h5 h6 h7 hy ht htm hts
  subst ht htm hts
  have hda : da < 100 := by
    have := daysInMonth_le y mo
    omega
  have e1 : isDigitCh (digitChar (y / 1000 % 10)) = true :=
    isDigitCh_digitChar _ (Nat.mod_lt _ (by norm_num))
  have e2 : isDigitCh (digitChar (y / 100 % 10)) = true :=
    isDigitCh_digitChar _ (Nat.mod_lt _ (by norm_num))
  have e3 : isDigitCh (digitChar (y / 10 % 10)) = true :=
    isDigitCh_digitChar _ (Nat.mod_lt _ (by norm_num))
  have e4 : isDigitCh (digitChar (y % 10)) = true :=
    isDigitCh_digitChar _ (Nat.mod_lt _ (by norm_num))
  have e5 : isDigitCh (digitChar (mo / 10 % 10)) = true :=
    isDigitCh_digitChar _ (Nat.mod_lt _ (by norm_num))
  have e6 : isDigitCh (digitChar (mo % 10)) = true :=
    isDigitCh_digitChar _ (Nat.mod_lt _ (by norm_num))
  have e7 : isDigitCh (digitChar (da / 10 % 10)) = true :=
    isDigitCh_digitChar _ (Nat.mod_lt _ (by norm_num))
  have e8 : isDigitCh (digitChar (da % 10)) = true :=
    isDigitCh_digitChar _ (Nat.mod_lt _ (by norm_num))
  have vmo : digitsVal (pad2 mo) = mo := digitsVal_pad2 _ (by omega)
  have vda : digitsVal (pad2 da) = da := digitsVal_pad2 _ hda
  have vy : digitsVal (pad4 y) = y := digitsVal_pad4 _ hy
  simp only [formatDateOnly, pad4, pad2, List.cons_append, List.nil_append]
  simp only [parseMomentL, parseTimePart, e1, e2, e3, e4, e5, e6, e7, e8,
    Bool.and_self, Bool.and_true, Bool.true_and, if_true]
  simp only [pad4, pad2, digitsVal] at vmo vda vy
  simp only [digitsVal]
  rw [vmo, vda, vy]
  rw [if_pos]
  exact ⟨h1, h2, h3, h4, Nat.zero_le 23, Nat.zero_le 59, Nat.zero_le 59⟩

theorem timePatAt_ne_T (c : Char) (rest : List Char) (hc : c ≠ 'T') :
    timePatAt (c :: rest) = false := by
  unfold timePatAt
  split
  · rename_i c0 c1 c2 c3 c4 c5 t heq
    injection heq with e0 e1
    subst e0
    simp [hc]
  · rfl

theorem hasTimePattern_eq_false (l : List Char) (h : ∀ c ∈ l, c ≠ 'T') :
    hasTimePattern l = false := by
  induction l with
  | nil => rfl
  | cons c rest ih =>
      unfold hasTimePattern
      rw [timePatAt_ne_T c rest (h c (List.mem_cons_self c rest)),
        ih (fun x hx => h x (List.mem_cons_of_mem c hx))]
      rfl

theorem hasTimePattern_append_right (l t : List Char)
    (h : hasTimePattern t = true) : hasTimePattern (l ++ t) = true := by
  induction l with
  | nil => simpa using h
  | cons c rest ih =>
      show (timePatAt (c :: (rest ++ t)) || hasTimePattern (rest ++ t)) = true
      rw [ih]
      exact Bool.or_true _

theorem digitChar_ne_T (n : ℕ) : digitChar n ≠ 'T' := by
  unfold digitChar
  split <;> decide

theorem digitChar_ne_dash (n : ℕ) : digitChar n ≠ '-' := by
  unfold digitChar
  split <;> decide

theorem hasTimePattern_formatFull (d : DateTime) :
    hasTimePattern (formatFull d) = true := by
  unfold formatFull
  rw [show pad4 d.year ++ '-' :: pad2 d.month ++ '-' :: pad2 d.day ++
      'T' :: pad2 d.hour ++ ':' :: pad2 d.minute ++ ':' :: pad2 d.second =
      (pad4 d.year ++ '-' :: pad2 d.month ++ '-' :: pad2 d.day) ++
      ('T' :: pad2 d.hour ++ ':' :: pad2 d.minute ++ ':' :: pad2 d.second)
    by simp]
  apply hasTimePattern_append_right
  show (timePatAt _ || _) = true
  unfold pad2
  simp only [List.append_eq, List.cons_append, List.nil_append]
  unfold timePatAt
  dsimp only
  rw [isDigitCh_digitChar _ (Nat.mod_lt _ (by norm_num)),
    isDigitCh_digitChar _ (Nat.mod_lt _ (by norm_num)),
    isDigitCh_digitChar _ (Nat.mod_lt _ (by norm_num)),
    isDigitCh_digitChar _ (Nat.mod_lt _ (by norm_num))]
  simp

theorem hasTimePattern_formatDateOnly (d : DateTime) :
    hasTimePattern (formatDateOnly d) = false := by
  apply hasTimePattern_eq_false
  intro c hc
  unfold formatDateOnly pad4 pad2 at hc
  simp only [List.cons_append, List.nil_append, List.mem_cons,
    List.not_mem_nil, or_false] at hc
  rcases hc with rfl | rfl | rfl | rfl | rfl | rfl | rfl | rfl | rfl | rfl
    <;> first
      | exact digitChar_ne_T _
      | decide

/-! ### The recurrence grammar (`parseRecurrence`, lines 11-56)

The two regexes `^(\d+)\s*(d|w|m|y)(c)?$` and
`^(\d+)\s*(day|days|week|weeks|month|months|year|years)(\s+after\s+completion)?$`
are deterministic on their anchored inputs (every quantified class is
followed by a character it cannot match), so they are embedded as direct
scanners.  JS `\s` and `trim()` are modelled by the whitespace characters
the program can meet (space, tab, CR, LF); `toLowerCase` by ASCII
lowercasing. -/

/-! ### Loop characterization lemmas -/

theorem ensureFutureFuel_eq_of_le (now : DateTime) (r : RecurrenceInfo)
    (ha : 1 ≤ r.amount) (N : ℕ) (d : DateTime) (hv : ValidDate d)
    (hb : toStamp now ≤ toStamp d + 86400 * N) :
    ∀ j, ensureFutureFuel (N + j) now r d = ensureFutureFuel N now r d := by
  intro j
  induction j with
  | zero => rfl
  | succ j ih =>
      have hstep : ensureFutureFuel (N + j + 1) now r d =
          ensureFutureFuel (N + j) now r d :=
        ensureFutureFuel_stable now r ha (N + j) d hv (by omega)
      rw [show N + (j + 1) = N + j + 1 by omega, hstep, ih]

theorem missedLoop_eq_of_le (now : DateTime) (r : RecurrenceInfo)
    (ha : 1 ≤ r.amount) (N : ℕ) (d : DateTime) (hv : ValidDate d)
    (hb : toStamp now ≤ toStamp d + 86400 * N) :
    ∀ j, missedLoop (N + j) now r d = missedLoop N now r d := by
  intro j
  induction j with
  | zero => rfl
  | succ j ih =>
      have hstep : missedLoop (N + j + 1) now r d =
          missedLoop (N + j) now r d :=
        missedLoop_stable now r ha (N + j) d hv (by omega)
      rw [show N + (j + 1) = N + j + 1 by omega, hstep, ih]

/-- What the enumeration loop produces, with enough fuel: the head date
plus every iterated increment whose timestamp is at most `now`, in
iteration (chronological) order, ending at the last one at most `now`. -/
theorem missedLoop_spec (now : DateTime) (r : RecurrenceInfo)
    (ha : 1 ≤ r.amount) :
    ∀ fuel d, ValidDate d → toStamp d ≤ toStamp now →
      toStamp now ≤ toStamp d + 86400 * fuel →
      ∃ n, d :: missedLoop fuel now r d =
          (List.range (n + 1)).map
            (fun i => (fun x => addRecurrencePeriod x r)^[i] d) ∧
        (∀ i ≤ n,
          toStamp ((fun x => addRecurrencePeriod x r)^[i] d) ≤ toStamp now) ∧
        toStamp now <
          toStamp ((fun x => addRecurrencePeriod x r)^[n + 1] d) := by
  intro fuel
  induction fuel with
  | zero =>
      intro d hv hle hb
      refine ⟨0, ?_, ?_, ?_⟩
      · rw [show missedLoop 0 now r d = [] from rfl]
        simp
      · intro i hi
        interval_cases i
        simpa using hle
      · have h1 : (fun x => addRecurrencePeriod x r)^[0 + 1] d =
            addRecurrencePeriod d r := by
          rw [Function.iterate_succ_apply, Function.iterate_zero]
          rfl
        rw [h1]
        have := toStamp_step d r hv ha
        omega
  | succ fuel ih =>
      intro d hv hle hb
      have hstep := toStamp_step d r hv ha
      obtain ⟨_, hv2⟩ := addRecurrencePeriod_step d r hv ha
      by_cases hc : toStamp now < toStamp (addRecurrencePeriod d r)
      · have he : missedLoop (fuel + 1) now r d = [] := by
          show (if toStamp now < toStamp (addRecurrencePeriod d r) then []
                else _) = ([] : List DateTime)
          simp [hc]
        refine ⟨0, ?_, ?_, ?_⟩
        · rw [he]
          simp
        · intro i hi
          interval_cases i
          simpa using hle
        · have h1 : (fun x => addRecurrencePeriod x r)^[0 + 1] d =
              addRecurrencePeriod d r := by
            rw [Function.iterate_succ_apply, Function.iterate_zero]
            rfl
          rw [h1]
          exact hc
      · have he : missedLoop (fuel + 1) now r d =
            addRecurrencePeriod d r ::
              missedLoop fuel now r (addRecurrencePeriod d r) := by
          show (if toStamp now < toStamp (addRecurrencePeriod d r) then []
                else _) = _
          simp [hc]
        obtain ⟨n, e, hall, hgt⟩ :=
          ih (addRecurrencePeriod d r) hv2 (by omega) (by omega)
        refine ⟨n + 1, ?_, ?_, ?_⟩
        · have shift : ∀ i : ℕ,
              (fun x => addRecurrencePeriod x r)^[i]
                  (addRecurrencePeriod d r) =
                (fun x => addRecurrencePeriod x r)^[i + 1] d := by
            intro i
            rw [← Function.iterate_succ_apply]
          rw [he, show (List.range (n + 1 + 1)) =
              0 :: (List.range (n + 1)).map Nat.succ from
              List.range_succ_eq_map (n + 1)]
          simp only [List.map_cons, Function.iterate_zero, id_eq,
            List.map_map]
          refine congrArg (List.cons d) ?_
          rw [e]
          apply List.map_congr_left
          intro i _
          simp only [Function.comp_apply]
          rw [shift i]
        · intro i hi
          cases i with
          | zero => simpa using hle
          | succ i =>
              rw [Function.iterate_succ_apply]
              exact hall i (by omega)
        · rw [Function.iterate_succ_apply]
          exact hgt

/-! ## Claim theorems -/

theorem fmIsStrEq_eq_true (x : FMValue) (v : String) :
    fmIsStrEq x v = true ↔ x = FMValue.str v := by
  cases x <;> simp [fmIsStrEq]

/-- C10: `isNoteATask` returns false whenever the frontmatter mapping is
absent, or the configured type-property name is empty, or the configured
type-value is empty, regardless of the document's properties; otherwise
it is true exactly when the named property's value strictly equals the
type-value or is an array containing it. -/
theorem isNoteATask_characterization :
    (∀ p v, isNoteATask none p v = false) ∧
    (∀ fm v, isNoteATask (some fm) "" v = false) ∧
    (∀ fm p, isNoteATask (some fm) p "" = false) ∧
    (∀ fm p v, p ≠ "" → v ≠ "" →
      (isNoteATask (some fm) p v = true ↔
        fm.lookup p = some (FMValue.str v) ∨
          ∃ l, fm.lookup p = some (FMValue.arr l) ∧ FMValue.str v ∈ l)) := by
  refine ⟨fun p v => rfl, ?_, ?_, ?_⟩
  · intro fm v
    simp [isNoteATask]
  · intro fm p
    simp [isNoteATask]
  · intro fm p v hp hv
    unfold isNoteATask
    dsimp only
    rw [if_neg (by simp [hp, hv])]
    cases hl : List.lookup p fm with
    | none => simp [hl]
    | some w =>
        simp only [hl]
        cases w with
        | str s => simp [fmIsStrEq]
        | boolean b => simp [fmIsStrEq]
        | num n => simp [fmIsStrEq]
        | arr l =>
            simp [List.any_eq_true, fmIsStrEq_eq_true]
        | null => simp [fmIsStrEq]

/-- Witness for C10 at a concrete frontmatter. -/
theorem isNoteATask_characterization_witness :
    isNoteATask (some [("Type", FMValue.str "Task")]) "Type" "Task" = true :=
  (isNoteATask_characterization.2.2.2 [("Type", FMValue.str "Task")]
    "Type" "Task" (by decide) (by decide)).mpr (Or.inl rfl)

/-- C2 (counterexample): with mode `from_due`, the returned date can land
exactly on "now" — not strictly after it.  Due `2022-12-25`, rule `1w`,
evaluated at now = `2023-01-01T00:00:00`: the loop guard
`while (baseMoment.isBefore(now))` already fails at `2023-01-01`, which
equals now. -/
theorem calculateNextDueDate_not_strictly_after :
    calculateNextDueDate 5 ⟨2023, 1, 1, 0, 0, 0⟩ "2022-12-25" "2022-12-31"
        ⟨1, RUnit.week, RMode.after_due⟩ = some "2023-01-01" ∧
    parseMomentL ("2023-01-01".data) = some ⟨2023, 1, 1, 0, 0, 0⟩ ∧
    ¬ toStamp (⟨2023, 1, 1, 0, 0, 0⟩ : DateTime) <
        toStamp (⟨2023, 1, 1, 0, 0, 0⟩ : DateTime) := by
  refine ⟨by decide, by decide, by omega⟩

/-- C2 (amended): with mode `from_due` and a positive amount, the date
rendered by `calculateNextDueDate` is never strictly before "now" — it is
at or after now (equality occurs when an increment lands exactly on the
evaluation instant).  The `fuel` bound is the embedding of the unbounded
loop; any fuel at least `(now - first increment) / 1 day` suffices. -/
theorem calculateNextDueDate_ge_now (fuel : ℕ) (now : DateTime)
    (due comp : String) (r : RecurrenceInfo) (dueM compM : DateTime)
    (hm : r.mode = RMode.after_due) (ha : 1 ≤ r.amount)
    (h1 : parseMomentL due.data = some dueM)
    (h2 : parseMomentL comp.data = some compM)
    (hfuel : toStamp now ≤
      toStamp (addRecurrencePeriod dueM r) + 86400 * fuel) :
    ∃ res : DateTime,
      calculateNextDueDate fuel now due comp r =
        some (String.mk (if hasTimePattern due.data then formatFull res
                         else formatDateOnly res)) ∧
      ¬ toStamp res < toStamp now := by
  have hv : ValidDate dueM := parseMomentL_valid _ _ h1
  obtain ⟨_, hv2⟩ := addRecurrencePeriod_step dueM r hv ha
  refine ⟨ensureFutureFuel fuel now r (addRecurrencePeriod dueM r), ?_, ?_⟩
  · unfold calculateNextDueDate
    rw [h1, h2]
    dsimp only
    rw [hm]
    simp only [reduceCtorEq, if_false, if_true, reduceIte]
  · exact ensureFutureFuel_done now r ha fuel _ hv2 hfuel

/-- Witness for the amended C2 at the catch-up example of the spec:
due `2023-01-01`, rule `1w`, now = `2023-03-01`. -/
theorem calculateNextDueDate_ge_now_witness :
    ∃ res : DateTime,
      calculateNextDueDate 60 ⟨2023, 3, 1, 0, 0, 0⟩ "2023-01-01"
          "2023-03-01" ⟨1, RUnit.week, RMode.after_due⟩ =
        some (String.mk
          (if hasTimePattern ("2023-01-01".data) then formatFull res
           else formatDateOnly res)) ∧
      ¬ toStamp res < toStamp (⟨2023, 3, 1, 0, 0, 0⟩ : DateTime) :=
  calculateNextDueDate_ge_now 60 ⟨2023, 3, 1, 0, 0, 0⟩ "2023-01-01"
    "2023-03-01" ⟨1, RUnit.week, RMode.after_due⟩ ⟨2023, 1, 1, 0, 0, 0⟩
    ⟨2023, 3, 1, 0, 0, 0⟩ rfl (by decide) (by decide) (by decide) (by decide)

/-- C3 (counterexample): the boundaries are non-strict in the code.  For
due `2023-01-01`, rule `1w`, now = `2023-01-22T00:00:00`, the date equal
to now (`2023-01-22`) is included (4 entries, not 3); and for a due date
exactly equal to now — not strictly in the past — the result is the
one-element list, not the empty one. -/
theorem getMissedRecurrences_boundary :
    getMissedRecurrences 30 ⟨2023, 1, 22, 0, 0, 0⟩ "2023-01-01"
        ⟨1, RUnit.week, RMode.after_due⟩ =
      some ["2023-01-01T00:00:00", "2023-01-08T00:00:00",
            "2023-01-15T00:00:00", "2023-01-22T00:00:00"] ∧
    getMissedRecurrences 30 ⟨2023, 1, 1, 0, 0, 0⟩ "2023-01-01"
        ⟨1, RUnit.week, RMode.after_due⟩ =
      some ["2023-01-01T00:00:00"] := by
  refine ⟨by decide, by decide⟩

/-- C3 (amended): `getMissedRecurrences` is empty exactly when the mode is
`from_completion` or the due date is strictly after "now"; otherwise it
returns the due date followed by every iterated increment whose timestamp
is at most "now" (a date equal to now is included), in chronological
order, ending at the last such date. -/
theorem getMissedRecurrences_characterization (fuel : ℕ) (now : DateTime)
    (due : String) (r : RecurrenceInfo) (dueM : DateTime)
    (hp : parseMomentL due.data = some dueM) (ha : 1 ≤ r.amount)
    (hfuel : toStamp now ≤ toStamp dueM + 86400 * fuel) :
    (getMissedRecurrences fuel now due r = some [] ↔
      r.mode ≠ RMode.after_due ∨ toStamp now < toStamp dueM) ∧
    (r.mode = RMode.after_due → toStamp dueM ≤ toStamp now →
      ∃ n, getMissedRecurrences fuel now due r =
          some ((List.range (n + 1)).map
            (fun i => String.mk (formatFull
              ((fun x => addRecurrencePeriod x r)^[i] dueM)))) ∧
        (∀ i ≤ n,
          toStamp ((fun x => addRecurrencePeriod x r)^[i] dueM) ≤
            toStamp now) ∧
        toStamp now <
          toStamp ((fun x => addRecurrencePeriod x r)^[n + 1] dueM)) := by
  have hv : ValidDate dueM := parseMomentL_valid _ _ hp
  constructor
  · by_cases hm : r.mode = RMode.after_due
    · unfold getMissedRecurrences
      rw [hp]
      simp only [hm, ne_eq, not_true_eq_false, if_false, reduceIte]
      by_cases hlt : toStamp now < toStamp dueM
      · simp [hlt]
      · simp only [hlt, if_false, reduceIte]
        constructor
        · intro h
          simp at h
        · rintro (h | h) <;> exact h.elim
    · unfold getMissedRecurrences
      simp [hm]
  · intro hm hle
    unfold getMissedRecurrences
    rw [hp]
    simp only [hm, ne_eq, not_true_eq_false, if_false, reduceIte]
    have hnlt : ¬ toStamp now < toStamp dueM := by omega
    simp only [hnlt, if_false, reduceIte]
    obtain ⟨n, e, hall, hgt⟩ := missedLoop_spec now r ha fuel dueM hv hle hfuel
    refine ⟨n, ?_, hall, hgt⟩
    rw [e, List.map_map]
    rfl

/-- Witness for the amended C3 at the 4-entry example. -/
theorem getMissedRecurrences_characterization_witness :
    getMissedRecurrences 30 ⟨2023, 1, 22, 0, 0, 0⟩ "2023-01-01"
        ⟨1, RUnit.week, RMode.after_due⟩ = some [] ↔
      (⟨1, RUnit.week, RMode.after_due⟩ : RecurrenceInfo).mode ≠
          RMode.after_due ∨
        toStamp (⟨2023, 1, 22, 0, 0, 0⟩ : DateTime) <
          toStamp (⟨2023, 1, 1, 0, 0, 0⟩ : DateTime) :=
  (getMissedRecurrences_characterization 30 ⟨2023, 1, 22, 0, 0, 0⟩
    "2023-01-01" ⟨1, RUnit.week, RMode.after_due⟩ ⟨2023, 1, 1, 0, 0, 0⟩
    (by decide) (by decide) (by decide)).1

/-- C6 (counterexample): when the due date string carries a time
component, the `from_completion` result is not one increment past the
completion *time*: the completion date is re-stamped with the original
due date's time-of-day first.  Due `2023-01-01T09:00`, completed
`2023-06-15T17:30`, rule `1dc`: one increment past the completion time
would render `2023-06-16T17:30:00`, but the function returns
`2023-06-16T09:00:00`. -/
theorem calculateNextDueDate_from_completion_time_component :
    calculateNextDueDate 5 ⟨2023, 6, 15, 23, 0, 0⟩ "2023-01-01T09:00"
        "2023-06-15T17:30" ⟨1, RUnit.day, RMode.after_completion⟩ =
      some "2023-06-16T09:00:00" ∧
    parseMomentL ("2023-06-15T17:30".data) =
      some ⟨2023, 6, 15, 17, 30, 0⟩ ∧
    String.mk (formatFull (addRecurrencePeriod ⟨2023, 6, 15, 17, 30, 0⟩
        ⟨1, RUnit.day, RMode.after_completion⟩)) = "2023-06-16T17:30:00" ∧
    ("2023-06-16T09:00:00" : String) ≠ "2023-06-16T17:30:00" := by
  refine ⟨by decide, by decide, by decide, by decide⟩

/-- C6 (amended): with mode `from_completion` no catch-up loop is applied
— the result is independent of the evaluation instant (and of the loop
fuel), even when it lies in the past; it is exactly one `amount`-`unit`
increment past the completion instant when the due date is date-only, and
past the completion instant re-stamped with the due date's time-of-day
when the due date has a time component.  The spec's example holds: due
`2023-01-01`, completed `2023-06-15`, rule `2dc` gives `2023-06-17` even
evaluated at the end of 2023. -/
theorem calculateNextDueDate_from_completion (fuel fuel2 : ℕ)
    (now now2 : DateTime) (due comp : String) (r : RecurrenceInfo)
    (dueM compM : DateTime) (hm : r.mode = RMode.after_completion)
    (h1 : parseMomentL due.data = some dueM)
    (h2 : parseMomentL comp.data = some compM) :
    calculateNextDueDate fuel now due comp r =
        calculateNextDueDate fuel2 now2 due comp r ∧
    calculateNextDueDate fuel now due comp r =
      some (String.mk (if hasTimePattern due.data then
        formatFull (addRecurrencePeriod
          { compM with
            hour := dueM.hour
            minute := dueM.minute
            second := dueM.second } r)
      else formatDateOnly (addRecurrencePeriod compM r))) ∧
    calculateNextDueDate 5 ⟨2023, 12, 31, 0, 0, 0⟩ "2023-01-01" "2023-06-15"
        ⟨2, RUnit.day, RMode.after_completion⟩ = some "2023-06-17" := by
  refine ⟨?_, ?_, by decide⟩
  · unfold calculateNextDueDate
    rw [h1, h2]
    dsimp only
    rw [hm]
    simp only [reduceIte, reduceCtorEq]
  · unfold calculateNextDueDate
    rw [h1, h2]
    dsimp only
    rw [hm]
    simp only [reduceIte, reduceCtorEq]
    by_cases ht : hasTimePattern due.data
    · simp [ht]
    · simp [ht]

/-- Witness for the amended C6 at the spec's example inputs. -/
theorem calculateNextDueDate_from_completion_witness :
    calculateNextDueDate 3 ⟨2023, 12, 31, 0, 0, 0⟩ "2023-01-01" "2023-06-15"
        ⟨2, RUnit.day, RMode.after_completion⟩ =
      calculateNextDueDate 7 ⟨2024, 5, 1, 0, 0, 0⟩ "2023-01-01" "2023-06-15"
        ⟨2, RUnit.day, RMode.after_completion⟩ :=
  (calculateNextDueDate_from_completion 3 7 ⟨2023, 12, 31, 0, 0, 0⟩
    ⟨2024, 5, 1, 0, 0, 0⟩ "2023-01-01" "2023-06-15"
    ⟨2, RUnit.day, RMode.after_completion⟩ ⟨2023, 1, 1, 0, 0, 0⟩
    ⟨2023, 6, 15, 0, 0, 0⟩ rfl (by decide) (by decide)).1

/-- C9 (counterexample): `parseRecurrence` accepts `"0d"` with amount 0
(the `\d+` group matches `0` and no positivity check is applied), and on
that rule neither loop terminates: the catch-up loop never reaches its
stopping condition (the value stays strictly before "now" at every fuel),
and the enumeration loop never stabilises (each extra fuel appends one
more copy of the due date). -/
theorem loops_diverge_on_zero_amount :
    parseRecurrence "0d" = some ⟨0, RUnit.day, RMode.after_due⟩ ∧
    ¬ (∃ fuel : ℕ, ¬ toStamp (ensureFutureFuel fuel ⟨2023, 1, 2, 0, 0, 0⟩
        ⟨0, RUnit.day, RMode.after_due⟩ ⟨2023, 1, 1, 0, 0, 0⟩) <
          toStamp (⟨2023, 1, 2, 0, 0, 0⟩ : DateTime)) ∧
    ¬ (∃ fuel : ℕ, missedLoop (fuel + 1) ⟨2023, 1, 2, 0, 0, 0⟩
        ⟨0, RUnit.day, RMode.after_due⟩ ⟨2023, 1, 1, 0, 0, 0⟩ =
      missedLoop fuel ⟨2023, 1, 2, 0, 0, 0⟩
        ⟨0, RUnit.day, RMode.after_due⟩ ⟨2023, 1, 1, 0, 0, 0⟩) := by
  have hid : addRecurrencePeriod ⟨2023, 1, 1, 0, 0, 0⟩
      ⟨0, RUnit.day, RMode.after_due⟩ = ⟨2023, 1, 1, 0, 0, 0⟩ := rfl
  have hlt : toStamp (⟨2023, 1, 1, 0, 0, 0⟩ : DateTime) <
      toStamp (⟨2023, 1, 2, 0, 0, 0⟩ : DateTime) := by decide
  have hfix : ∀ fuel, ensureFutureFuel fuel ⟨2023, 1, 2, 0, 0, 0⟩
      ⟨0, RUnit.day, RMode.after_due⟩ ⟨2023, 1, 1, 0, 0, 0⟩ =
      ⟨2023, 1, 1, 0, 0, 0⟩ := by
    intro fuel
    induction fuel with
    | zero => rfl
    | succ fuel ih =>
        show (if toStamp (⟨2023, 1, 1, 0, 0, 0⟩ : DateTime) <
              toStamp (⟨2023, 1, 2, 0, 0, 0⟩ : DateTime) then
            ensureFutureFuel fuel ⟨2023, 1, 2, 0, 0, 0⟩
              ⟨0, RUnit.day, RMode.after_due⟩
              (addRecurrencePeriod ⟨2023, 1, 1, 0, 0, 0⟩
                ⟨0, RUnit.day, RMode.after_due⟩)
          else ⟨2023, 1, 1, 0, 0, 0⟩) = ⟨2023, 1, 1, 0, 0, 0⟩
        rw [if_pos hlt, hid, ih]
  have hrep : ∀ fuel, missedLoop fuel ⟨2023, 1, 2, 0, 0, 0⟩
      ⟨0, RUnit.day, RMode.after_due⟩ ⟨2023, 1, 1, 0, 0, 0⟩ =
      List.replicate fuel ⟨2023, 1, 1, 0, 0, 0⟩ := by
    intro fuel
    induction fuel with
    | zero => rfl
    | succ fuel ih =>
        show (if toStamp (⟨2023, 1, 2, 0, 0, 0⟩ : DateTime) <
              toStamp (addRecurrencePeriod ⟨2023, 1, 1, 0, 0, 0⟩
                ⟨0, RUnit.day, RMode.after_due⟩) then []
          else addRecurrencePeriod ⟨2023, 1, 1, 0, 0, 0⟩
              ⟨0, RUnit.day, RMode.after_due⟩ ::
            missedLoop fuel ⟨2023, 1, 2, 0, 0, 0⟩
              ⟨0, RUnit.day, RMode.after_due⟩
              (addRecurrencePeriod ⟨2023, 1, 1, 0, 0, 0⟩
                ⟨0, RUnit.day, RMode.after_due⟩)) = _
        rw [if_neg (by rw [hid]; omega), hid, ih]
        rfl
  refine ⟨by decide, ?_, ?_⟩
  · rintro ⟨fuel, hdone⟩
    rw [hfix fuel] at hdone
    exact hdone hlt
  · rintro ⟨fuel, heq⟩
    rw [hrep fuel, hrep (fuel + 1)] at heq
    have := congrArg List.length heq
    simp at this

/-- C9 (amended): for every rule accepted by `parseRecurrence` whose
amount is positive, both loops terminate by their natural condition
alone: there is a fuel past which the catch-up value and the enumeration
list never change, and at that point the catch-up value has passed "now".
(The loops have no artificial iteration cap: the fuel is only the
embedding of the unbounded `while`.) -/
theorem loops_terminate (s : String) (r : RecurrenceInfo)
    (hp : parseRecurrence s = some r) (ha : 1 ≤ r.amount)
    (now d : DateTime) (hv : ValidDate d) :
    ∃ N, (∀ k, N ≤ k →
        ensureFutureFuel k now r d = ensureFutureFuel N now r d ∧
        missedLoop k now r d = missedLoop N now r d) ∧
      ¬ toStamp (ensureFutureFuel N now r d) < toStamp now := by
  refine ⟨toStamp now, ?_, ?_⟩
  · intro k hk
    obtain ⟨j, rfl⟩ : ∃ j, k = toStamp now + j := ⟨k - toStamp now, by omega⟩
    have hb : toStamp now ≤ toStamp d + 86400 * toStamp now := by
      rcases Nat.eq_zero_or_pos (toStamp now) with h0 | h0 <;> nlinarith
    exact ⟨ensureFutureFuel_eq_of_le now r ha (toStamp now) d hv hb j,
      missedLoop_eq_of_le now r ha (toStamp now) d hv hb j⟩
  · apply ensureFutureFuel_done now r ha (toStamp now) d hv
    rcases Nat.eq_zero_or_pos (toStamp now) with h0 | h0 <;> nlinarith

/-- Witness for the amended C9 on the rule `"1w"` and a concrete pair of
dates. -/
theorem loops_terminate_witness :
    ∃ N, (∀ k, N ≤ k →
        ensureFutureFuel k ⟨2023, 3, 1, 0, 0, 0⟩
            ⟨1, RUnit.week, RMode.after_due⟩ ⟨2023, 1, 1, 0, 0, 0⟩ =
          ensureFutureFuel N ⟨2023, 3, 1, 0, 0, 0⟩
            ⟨1, RUnit.week, RMode.after_due⟩ ⟨2023, 1, 1, 0, 0, 0⟩ ∧
        missedLoop k ⟨2023, 3, 1, 0, 0, 0⟩
            ⟨1, RUnit.week, RMode.after_due⟩ ⟨2023, 1, 1, 0, 0, 0⟩ =
          missedLoop N ⟨2023, 3, 1, 0, 0, 0⟩
            ⟨1, RUnit.week, RMode.after_due⟩ ⟨2023, 1, 1, 0, 0, 0⟩) ∧
      ¬ toStamp (ensureFutureFuel N ⟨2023, 3, 1, 0, 0, 0⟩
          ⟨1, RUnit.week, RMode.after_due⟩ ⟨2023, 1, 1, 0, 0, 0⟩) <
        toStamp (⟨2023, 3, 1, 0, 0, 0⟩ : DateTime) :=
  loops_terminate "1w" ⟨1, RUnit.week, RMode.after_due⟩ (by decide)
    (by decide) ⟨2023, 3, 1, 0, 0, 0⟩ ⟨2023, 1, 1, 0, 0, 0⟩ (by decide)

/-! ### Scanner correctness for the recurrence grammar -/

theorem span_append (p : Char → Bool) (a b : List Char)
    (h1 : ∀ c ∈ a, p c = true)
    (h2 : ∀ c, b.head? = some c → p c = false) :
    (a ++ b).takeWhile p = a ∧ (a ++ b).dropWhile p = b := by
  induction a with
  | nil =>
      simp only [List.nil_append]
      cases b with
      | nil => exact ⟨rfl, rfl⟩
      | cons c t =>
          have hc := h2 c rfl
          simp [List.takeWhile_cons, List.dropWhile_cons, hc]
  | cons c t ih =>
      have hc : p c = true := h1 c (List.mem_cons_self c t)
      have iht := ih (fun x hx => h1 x (List.mem_cons_of_mem c hx))
      simp [List.takeWhile_cons, List.dropWhile_cons, hc, iht.1, iht.2]

theorem mem_of_mem_takeWhile (p : Char → Bool) (l : List Char) :
    ∀ c ∈ l.takeWhile p, p c = true := by
  induction l with
  | nil => intro c hc; cases hc
  | cons x t ih =>
      intro c hc
      rw [List.takeWhile_cons] at hc
      by_cases hx : p x = true
      · simp only [hx, if_true] at hc
        rcases List.mem_cons.mp hc with rfl | hc
        · exact hx
        · exact ih c hc
      · simp only [Bool.not_eq_true] at hx
        simp [hx] at hc

theorem wsCh_not_digit (c : Char) (h : isWSCh c = true) :
    isDigitCh c = false := by
  simp only [isWSCh, Bool.or_eq_true, decide_eq_true_eq] at h
  rcases h with ((rfl | rfl) | rfl) | rfl <;> decide

theorem unit_not_digit (u : Char)
    (h : u = 'd' ∨ u = 'w' ∨ u = 'm' ∨ u = 'y') : isDigitCh u = false := by
  rcases h with rfl | rfl | rfl | rfl <;> decide

theorem unit_not_ws (u : Char)
    (h : u = 'd' ∨ u = 'w' ∨ u = 'm' ∨ u = 'y') : isWSCh u = false := by
  rcases h with rfl | rfl | rfl | rfl <;> decide

/-- The shorthand scanner accepts exactly the language of
`^(\d+)\s*(d|w|m|y)(c)?$`. -/
theorem matchShorthand_some_iff (l : List Char) :
    (∃ r, matchShorthand l = some r) ↔ ShorthandLang l := by
  constructor
  · rintro ⟨r, hr⟩
    unfold matchShorthand at hr
    dsimp only at hr
    split at hr
    · cases hr
    · rename_i hne
      split at hr
      · rename_i u rest3 heq
        split at hr
        · rename_i unit hu
          have hl : l = l.takeWhile isDigitCh ++
              ((l.dropWhile isDigitCh).takeWhile isWSCh ++ (u :: rest3)) := by
            rw [← heq]
            rw [List.takeWhile_append_dropWhile,
              List.takeWhile_append_dropWhile]
          have hu4 : u = 'd' ∨ u = 'w' ∨ u = 'm' ∨ u = 'y' := by
            by_contra hcon
            push_neg at hcon
            obtain ⟨n1, n2, n3, n4⟩ := hcon
            unfold unitOfChar at hu
            rw [if_neg n1, if_neg n2, if_neg n3, if_neg n4] at hu
            cases hu
          have hnn : l.takeWhile isDigitCh ≠ [] := by
            intro hcon
            rw [hcon] at hne
            simp at hne
          split at hr
          · exact ⟨_, _, u, [], by simpa using hl, hnn,
              mem_of_mem_takeWhile _ l, mem_of_mem_takeWhile _ _, hu4,
              Or.inl rfl⟩
          · exact ⟨_, _, u, ['c'], by simpa using hl, hnn,
              mem_of_mem_takeWhile _ l, mem_of_mem_takeWhile _ _, hu4,
              Or.inr rfl⟩
          · cases hr
        · cases hr
      · cases hr
  · rintro ⟨ds, ws, u, copt, rfl, hne, hds, hws, hu, hcopt⟩
    have hud : isDigitCh u = false := unit_not_digit u hu
    have huw : isWSCh u = false := unit_not_ws u hu
    have h2 : ∀ c, (ws ++ u :: copt).head? = some c →
        isDigitCh c = false := by
      cases ws with
      | nil =>
          intro c hc
          simp only [List.nil_append, List.head?_cons,
            Option.some.injEq] at hc
          rw [← hc]
          exact hud
      | cons w t =>
          intro c hc
          simp only [List.cons_append, List.head?_cons,
            Option.some.injEq] at hc
          rw [← hc]
          exact wsCh_not_digit w (hws w (List.mem_cons_self w t))
    have sp1 := span_append isDigitCh ds (ws ++ u :: copt) hds h2
    have h3 : ∀ c, (u :: copt).head? = some c → isWSCh c = false := by
      intro c hc
      simp only [List.head?_cons, Option.some.injEq] at hc
      rw [← hc]
      exact huw
    have sp2 := span_append isWSCh ws (u :: copt) hws h3
    have heval : ∀ unit : RUnit, unitOfChar u = some unit →
        matchShorthand (ds ++ ws ++ u :: copt) =
          (match copt with
           | [] => some ⟨digitsVal ds, unit, RMode.after_due⟩
           | ['c'] => some ⟨digitsVal ds, unit, RMode.after_completion⟩
           | _ => none) := by
      intro unit hun
      unfold matchShorthand
      rw [show ds ++ ws ++ u :: copt = ds ++ (ws ++ u :: copt) by simp]
      dsimp only
      rw [sp1.1, sp1.2, sp2.2]
      rw [if_neg (by simp [hne])]
      dsimp only
      rw [hun]
      rcases hcopt with rfl | rfl <;> rfl
    rcases hu with rfl | rfl | rfl | rfl <;>
      rcases hcopt with rfl | rfl <;>
      exact ⟨_, by rw [heval _ rfl]; try rfl⟩

theorem unitWordAt_of_word (ru : RUnit) (rest : List Char) :
    unitWordAt (unitWordOf ru ++ rest) = some (ru, rest) := by
  cases ru with
  | day =>
      show unitWordAt ('d' :: 'a' :: 'y' :: rest) = _
      unfold unitWordAt
      have hc : List.take 3 ('d' :: 'a' :: 'y' :: rest) = ['d', 'a', 'y'] :=
        rfl
      rw [if_pos hc]
      rfl
  | week =>
      show unitWordAt ('w' :: 'e' :: 'e' :: 'k' :: rest) = _
      unfold unitWordAt
      have hc : List.take 4 ('w' :: 'e' :: 'e' :: 'k' :: rest) =
          ['w', 'e', 'e', 'k'] := rfl
      rw [if_neg (by simp), if_pos hc]
      rfl
  | month =>
      show unitWordAt ('m' :: 'o' :: 'n' :: 't' :: 'h' :: rest) = _
      unfold unitWordAt
      have hc : List.take 5 ('m' :: 'o' :: 'n' :: 't' :: 'h' :: rest) =
          ['m', 'o', 'n', 't', 'h'] := rfl
      rw [if_neg (by simp), if_neg (by simp), if_pos hc]
      rfl
  | year =>
      show unitWordAt ('y' :: 'e' :: 'a' :: 'r' :: rest) = _
      unfold unitWordAt
      have hc : List.take 4 ('y' :: 'e' :: 'a' :: 'r' :: rest) =
          ['y', 'e', 'a', 'r'] := rfl
      rw [if_neg (by simp), if_neg (by simp), if_neg (by simp), if_pos hc]
      rfl

theorem unitWordAt_sound (l : List Char) (ru : RUnit) (r : List Char)
    (h : unitWordAt l = some (ru, r)) : l = unitWordOf ru ++ r := by
  unfold unitWordAt at h
  split_ifs at h with h1 h2 h3 h4
  · obtain ⟨rfl, rfl⟩ : RUnit.day = ru ∧ l.drop 3 = r := by
      cases h
      exact ⟨rfl, rfl⟩
    rw [show unitWordOf RUnit.day = l.take 3 from h1.symm,
      List.take_append_drop]
  · obtain ⟨rfl, rfl⟩ : RUnit.week = ru ∧ l.drop 4 = r := by
      cases h
      exact ⟨rfl, rfl⟩
    rw [show unitWordOf RUnit.week = l.take 4 from h2.symm,
      List.take_append_drop]
  · obtain ⟨rfl, rfl⟩ : RUnit.month = ru ∧ l.drop 5 = r := by
      cases h
      exact ⟨rfl, rfl⟩
    rw [show unitWordOf RUnit.month = l.take 5 from h3.symm,
      List.take_append_drop]
  · obtain ⟨rfl, rfl⟩ : RUnit.year = ru ∧ l.drop 4 = r := by
      cases h
      exact ⟨rfl, rfl⟩
    rw [show unitWordOf RUnit.year = l.take 4 from h4.symm,
      List.take_append_drop]

theorem wordHead_not_ws (ru : RUnit) (rest : List Char) :
    ∀ c, (unitWordOf ru ++ rest).head? = some c → isWSCh c = false := by
  cases ru <;>
    · intro c hc
      simp only [unitWordOf, List.cons_append, List.head?_cons,
        Option.some.injEq] at hc
      rw [← hc]
      decide

theorem wordHead_not_digit (ru : RUnit) (rest : List Char) :
    ∀ c, (unitWordOf ru ++ rest).head? = some c → isDigitCh c = false := by
  cases ru <;>
    · intro c hc
      simp only [unitWordOf, List.cons_append, List.head?_cons,
        Option.some.injEq] at hc
      rw [← hc]
      decide

theorem dropPlural_ne (c : Char) (t : List Char) (hc : c ≠ 's') :
    dropPlural (c :: t) = c :: t := by
  unfold dropPlural
  split
  · rename_i t2 heq
    injection heq with e1 e2
    exact absurd e1 hc
  · rfl

theorem wsCh_ne_s (c : Char) (h : isWSCh c = true) : c ≠ 's' := by
  simp only [isWSCh, Bool.or_eq_true, decide_eq_true_eq] at h
  rcases h with ((rfl | rfl) | rfl) | rfl <;> decide

/-- The trailing-phrase scanner accepts exactly
`(\s+after\s+completion)$`. -/
theorem matchAfterCompletion_true_iff (l : List Char) :
    matchAfterCompletion l = true ↔
      ∃ w1 w2, l = w1 ++ ['a', 'f', 't', 'e', 'r'] ++ w2 ++
          ['c', 'o', 'm', 'p', 'l', 'e', 't', 'i', 'o', 'n'] ∧
        w1 ≠ [] ∧ w2 ≠ [] ∧
        (∀ c ∈ w1, isWSCh c = true) ∧ (∀ c ∈ w2, isWSCh c = true) := by
  constructor
  · intro h
    unfold matchAfterCompletion at h
    dsimp only at h
    split_ifs at h with h1 h2 h3
    have hr3 : ((l.dropWhile isWSCh).drop 5).dropWhile isWSCh =
        ['c', 'o', 'm', 'p', 'l', 'e', 't', 'i', 'o', 'n'] := by
      simpa using h
    refine ⟨l.takeWhile isWSCh, ((l.dropWhile isWSCh).drop 5).takeWhile isWSCh,
      ?_, ?_, ?_, mem_of_mem_takeWhile _ _, mem_of_mem_takeWhile _ _⟩
    · conv_lhs => rw [← List.takeWhile_append_dropWhile (p := isWSCh) (l := l)]
      rw [show l.dropWhile isWSCh =
          (l.dropWhile isWSCh).take 5 ++ (l.dropWhile isWSCh).drop 5 from
          (List.take_append_drop _ _).symm]
      rw [h2]
      conv_lhs => rw [show (l.dropWhile isWSCh).drop 5 =
          ((l.dropWhile isWSCh).drop 5).takeWhile isWSCh ++
            ((l.dropWhile isWSCh).drop 5).dropWhile isWSCh from
          (List.takeWhile_append_dropWhile _ _).symm]
      rw [hr3]
      simp
    · intro hcon
      rw [hcon] at h1
      simp at h1
    · intro hcon
      rw [hcon] at h3
      simp at h3
  · rintro ⟨w1, w2, rfl, hw1, hw2, hall1, hall2⟩
    have sp1 := span_append isWSCh w1
      (['a', 'f', 't', 'e', 'r'] ++
        (w2 ++ ['c', 'o', 'm', 'p', 'l', 'e', 't', 'i', 'o', 'n'])) hall1
      (by intro c hc; simp at hc; rw [← hc]; decide)
    have sp2 := span_append isWSCh w2
      (['c', 'o', 'm', 'p', 'l', 'e', 't', 'i', 'o', 'n']) hall2
      (by intro c hc; simp at hc; rw [← hc]; decide)
    unfold matchAfterCompletion
    dsimp only
    rw [show w1 ++ ['a', 'f', 't', 'e', 'r'] ++ w2 ++
        ['c', 'o', 'm', 'p', 'l', 'e', 't', 'i', 'o', 'n'] =
        w1 ++ (['a', 'f', 't', 'e', 'r'] ++
          (w2 ++ ['c', 'o', 'm', 'p', 'l', 'e', 't', 'i', 'o', 'n'])) by
      simp]
    rw [sp1.1, sp1.2]
    rw [if_neg (by simp [hw1])]
    rw [show (['a', 'f', 't', 'e', 'r'] ++
        (w2 ++ ['c', 'o', 'm', 'p', 'l', 'e', 't', 'i', 'o', 'n'])).take 5 =
        ['a', 'f', 't', 'e', 'r'] from rfl]
    rw [if_pos rfl]
    rw [show (['a', 'f', 't', 'e', 'r'] ++
        (w2 ++ ['c', 'o', 'm', 'p', 'l', 'e', 't', 'i', 'o', 'n'])).drop 5 =
        w2 ++ ['c', 'o', 'm', 'p', 'l', 'e', 't', 'i', 'o', 'n'] from rfl]
    rw [sp2.1, sp2.2]
    rw [if_neg (by simp [hw2])]
    simp

theorem dropPlural_cases (l : List Char) :
    (∃ t, l = 's' :: t ∧ dropPlural l = t) ∨ dropPlural l = l := by
  cases l with
  | nil => right; rfl
  | cons c t =>
      by_cases hc : c = 's'
      · subst hc
        left
        exact ⟨t, rfl, rfl⟩
      · right
        exact dropPlural_ne c t hc

/-- The longform scanner accepts exactly the language of the longform
regex. -/
theorem matchLongform_some_iff (l : List Char) :
    (∃ r, matchLongform l = some r) ↔ LongformLang l := by
  constructor
  · rintro ⟨r, hr⟩
    unfold matchLongform at hr
    dsimp only at hr
    split at hr
    · cases hr
    · rename_i hne
      split at hr
      · rename_i p unit rest heq
        have hword := unitWordAt_sound _ unit rest heq
        have hl : l = l.takeWhile isDigitCh ++
            ((l.dropWhile isDigitCh).takeWhile isWSCh ++
              (unitWordOf unit ++ rest)) := by
          rw [← hword, List.takeWhile_append_dropWhile,
            List.takeWhile_append_dropWhile]
        have hnn : l.takeWhile isDigitCh ≠ [] := by
          intro hcon
          rw [hcon] at hne
          simp at hne
        rcases dropPlural_cases rest with ⟨t, rfl, hdp⟩ | hdp <;>
          rw [hdp] at hr <;>
          split at hr
        · rename_i hemp
          have ht : t = [] := by simpa using hemp
          subst ht
          exact ⟨_, _, unit, ['s'], [], by simpa using hl, hnn,
            mem_of_mem_takeWhile _ l, mem_of_mem_takeWhile _ _,
            Or.inr rfl, Or.inl rfl⟩
        · split at hr
          · rename_i hac
            exact ⟨_, _, unit, ['s'], t, by simpa using hl, hnn,
              mem_of_mem_takeWhile _ l, mem_of_mem_takeWhile _ _,
              Or.inr rfl, Or.inr ((matchAfterCompletion_true_iff t).mp
                (by simpa using hac))⟩
          · cases hr
        · rename_i hemp
          have ht : rest = [] := by simpa using hemp
          subst ht
          exact ⟨_, _, unit, [], [], by simpa using hl, hnn,
            mem_of_mem_takeWhile _ l, mem_of_mem_takeWhile _ _,
            Or.inl rfl, Or.inl rfl⟩
        · split at hr
          · rename_i hac
            exact ⟨_, _, unit, [], rest, by simpa using hl, hnn,
              mem_of_mem_takeWhile _ l, mem_of_mem_takeWhile _ _,
              Or.inl rfl, Or.inr ((matchAfterCompletion_true_iff rest).mp
                (by simpa using hac))⟩
          · cases hr
      · cases hr
  · rintro ⟨ds, ws, ru, sOpt, phrase, rfl, hne, hds, hws, hsopt, hphrase⟩
    have h2 : ∀ c, (ws ++ (unitWordOf ru ++ (sOpt ++ phrase))).head? =
        some c → isDigitCh c = false := by
      cases ws with
      | nil => simpa using wordHead_not_digit ru (sOpt ++ phrase)
      | cons w t =>
          intro c hc
          simp only [List.cons_append, List.head?_cons,
            Option.some.injEq] at hc
          rw [← hc]
          exact wsCh_not_digit w (hws w (List.mem_cons_self w t))
    have sp1 := span_append isDigitCh ds
      (ws ++ (unitWordOf ru ++ (sOpt ++ phrase))) hds h2
    have sp2 := span_append isWSCh ws (unitWordOf ru ++ (sOpt ++ phrase))
      hws (wordHead_not_ws ru (sOpt ++ phrase))
    have hdrop : dropPlural (sOpt ++ phrase) = phrase ∨
        (sOpt = [] ∧ dropPlural (sOpt ++ phrase) = phrase) := by
      rcases hsopt with rfl | rfl
      · left
        rcases hphrase with rfl | ⟨w1, w2, rfl, hw1, hw2, hall1, hall2⟩
        · rfl
        · cases w1 with
          | nil => exact absurd rfl hw1
          | cons w t =>
              simp only [List.nil_append, List.cons_append]
              exact dropPlural_ne w _
                (wsCh_ne_s w (hall1 w (List.mem_cons_self w t)))
      · left
        rfl
    have heval : matchLongform (ds ++ ws ++ (unitWordOf ru ++
        (sOpt ++ phrase))) =
        (if phrase.isEmpty then
          some ⟨digitsVal ds, ru, RMode.after_due⟩
        else if matchAfterCompletion phrase then
          some ⟨digitsVal ds, ru, RMode.after_completion⟩
        else none) := by
      unfold matchLongform
      rw [show ds ++ ws ++ (unitWordOf ru ++ (sOpt ++ phrase)) =
          ds ++ (ws ++ (unitWordOf ru ++ (sOpt ++ phrase))) by simp]
      dsimp only
      rw [sp1.1, sp1.2, sp2.2]
      rw [if_neg (by simp [hne])]
      rw [unitWordAt_of_word ru (sOpt ++ phrase)]
      dsimp only
      rcases hdrop with hd | ⟨_, hd⟩ <;> rw [hd]
    rcases hphrase with rfl | ⟨w1, w2, rfl, hw1, hw2, hall1, hall2⟩
    · refine ⟨⟨digitsVal ds, ru, RMode.after_due⟩, ?_⟩
      rw [show ds ++ ws ++ unitWordOf ru ++ sOpt ++ ([] : List Char) =
          ds ++ ws ++ (unitWordOf ru ++ (sOpt ++ [])) by simp, heval]
      rfl
    · refine ⟨⟨digitsVal ds, ru, RMode.after_completion⟩, ?_⟩
      rw [show ds ++ ws ++ unitWordOf ru ++ sOpt ++
          (w1 ++ ['a', 'f', 't', 'e', 'r'] ++ w2 ++
            ['c', 'o', 'm', 'p', 'l', 'e', 't', 'i', 'o', 'n']) =
          ds ++ ws ++ (unitWordOf ru ++ (sOpt ++
            (w1 ++ ['a', 'f', 't', 'e', 'r'] ++ w2 ++
              ['c', 'o', 'm', 'p', 'l', 'e', 't', 'i', 'o', 'n']))) by simp,
        heval]
      rw [if_neg (by cases w1 with
        | nil => exact absurd rfl hw1
        | cons w t => simp)]
      rw [if_pos ((matchAfterCompletion_true_iff _).mpr
        ⟨w1, w2, rfl, hw1, hw2, hall1, hall2⟩)]

theorem natToChars_ne_nil (n : ℕ) : natToChars n ≠ [] := by
  unfold natToChars
  by_cases h : n = 0
  · simp [h]
  · rw [if_neg h]
    rcases n with _ | m
    · exact absurd rfl h
    · rw [natToCharsCore, if_neg h]
      simp

theorem dropWhile_eq_self (p : Char → Bool) (l : List Char)
    (h : ∀ c, l.head? = some c → p c = false) : l.dropWhile p = l := by
  cases l with
  | nil => rfl
  | cons c t =>
      have := h c rfl
      simp [List.dropWhile_cons, this]

theorem normalizeRec_eq_self (l : List Char)
    (h1 : ∀ c, l.head? = some c → isWSCh c = false)
    (h2 : ∀ c, l.reverse.head? = some c → isWSCh c = false)
    (h3 : ∀ c ∈ l, toLowerCh c = c) : normalizeRec l = l := by
  unfold normalizeRec
  rw [dropWhile_eq_self _ _ h1, dropWhile_eq_self _ _ h2,
    List.reverse_reverse]
  conv_rhs => rw [← List.map_id l]
  exact List.map_congr_left h3

theorem toLowerCh_digitChar (k : ℕ) :
    toLowerCh (digitChar k) = digitChar k := by
  unfold digitChar
  split <;> decide

theorem toLower_natToCharsCore (fuel : ℕ) :
    ∀ n ch, ch ∈ natToCharsCore fuel n → toLowerCh ch = ch := by
  induction fuel with
  | zero =>
      intro n ch hc
      simp [natToCharsCore] at hc
  | succ fuel ih =>
      intro n ch hc
      rw [natToCharsCore] at hc
      by_cases h : n = 0
      · rw [if_pos h] at hc
        cases hc
      · rw [if_neg h] at hc
        rcases List.mem_append.mp hc with h1 | h1
        · exact ih (n / 10) ch h1
        · simp only [List.mem_cons, List.not_mem_nil, or_false] at h1
          rw [h1]
          exact toLowerCh_digitChar _

theorem unitLetter_not_digit (ru : RUnit) :
    isDigitCh (unitLetterOf ru) = false := by
  cases ru <;> decide

theorem unitLetter_not_ws (ru : RUnit) :
    isWSCh (unitLetterOf ru) = false := by
  cases ru <;> decide

theorem unitOfChar_unitLetter (ru : RUnit) :
    unitOfChar (unitLetterOf ru) = some ru := by
  cases ru <;> rfl

/-- The shorthand scanner on a canonical shorthand string. -/
theorem matchShorthand_eval (n : ℕ) (ru : RUnit) (c : Bool) :
    matchShorthand (natToChars n ++ unitLetterOf ru ::
        (if c then ['c'] else [])) =
      some ⟨n, ru, if c then RMode.after_completion else RMode.after_due⟩ := by
  have hds := isDigit_natToChars n
  have h2 : ∀ ch, ((unitLetterOf ru :: (if c then ['c'] else [])) :
      List Char).head? = some ch → isDigitCh ch = false := by
    intro ch hc
    simp only [List.head?_cons, Option.some.injEq] at hc
    rw [← hc]
    exact unitLetter_not_digit ru
  have sp1 := span_append isDigitCh (natToChars n)
    (unitLetterOf ru :: (if c then ['c'] else [])) hds h2
  unfold matchShorthand
  dsimp only
  rw [sp1.1, sp1.2]
  rw [if_neg (by simp [natToChars_ne_nil])]
  rw [dropWhile_eq_self isWSCh _ (by
    intro ch hc
    simp only [List.head?_cons, Option.some.injEq] at hc
    rw [← hc]
    exact unitLetter_not_ws ru)]
  dsimp only
  rw [unitOfChar_unitLetter ru]
  cases c <;> simp [digitsVal_natToChars]

/-- The shorthand scanner rejects every canonical longform string (the
unit word is longer than one letter). -/
theorem matchShorthand_longform_none (n : ℕ) (ru : RUnit) (pl c : Bool) :
    matchShorthand (natToChars n ++ ' ' :: unitWordOf ru ++
        (if pl then ['s'] else []) ++
        (if c then [' ', 'a', 'f', 't', 'e', 'r', ' ', 'c', 'o', 'm', 'p',
          'l', 'e', 't', 'i', 'o', 'n'] else [])) = none := by
  have hds := isDigit_natToChars n
  have h2 : ∀ ch, ((' ' :: unitWordOf ru ++ (if pl then ['s'] else []) ++
      (if c then [' ', 'a', 'f', 't', 'e', 'r', ' ', 'c', 'o', 'm', 'p',
        'l', 'e', 't', 'i', 'o', 'n'] else [])) : List Char).head? =
      some ch → isDigitCh ch = false := by
    intro ch hc
    simp only [List.cons_append, List.head?_cons, Option.some.injEq] at hc
    rw [← hc]
    decide
  have hassoc : natToChars n ++ ' ' :: unitWordOf ru ++
      (if pl then ['s'] else []) ++
      (if c then [' ', 'a', 'f', 't', 'e', 'r', ' ', 'c', 'o', 'm', 'p',
        'l', 'e', 't', 'i', 'o', 'n'] else []) =
      natToChars n ++ (' ' :: unitWordOf ru ++ (if pl then ['s'] else []) ++
        (if c then [' ', 'a', 'f', 't', 'e', 'r', ' ', 'c', 'o', 'm', 'p',
          'l', 'e', 't', 'i', 'o', 'n'] else [])) := by
    simp
  rw [hassoc]
  have sp1 := span_append isDigitCh (natToChars n) _ hds h2
  unfold matchShorthand
  dsimp only
  rw [sp1.1, sp1.2]
  rw [if_neg (by simp [natToChars_ne_nil])]
  cases ru <;> cases pl <;> cases c <;> rfl

/-- The longform scanner on a canonical longform string. -/
theorem matchLongform_eval (n : ℕ) (ru : RUnit) (pl c : Bool) :
    matchLongform (natToChars n ++ ' ' :: unitWordOf ru ++
        (if pl then ['s'] else []) ++
        (if c then [' ', 'a', 'f', 't', 'e', 'r', ' ', 'c', 'o', 'm', 'p',
          'l', 'e', 't', 'i', 'o', 'n'] else [])) =
      some ⟨n, ru, if c then RMode.after_completion else RMode.after_due⟩ := by
  have hds := isDigit_natToChars n
  have h2 : ∀ ch, ((' ' :: unitWordOf ru ++ (if pl then ['s'] else []) ++
      (if c then [' ', 'a', 'f', 't', 'e', 'r', ' ', 'c', 'o', 'm', 'p',
        'l', 'e', 't', 'i', 'o', 'n'] else [])) : List Char).head? =
      some ch → isDigitCh ch = false := by
    intro ch hc
    simp only [List.cons_append, List.head?_cons, Option.some.injEq] at hc
    rw [← hc]
    decide
  have hassoc : natToChars n ++ ' ' :: unitWordOf ru ++
      (if pl then ['s'] else []) ++
      (if c then [' ', 'a', 'f', 't', 'e', 'r', ' ', 'c', 'o', 'm', 'p',
        'l', 'e', 't', 'i', 'o', 'n'] else []) =
      natToChars n ++ (' ' :: unitWordOf ru ++ (if pl then ['s'] else []) ++
        (if c then [' ', 'a', 'f', 't', 'e', 'r', ' ', 'c', 'o', 'm', 'p',
          'l', 'e', 't', 'i', 'o', 'n'] else [])) := by
    simp
  rw [hassoc]
  have sp1 := span_append isDigitCh (natToChars n) _ hds h2
  unfold matchLongform
  dsimp only
  rw [sp1.1, sp1.2]
  rw [if_neg (by simp [natToChars_ne_nil])]
  cases ru <;> cases pl <;> cases c <;>
    first
      | (simp only [digitsVal_natToChars]; rfl)
      | rfl

/-- C4 (counterexample): `parseRecurrence` accepts strings the claim says
it must reject: `"0d"` has a non-positive amount yet parses to a rule
with amount 0, and `"3 d"` has a separator between the integer and the
unit letter (the shorthand regex contains `\s*`) yet parses. -/
theorem parseRecurrence_accepts_zero_and_spaced :
    parseRecurrence "0d" = some ⟨0, RUnit.day, RMode.after_due⟩ ∧
    parseRecurrence "3 d" = some ⟨3, RUnit.day, RMode.after_due⟩ := by
  refine ⟨by decide, by decide⟩

/-- C4 (amended): `parseRecurrence` returns absence — never an error, it
is a total function — exactly for the strings whose normalization (trim +
lowercase) matches neither the shorthand language (whitespace tolerated
between integer and unit letter) nor the longform language; the integer
part is any nonempty digit string, so `0` amounts are accepted, and the
empty string yields absence. -/
theorem parseRecurrence_none_iff (s : String) :
    parseRecurrence s = none ↔
      ¬ ShorthandLang (normalizeRec s.data) ∧
        ¬ LongformLang (normalizeRec s.data) := by
  have hsh := matchShorthand_some_iff (normalizeRec s.data)
  have hlf := matchLongform_some_iff (normalizeRec s.data)
  unfold parseRecurrence
  by_cases he : s.data.isEmpty
  · simp only [he, if_true]
    have hnil : normalizeRec s.data = [] := by
      rw [List.isEmpty_iff] at he
      rw [he]
      rfl
    constructor
    · intro _
      constructor
      · rintro ⟨ds, ws, u, copt, heq, hne, -⟩
        rw [hnil] at heq
        simp at heq
        try exact hne heq.1
      · rintro ⟨ds, ws, ru, sOpt, phrase, heq, hne, -⟩
        rw [hnil] at heq
        simp at heq
        try exact hne heq.1
    · intro _
      try rfl
      try trivial
  · rw [if_neg he]
    cases hms : matchShorthand (normalizeRec s.data) with
    | some r =>
        dsimp only
        constructor
        · intro hcon
          cases hcon
        · intro ⟨hns, _⟩
          exact absurd (hsh.mp ⟨r, hms⟩) hns
    | none =>
        dsimp only
        constructor
        · intro h
          constructor
          · intro hl
            obtain ⟨r, hr⟩ := hsh.mpr hl
            rw [hms] at hr
            cases hr
          · intro hl
            obtain ⟨r, hr⟩ := hlf.mpr hl
            rw [h] at hr
            cases hr
        · intro ⟨_, hnl⟩
          cases hml : matchLongform (normalizeRec s.data) with
          | some r => exact absurd (hlf.mp ⟨r, hml⟩) hnl
          | none => rfl

/-- C8: for every positive `n` and unit, the canonical shorthand string
`<n><u>[c]` parses to `{amount = n, unit, mode per the c suffix}`, and
every longform equivalent (`<n> <unit-word>[s] [after completion]`, plural
tolerated) parses to the identical normalized rule. -/
theorem parseRecurrence_grammar_equivalence (n : ℕ) (hn : 0 < n)
    (ru : RUnit) (c pl : Bool) :
    parseRecurrence (String.mk (natToChars n ++ unitLetterOf ru ::
        (if c then ['c'] else []))) =
      some ⟨n, ru, if c then RMode.after_completion else RMode.after_due⟩ ∧
    parseRecurrence (String.mk (natToChars n ++ ' ' :: unitWordOf ru ++
        (if pl then ['s'] else []) ++
        (if c then [' ', 'a', 'f', 't', 'e', 'r', ' ', 'c', 'o', 'm', 'p',
          'l', 'e', 't', 'i', 'o', 'n'] else []))) =
      some ⟨n, ru, if c then RMode.after_completion else RMode.after_due⟩ := by
  have hlower : ∀ ch ∈ natToChars n, toLowerCh ch = ch := by
    intro ch hc
    unfold natToChars at hc
    by_cases h : n = 0
    · simp only [h, if_true] at hc
      rcases List.mem_singleton.mp hc with rfl
      decide
    · simp only [h, if_false] at hc
      exact toLower_natToCharsCore n n ch hc
  have hdigit_head : ∀ ch, (natToChars n).head? = some ch →
      isWSCh ch = false := by
    intro ch hc
    have hm : ch ∈ natToChars n := by
      cases hh : natToChars n with
      | nil => rw [hh] at hc; cases hc
      | cons a t =>
          rw [hh] at hc
          simp only [List.head?_cons, Option.some.injEq] at hc
          subst hc
          exact List.mem_cons_self a t
    have hd := isDigit_natToChars n ch hm
    simp only [isDigitCh, Bool.and_eq_true, decide_eq_true_eq] at hd
    simp only [isWSCh, Bool.or_eq_false_iff, decide_eq_false_iff_not]
    refine ⟨⟨⟨?_, ?_⟩, ?_⟩, ?_⟩ <;>
      · intro hcon
        rw [hcon] at hd
        exact absurd hd (by decide)
  constructor
  · have hnorm : normalizeRec (natToChars n ++ unitLetterOf ru ::
        (if c then ['c'] else [])) =
        natToChars n ++ unitLetterOf ru :: (if c then ['c'] else []) := by
      apply normalizeRec_eq_self
      · intro ch hc
        cases hh : natToChars n with
        | nil => exact absurd hh (natToChars_ne_nil n)
        | cons a t =>
            rw [hh] at hc
            simp only [List.cons_append, List.head?_cons,
              Option.some.injEq] at hc
            rw [← hc]
            apply hdigit_head
            rw [hh]
            rfl
      · intro ch hc
        rw [List.reverse_append] at hc
        cases c with
        | false =>
            simp only [Bool.false_eq_true, if_false, if_true,
              List.reverse_cons, List.reverse_nil,
              List.nil_append, List.cons_append, List.head?_cons,
              Option.some.injEq] at hc
            rw [← hc]
            exact unitLetter_not_ws ru
        | true =>
            simp only [Bool.false_eq_true, if_false, if_true,
              List.reverse_cons, List.reverse_nil,
              List.nil_append, List.cons_append, List.append_assoc,
              List.head?_cons, Option.some.injEq] at hc
            rw [← hc]
            decide
      · intro ch hc
        rcases List.mem_append.mp hc with hm | hm
        · exact hlower ch hm
        · rcases List.mem_cons.mp hm with rfl | hm2
          · cases ru <;> decide
          · cases c with
            | false => simp at hm2
            | true =>
                simp only [if_true, List.mem_singleton] at hm2
                rw [hm2]
                decide
    show parseRecurrence (String.mk _) = _
    unfold parseRecurrence
    rw [if_neg (by
      show ¬ (String.mk _).data.isEmpty = true
      simp [String.data, natToChars_ne_nil n])]
    rw [show (String.mk (natToChars n ++ unitLetterOf ru ::
        (if c then ['c'] else []))).data =
        natToChars n ++ unitLetterOf ru :: (if c then ['c'] else [])
      from rfl]
    rw [hnorm, matchShorthand_eval n ru c]
  · have hnorm : normalizeRec (natToChars n ++ ' ' :: unitWordOf ru ++
        (if pl then ['s'] else []) ++
        (if c then [' ', 'a', 'f', 't', 'e', 'r', ' ', 'c', 'o', 'm', 'p',
          'l', 'e', 't', 'i', 'o', 'n'] else [])) =
        natToChars n ++ ' ' :: unitWordOf ru ++
          (if pl then ['s'] else []) ++
          (if c then [' ', 'a', 'f', 't', 'e', 'r', ' ', 'c', 'o', 'm',
            'p', 'l', 'e', 't', 'i', 'o', 'n'] else []) := by
      apply normalizeRec_eq_self
      · intro ch hc
        cases hh : natToChars n with
        | nil => exact absurd hh (natToChars_ne_nil n)
        | cons a t =>
            rw [hh] at hc
            simp only [List.cons_append, List.append_assoc,
              List.head?_cons, Option.some.injEq] at hc
            rw [← hc]
            apply hdigit_head
            rw [hh]
            rfl
      · intro ch hc
        rw [List.reverse_append, List.reverse_append] at hc
        cases ru <;> cases pl <;> cases c <;>
          · simp only [Bool.false_eq_true, if_false, if_true, unitWordOf,
              List.reverse_cons,
              List.reverse_nil, List.nil_append, List.cons_append,
              List.append_assoc, List.reverse_append,
              List.head?_cons, Option.some.injEq] at hc
            rw [← hc]
            decide
      · intro ch hc
        rcases List.mem_append.mp hc with hc2 | hm
        · rcases List.mem_append.mp hc2 with hc3 | hm
          · rcases List.mem_append.mp hc3 with hm | hm
            · exact hlower ch hm
            · rcases List.mem_cons.mp hm with rfl | hm2
              · decide
              · cases ru <;> simp only [unitWordOf, List.mem_cons,
                  List.not_mem_nil, or_false] at hm2 <;>
                  rcases hm2 with rfl | rfl | rfl | rfl | rfl <;> decide
          · cases pl with
            | false => simp at hm
            | true =>
                simp only [if_true, List.mem_singleton] at hm
                rw [hm]
                decide
        · cases c with
          | false => simp at hm
          | true =>
              simp only [if_true, List.mem_cons, List.not_mem_nil,
                or_false] at hm
              rcases hm with rfl | rfl | rfl | rfl | rfl | rfl | rfl | rfl |
                rfl | rfl | rfl | rfl | rfl | rfl | rfl | rfl | rfl <;>
                decide
    show parseRecurrence (String.mk _) = _
    unfold parseRecurrence
    rw [if_neg (by
      show ¬ (String.mk _).data.isEmpty = true
      simp [String.data, natToChars_ne_nil n])]
    rw [show (String.mk (natToChars n ++ ' ' :: unitWordOf ru ++
        (if pl then ['s'] else []) ++
        (if c then [' ', 'a', 'f', 't', 'e', 'r', ' ', 'c', 'o', 'm', 'p',
          'l', 'e', 't', 'i', 'o', 'n'] else []))).data =
        natToChars n ++ ' ' :: unitWordOf ru ++
          (if pl then ['s'] else []) ++
          (if c then [' ', 'a', 'f', 't', 'e', 'r', ' ', 'c', 'o', 'm',
            'p', 'l', 'e', 't', 'i', 'o', 'n'] else []) from rfl]
    rw [hnorm, matchShorthand_longform_none n ru pl c,
      matchLongform_eval n ru pl c]

/-- Witness for C8 at `n = 2`, unit week, `from_completion`, plural. -/
theorem parseRecurrence_grammar_equivalence_witness :
    parseRecurrence (String.mk (natToChars 2 ++ unitLetterOf RUnit.week ::
        (if true then ['c'] else []))) =
      some ⟨2, RUnit.week, if true then RMode.after_completion
            else RMode.after_due⟩ :=
  (parseRecurrence_grammar_equivalence 2 (by decide) RUnit.week true
    true).1

/-! ### String-search lemmas -/

theorem isPrefixL_append_self (p x : List Char) : isPrefixL p (p ++ x) = true := by
  simp [isPrefixL, List.take_left]

theorem isPrefixL_head_ne (c : Char) (p v : List Char) (x : Char)
    (h : x ≠ c) : isPrefixL (c :: p) (x :: v) = false := by
  simp [isPrefixL, List.take_succ_cons, h]

theorem isPrefixL_two_ne (c d : Char) (x : Char) (v : List Char)
    (h : x ≠ d) : isPrefixL [c, d] (c :: x :: v) = false := by
  simp [isPrefixL, List.take_succ_cons, h]

theorem isPrefixL_nil_right (p : List Char) (hp : p ≠ []) :
    isPrefixL p [] = false := by
  simp [isPrefixL, List.take_nil]
  intro hcon
  exact hp hcon

theorem isPrefixL_singleton_two (c d : Char) :
    isPrefixL [c, d] [c] = false := by
  simp [isPrefixL]

theorem indexOfSubstrAux_here (pat s : List Char) (i : ℕ)
    (h : isPrefixL pat s = true) : indexOfSubstrAux pat s i = some i := by
  unfold indexOfSubstrAux
  simp [h]

theorem indexOfSubstrAux_cons_no (pat : List Char) (c : Char) (rest : List Char)
    (i : ℕ) (h : isPrefixL pat (c :: rest) = false) :
    indexOfSubstrAux pat (c :: rest) i = indexOfSubstrAux pat rest (i + 1) := by
  conv_lhs => unfold indexOfSubstrAux
  simp [h]

theorem indexOfSubstrAux_skip (pat a s : List Char)
    (h : ∀ t u, a = t ++ u → u ≠ [] → isPrefixL pat (u ++ s) = false) :
    ∀ i, indexOfSubstrAux pat (a ++ s) i = indexOfSubstrAux pat s (i + a.length) := by
  induction a with
  | nil => intro i; simp
  | cons c tl ih =>
      intro i
      have h0 : isPrefixL pat (c :: (tl ++ s)) = false := by
        have := h [] (c :: tl) rfl (by simp)
        simpa using this
      rw [List.cons_append, indexOfSubstrAux_cons_no pat c (tl ++ s) i h0,
        ih (fun t u ht hu => h (c :: t) u (by rw [ht, List.cons_append]) hu) (i + 1)]
      congr 1
      simp
      omega

theorem indexOfSubstr_split (pat a x : List Char)
    (h : ∀ t u, a = t ++ u → u ≠ [] → isPrefixL pat (u ++ (pat ++ x)) = false) :
    indexOfSubstr pat (a ++ pat ++ x) = some a.length := by
  unfold indexOfSubstr
  rw [List.append_assoc, indexOfSubstrAux_skip pat a (pat ++ x) h 0,
    indexOfSubstrAux_here _ _ _ (isPrefixL_append_self pat x)]
  simp

theorem indexOfSubstrAux_none (pat s : List Char)
    (h : ∀ t u, s = t ++ u → isPrefixL pat u = false) :
    ∀ i, indexOfSubstrAux pat s i = none := by
  induction s with
  | nil =>
      intro i
      unfold indexOfSubstrAux
      simp [h [] [] rfl]
  | cons c tl ih =>
      intro i
      rw [indexOfSubstrAux_cons_no pat c tl i (h [] (c :: tl) rfl)]
      exact ih (fun t u ht => h (c :: t) u (by rw [ht, List.cons_append])) (i + 1)

theorem indexOfSubstrAux_none_forall (pat s : List Char) (i : ℕ)
    (h : indexOfSubstrAux pat s i = none) :
    ∀ t u, s = t ++ u → isPrefixL pat u = false := by
  induction s generalizing i with
  | nil =>
      intro t u ht
      have ht' : u = [] := by
        rcases u with _ | ⟨c, v⟩
        · rfl
        · exact absurd (congrArg List.length ht) (by simp; omega)
      subst ht'
      unfold indexOfSubstrAux at h
      by_cases hp : isPrefixL pat [] = true
      · simp [hp] at h
      · simpa using hp
  | cons c tl ih =>
      intro t u ht
      by_cases hp : isPrefixL pat (c :: tl) = true
      · rw [indexOfSubstrAux_here pat _ i hp] at h
        cases h
      · have hp' : isPrefixL pat (c :: tl) = false := by simpa using hp
        rw [indexOfSubstrAux_cons_no pat c tl i hp'] at h
        rcases t with _ | ⟨d, t'⟩
        · simp only [List.nil_append] at ht
          exact ht ▸ hp'
        · have : tl = t' ++ u := by
            have := congrArg (List.drop 1) ht
            simpa using this
          exact ih (i + 1) h t' u this

theorem indexOfSubstr_none_forall (pat s : List Char)
    (h : indexOfSubstr pat s = none) :
    ∀ t u, s = t ++ u → isPrefixL pat u = false :=
  indexOfSubstrAux_none_forall pat s 0 h

theorem findIdxQ_cons (p : Char → Bool) (c : Char) (l : List Char) (i : ℕ) :
    List.findIdx? p (c :: l) i = if p c then some i else List.findIdx? p l (i+1) := by
  simp [List.findIdx?]

theorem findIdxQ_split (p : Char → Bool) (a : List Char) (x : Char) (b : List Char)
    (ha : ∀ y ∈ a, p y = false) (hx : p x = true) :
    ∀ i, List.findIdx? p (a ++ x :: b) i = some (i + a.length) := by
  induction a with
  | nil => intro i; simp [findIdxQ_cons, hx]
  | cons c tl ih =>
      intro i
      have hc := ha c (by simp)
      rw [List.cons_append, findIdxQ_cons, hc]
      simp only [Bool.false_eq_true, if_false]
      rw [ih (fun y hy => ha y (by simp [hy])) (i + 1)]
      congr 1
      simp
      omega

theorem indexOfCharFrom_split (ch : Char) (s a b : List Char) (i : ℕ)
    (hs : s.drop i = a ++ ch :: b) (ha : ∀ y ∈ a, y ≠ ch) :
    indexOfCharFrom ch s i = some (i + a.length) := by
  unfold indexOfCharFrom
  rw [hs, findIdxQ_split _ a ch b (fun y hy => by simp [ha y hy]) (by simp) 0]
  simp

theorem append_split_of_not_mem (c : Char) (a b t u : List Char)
    (h : a ++ b = t ++ c :: u) (hc : c ∉ a) :
    ∃ t2, b = t2 ++ c :: u ∧ t = a ++ t2 := by
  induction a generalizing t with
  | nil => exact ⟨t, by simpa using h, by simp⟩
  | cons x a2 ih =>
      cases t with
      | nil =>
          simp only [List.nil_append, List.cons_append, List.cons.injEq] at h
          exact absurd (h.1 ▸ List.mem_cons_self x a2) hc
      | cons y t2 =>
          simp only [List.cons_append, List.cons.injEq] at h
          obtain ⟨t3, hb, ht⟩ := ih t2 h.2 (fun hm => hc (List.mem_cons_of_mem x hm))
          exact ⟨t3, hb, by rw [ht, h.1, List.cons_append]⟩

/-! ### Matcher lemmas -/

theorem matchToks_nil_toks (s : List Char) : matchToks [] s = some ([], s) := rfl

theorem matchToks_lit_append (cs : List Char) (ts : List Tok) (rest : List Char)
    (q : List (List Char) × List Char) (hq : matchToks ts rest = some q) :
    matchToks (Tok.lit cs :: ts) (cs ++ rest) = some (cs :: q.1, q.2) := by
  conv_lhs => rw [matchToks]
  rw [List.take_left, if_pos rfl, List.drop_left, hq]
  rfl

theorem matchToks_lit_head_ne (c : Char) (cs : List Char) (ts : List Tok)
    (d : Char) (s : List Char) (h : d ≠ c) :
    matchToks (Tok.lit (c :: cs) :: ts) (d :: s) = none := by
  conv_lhs => rw [matchToks]
  have hne : ¬ ((d :: s).take (c :: cs).length = c :: cs) := by
    simp [List.length_cons, List.take_succ_cons, h]
  rw [if_neg hne]

theorem matchToks_lit_nil (c : Char) (cs : List Char) (ts : List Tok) :
    matchToks (Tok.lit (c :: cs) :: ts) [] = none := by
  conv_lhs => rw [matchToks]
  have hne : ¬ (([] : List Char).take (c :: cs).length = c :: cs) := by
    simp
  rw [if_neg hne]

theorem firstSome_cons_some {α : Type} (f : ℕ → Option α) (k : ℕ)
    (ks : List ℕ) (v : α) (h : f k = some v) :
    firstSome f (k :: ks) = some v := by
  simp [firstSome, h]

theorem firstSome_cons_none {α : Type} (f : ℕ → Option α) (k : ℕ)
    (ks : List ℕ) (h : f k = none) :
    firstSome f (k :: ks) = firstSome f ks := by
  simp [firstSome, h]

theorem matchToks_many_greedy (p : Char → Bool) (ts : List Tok) (s : List Char)
    (k : ℕ) (hk : (s.takeWhile p).length = k)
    (q : List (List Char) × List Char)
    (hq : matchToks ts (s.drop k) = some q) :
    matchToks (Tok.many p false :: ts) s = some (s.take k :: q.1, q.2) := by
  have hcounts : countsFor k false false = k :: (List.range k).reverse := by
    simp [countsFor, List.range_succ]
  have hf : npSegs (s.take k) (matchToks ts (s.drop k)) =
      some (s.take k :: q.1, q.2) := by
    rw [hq]; rfl
  conv_lhs => rw [matchToks]
  rw [hk, hcounts]
  simp [firstSome, hf]

theorem matchToks_many1_greedy (p : Char → Bool) (ts : List Tok) (s : List Char)
    (k : ℕ) (hk : (s.takeWhile p).length = k) (hk1 : 0 < k)
    (q : List (List Char) × List Char)
    (hq : matchToks ts (s.drop k) = some q) :
    matchToks (Tok.many1 p false :: ts) s = some (s.take k :: q.1, q.2) := by
  have hcounts : countsFor k false true =
      k :: ((List.range k).reverse.filter (fun j => decide (0 < j))) := by
    simp [countsFor, List.range_succ, hk1]
  have hf : npSegs (s.take k) (matchToks ts (s.drop k)) =
      some (s.take k :: q.1, q.2) := by
    rw [hq]; rfl
  conv_lhs => rw [matchToks]
  rw [hk, hcounts]
  simp [firstSome, hf]

theorem matchToks_many_greedy_fail0 (p : Char → Bool) (ts : List Tok)
    (s : List Char) (hk : (s.takeWhile p).length = 0)
    (hnone : matchToks ts s = none) :
    matchToks (Tok.many p false :: ts) s = none := by
  have hcounts : countsFor 0 false false = [0] := by decide
  conv_lhs => rw [matchToks]
  rw [hk, hcounts]
  simp [firstSome, npSegs, hnone]

theorem matchToks_many_lazy_zero (p : Char → Bool) (ts : List Tok)
    (s : List Char) (q : List (List Char) × List Char)
    (hq : matchToks ts s = some q) :
    matchToks (Tok.many p true :: ts) s = some ([] :: q.1, q.2) := by
  have hcounts : countsFor (s.takeWhile p).length true false =
      0 :: (List.range (s.takeWhile p).length).map Nat.succ := by
    simp [countsFor, List.range_succ_eq_map]
  conv_lhs => rw [matchToks]
  rw [hcounts]
  apply firstSome_cons_some
  show npSegs (s.take 0) (matchToks ts (s.drop 0)) = _
  rw [List.take_zero, List.drop_zero, hq]
  rfl

theorem firstSome_map_succ {α : Type} (f : ℕ → Option α) (l : List ℕ) :
    firstSome f (l.map Nat.succ) = firstSome (fun k => f (k + 1)) l := by
  induction l with
  | nil => rfl
  | cons k ks ih =>
      show firstSome f (Nat.succ k :: ks.map Nat.succ) = _
      cases h : f (k + 1) with
      | none => simp [firstSome, h, ih]
      | some v => simp [firstSome, h]

theorem firstSome_comm_map {α β : Type} (g : α → β) (f : ℕ → Option α)
    (l : List ℕ) :
    firstSome (fun k => (f k).map g) l = (firstSome f l).map g := by
  induction l with
  | nil => rfl
  | cons k ks ih =>
      cases h : f k with
      | none => simp [firstSome, h, ih]
      | some v => simp [firstSome, h]

theorem npSegs_cons_char (c : Char) (a : List Char)
    (r : Option (List (List Char) × List Char)) :
    npSegs (c :: a) r = (npSegs a r).map
      (fun q => match q.1 with
                | b :: tl => ((c :: b) :: tl, q.2)
                | [] => q) := by
  cases r with
  | none => rfl
  | some v => rfl

theorem matchToks_many_lazy_step (p : Char → Bool) (ts : List Tok)
    (s : List Char) (c : Char) (hp : p c = true)
    (h0 : matchToks ts (c :: s) = none) :
    matchToks (Tok.many p true :: ts) (c :: s) =
      (matchToks (Tok.many p true :: ts) s).map
        (fun q => match q.1 with
                  | b :: tl => ((c :: b) :: tl, q.2)
                  | [] => q) := by
  have hspan : ((c :: s).takeWhile p).length = (s.takeWhile p).length + 1 := by
    simp [List.takeWhile_cons, hp]
  have hcounts : countsFor ((c :: s).takeWhile p).length true false =
      0 :: (List.range ((s.takeWhile p).length + 1)).map Nat.succ := by
    rw [hspan]
    simp [countsFor, List.range_succ_eq_map]
  conv_lhs => rw [matchToks]
  rw [hcounts]
  rw [firstSome_cons_none _ 0 _ (by
    show npSegs ((c :: s).take 0) (matchToks ts ((c :: s).drop 0)) = none
    rw [List.take_zero, List.drop_zero, h0]
    rfl)]
  rw [firstSome_map_succ]
  have hpt : (fun k => npSegs ((c :: s).take (k + 1))
      (matchToks ts ((c :: s).drop (k + 1)))) =
      fun k => (npSegs (s.take k) (matchToks ts (s.drop k))).map
        (fun q => match q.1 with
                  | b :: tl => ((c :: b) :: tl, q.2)
                  | [] => q) := by
    funext k
    rw [List.take_succ_cons, List.drop_succ_cons, npSegs_cons_char]
  rw [hpt, firstSome_comm_map]
  conv_rhs => rw [matchToks]
  have hc2 : countsFor (s.takeWhile p).length true false =
      List.range ((s.takeWhile p).length + 1) := by
    simp [countsFor]
  rw [hc2]

theorem matchToks_cell (ts : List Tok) (c s : List Char)
    (q : List (List Char) × List Char)
    (hc : ∀ ch ∈ c, isDotRe ch = true ∧ isWSCh ch = false ∧ ch ≠ '|')
    (hq : matchToks ts s = some q) :
    matchToks (Tok.many isDotRe true :: Tok.many isWSCh false ::
        Tok.lit ['|'] :: ts) (c ++ ' ' :: '|' :: s) =
      some (c :: [' '] :: ['|'] :: q.1, q.2) := by
  induction c with
  | nil =>
      rw [List.nil_append]
      have h1 : matchToks (Tok.lit ['|'] :: ts) ('|' :: s) =
          some (['|'] :: q.1, q.2) := by
        have := matchToks_lit_append ['|'] ts s q hq
        simpa using this
      have w1 : isWSCh ' ' = true := by decide
      have w2 : isWSCh '|' = false := by decide
      have h2 : matchToks (Tok.many isWSCh false :: Tok.lit ['|'] :: ts)
          (' ' :: '|' :: s) = some ([' '] :: ['|'] :: q.1, q.2) := by
        have := matchToks_many_greedy isWSCh (Tok.lit ['|'] :: ts)
          (' ' :: '|' :: s) 1
          (by simp [List.takeWhile_cons, w1, w2]) (['|'] :: q.1, q.2) h1
        simpa using this
      exact matchToks_many_lazy_zero isDotRe _ _ ([' '] :: ['|'] :: q.1, q.2) h2
  | cons ch ct ih =>
      have hch := hc ch (List.mem_cons_self ch ct)
      have htail : ∀ x ∈ ct, isDotRe x = true ∧ isWSCh x = false ∧ x ≠ '|' :=
        fun x hx => hc x (List.mem_cons_of_mem ch hx)
      have h0 : matchToks (Tok.many isWSCh false :: Tok.lit ['|'] :: ts)
          (ch :: (ct ++ ' ' :: '|' :: s)) = none := by
        apply matchToks_many_greedy_fail0
        · simp [List.takeWhile_cons, hch.2.1]
        · exact matchToks_lit_head_ne '|' [] ts ch _ hch.2.2
      rw [List.cons_append,
        matchToks_many_lazy_step isDotRe _ (ct ++ ' ' :: '|' :: s) ch hch.1 h0,
        ih htail]
      rfl


theorem digit_not_ws (c : Char) (h : isDigitCh c = true) :
    isWSCh c = false := by
  by_contra hcon
  rw [Bool.not_eq_false] at hcon
  rw [wsCh_not_digit c hcon] at h
  cases h

theorem matchToks_ws1 (ts : List Tok) (c : Char) (r : List Char)
    (q : List (List Char) × List Char) (hc : isWSCh c = false)
    (hq : matchToks ts (c :: r) = some q) :
    matchToks (Tok.many isWSCh false :: ts) (' ' :: c :: r) =
      some ([' '] :: q.1, q.2) := by
  have w1 : isWSCh ' ' = true := by decide
  have hsp : ((' ' :: c :: r).takeWhile isWSCh).length = 1 := by
    simp [List.takeWhile_cons, w1, hc]
  have := matchToks_many_greedy isWSCh ts (' ' :: c :: r) 1 hsp q hq
  simpa using this

theorem dsh1 : isDashRe '-' = true := by decide

theorem dsh2 : isDashRe ' ' = false := by decide

theorem matchToks_header_concrete (x : List Char) :
    matchToks headerToks (headerRowText ++ x) =
      some ([['|'], [' '], ['D','a','t','e'], [' '], ['|'], [' '], ['S','t','a','t','u','s'], [' '], ['|'], [' '], ['#'], [' '], ['|']], x) := by
  have b1 : matchToks [Tok.lit ['|']]
      ('|' :: x) = some ([['|']], x) := by
    have := matchToks_lit_append ['|']
      [] x ([], x) rfl
    simpa using this
  have b2 : matchToks [Tok.many isWSCh false, Tok.lit ['|']]
      (' ' :: '|' :: x) = some ([[' '], ['|']], x) := by
    have := matchToks_ws1 [Tok.lit ['|']]
      '|' (x) ([['|']], x)
      (by decide) b1
    simpa using this
  have b3 : matchToks [Tok.lit ['#'], Tok.many isWSCh false, Tok.lit ['|']]
      ('#' :: ' ' :: '|' :: x) = some ([['#'], [' '], ['|']], x) := by
    have := matchToks_lit_append ['#']
      [Tok.many isWSCh false, Tok.lit ['|']]
      (' ' :: '|' :: x) ([[' '], ['|']], x) b2
    simpa using this
  have b4 : matchToks [Tok.many isWSCh false, Tok.lit ['#'], Tok.many isWSCh false, Tok.lit ['|']]
      (' ' :: '#' :: ' ' :: '|' :: x) = some ([[' '], ['#'], [' '], ['|']], x) := by
    have := matchToks_ws1 [Tok.lit ['#'], Tok.many isWSCh false, Tok.lit ['|']]
      '#' (' ' :: '|' :: x) ([['#'], [' '], ['|']], x)
      (by decide) b3
    simpa using this
  have b5 : matchToks [Tok.lit ['|'], Tok.many isWSCh false, Tok.lit ['#'], Tok.many isWSCh false, Tok.lit ['|']]
      ('|' :: ' ' :: '#' :: ' ' :: '|' :: x) = some ([['|'], [' '], ['#'], [' '], ['|']], x) := by
    have := matchToks_lit_append ['|']
      [Tok.many isWSCh false, Tok.lit ['#'], Tok.many isWSCh false, Tok.lit ['|']]
      (' ' :: '#' :: ' ' :: '|' :: x) ([[' '], ['#'], [' '], ['|']], x) b4
    simpa using this
  have b6 : matchToks [Tok.many isWSCh false, Tok.lit ['|'], Tok.many isWSCh false, Tok.lit ['#'], Tok.many isWSCh false, Tok.lit ['|']]
      (' ' :: '|' :: ' ' :: '#' :: ' ' :: '|' :: x) = some ([[' '], ['|'], [' '], ['#'], [' '], ['|']], x) := by
    have := matchToks_ws1 [Tok.lit ['|'], Tok.many isWSCh false, Tok.lit ['#'], Tok.many isWSCh false, Tok.lit ['|']]
      '|' (' ' :: '#' :: ' ' :: '|' :: x) ([['|'], [' '], ['#'], [' '], ['|']], x)
      (by decide) b5
    simpa using this
  have b7 : matchToks [Tok.lit ['S','t','a','t','u','s'], Tok.many isWSCh false, Tok.lit ['|'], Tok.many isWSCh false, Tok.lit ['#'], Tok.many isWSCh false, Tok.lit ['|']]
      ('S' :: 't' :: 'a' :: 't' :: 'u' :: 's' :: ' ' :: '|' :: ' ' :: '#' :: ' ' :: '|' :: x) = some ([['S','t','a','t','u','s'], [' '], ['|'], [' '], ['#'], [' '], ['|']], x) := by
    have := matchToks_lit_append ['S','t','a','t','u','s']
      [Tok.many isWSCh false, Tok.lit ['|'], Tok.many isWSCh false, Tok.lit ['#'], Tok.many isWSCh false, Tok.lit ['|']]
      (' ' :: '|' :: ' ' :: '#' :: ' ' :: '|' :: x) ([[' '], ['|'], [' '], ['#'], [' '], ['|']], x) b6
    simpa using this
  have b8 : matchToks [Tok.many isWSCh false, Tok.lit ['S','t','a','t','u','s'], Tok.many isWSCh false, Tok.lit ['|'], Tok.many isWSCh false, Tok.lit ['#'], Tok.many isWSCh false, Tok.lit ['|']]
      (' ' :: 'S' :: 't' :: 'a' :: 't' :: 'u' :: 's' :: ' ' :: '|' :: ' ' :: '#' :: ' ' :: '|' :: x) = some ([[' '], ['S','t','a','t','u','s'], [' '], ['|'], [' '], ['#'], [' '], ['|']], x) := by
    have := matchToks_ws1 [Tok.lit ['S','t','a','t','u','s'], Tok.many isWSCh false, Tok.lit ['|'], Tok.many isWSCh false, Tok.lit ['#'], Tok.many isWSCh false, Tok.lit ['|']]
      'S' ('t' :: 'a' :: 't' :: 'u' :: 's' :: ' ' :: '|' :: ' ' :: '#' :: ' ' :: '|' :: x) ([['S','t','a','t','u','s'], [' '], ['|'], [' '], ['#'], [' '], ['|']], x)
      (by decide) b7
    simpa using this
  have b9 : matchToks [Tok.lit ['|'], Tok.many isWSCh false, Tok.lit ['S','t','a','t','u','s'], Tok.many isWSCh false, Tok.lit ['|'], Tok.many isWSCh false, Tok.lit ['#'], Tok.many isWSCh false, Tok.lit ['|']]
      ('|' :: ' ' :: 'S' :: 't' :: 'a' :: 't' :: 'u' :: 's' :: ' ' :: '|' :: ' ' :: '#' :: ' ' :: '|' :: x) = some ([['|'], [' '], ['S','t','a','t','u','s'], [' '], ['|'], [' '], ['#'], [' '], ['|']], x) := by
    have := matchToks_lit_append ['|']
      [Tok.many isWSCh false, Tok.lit ['S','t','a','t','u','s'], Tok.many isWSCh false, Tok.lit ['|'], Tok.many isWSCh false, Tok.lit ['#'], Tok.many isWSCh false, Tok.lit ['|']]
      (' ' :: 'S' :: 't' :: 'a' :: 't' :: 'u' :: 's' :: ' ' :: '|' :: ' ' :: '#' :: ' ' :: '|' :: x) ([[' '], ['S','t','a','t','u','s'], [' '], ['|'], [' '], ['#'], [' '], ['|']], x) b8
    simpa using this
  have b10 : matchToks [Tok.many isWSCh false, Tok.lit ['|'], Tok.many isWSCh false, Tok.lit ['S','t','a','t','u','s'], Tok.many isWSCh false, Tok.lit ['|'], Tok.many isWSCh false, Tok.lit ['#'], Tok.many isWSCh false, Tok.lit ['|']]
      (' ' :: '|' :: ' ' :: 'S' :: 't' :: 'a' :: 't' :: 'u' :: 's' :: ' ' :: '|' :: ' ' :: '#' :: ' ' :: '|' :: x) = some ([[' '], ['|'], [' '], ['S','t','a','t','u','s'], [' '], ['|'], [' '], ['#'], [' '], ['|']], x) := by
    have := matchToks_ws1 [Tok.lit ['|'], Tok.many isWSCh false, Tok.lit ['S','t','a','t','u','s'], Tok.many isWSCh false, Tok.lit ['|'], Tok.many isWSCh false, Tok.lit ['#'], Tok.many isWSCh false, Tok.lit ['|']]
      '|' (' ' :: 'S' :: 't' :: 'a' :: 't' :: 'u' :: 's' :: ' ' :: '|' :: ' ' :: '#' :: ' ' :: '|' :: x) ([['|'], [' '], ['S','t','a','t','u','s'], [' '], ['|'], [' '], ['#'], [' '], ['|']], x)
      (by decide) b9
    simpa using this
  have b11 : matchToks [Tok.lit ['D','a','t','e'], Tok.many isWSCh false, Tok.lit ['|'], Tok.many isWSCh false, Tok.lit ['S','t','a','t','u','s'], Tok.many isWSCh false, Tok.lit ['|'], Tok.many isWSCh false, Tok.lit ['#'], Tok.many isWSCh false, Tok.lit ['|']]
      ('D' :: 'a' :: 't' :: 'e' :: ' ' :: '|' :: ' ' :: 'S' :: 't' :: 'a' :: 't' :: 'u' :: 's' :: ' ' :: '|' :: ' ' :: '#' :: ' ' :: '|' :: x) = some ([['D','a','t','e'], [' '], ['|'], [' '], ['S','t','a','t','u','s'], [' '], ['|'], [' '], ['#'], [' '], ['|']], x) := by
    have := matchToks_lit_append ['D','a','t','e']
      [Tok.many isWSCh false, Tok.lit ['|'], Tok.many isWSCh false, Tok.lit ['S','t','a','t','u','s'], Tok.many isWSCh false, Tok.lit ['|'], Tok.many isWSCh false, Tok.lit ['#'], Tok.many isWSCh false, Tok.lit ['|']]
      (' ' :: '|' :: ' ' :: 'S' :: 't' :: 'a' :: 't' :: 'u' :: 's' :: ' ' :: '|' :: ' ' :: '#' :: ' ' :: '|' :: x) ([[' '], ['|'], [' '], ['S','t','a','t','u','s'], [' '], ['|'], [' '], ['#'], [' '], ['|']], x) b10
    simpa using this
  have b12 : matchToks [Tok.many isWSCh false, Tok.lit ['D','a','t','e'], Tok.many isWSCh false, Tok.lit ['|'], Tok.many isWSCh false, Tok.lit ['S','t','a','t','u','s'], Tok.many isWSCh false, Tok.lit ['|'], Tok.many isWSCh false, Tok.lit ['#'], Tok.many isWSCh false, Tok.lit ['|']]
      (' ' :: 'D' :: 'a' :: 't' :: 'e' :: ' ' :: '|' :: ' ' :: 'S' :: 't' :: 'a' :: 't' :: 'u' :: 's' :: ' ' :: '|' :: ' ' :: '#' :: ' ' :: '|' :: x) = some ([[' '], ['D','a','t','e'], [' '], ['|'], [' '], ['S','t','a','t','u','s'], [' '], ['|'], [' '], ['#'], [' '], ['|']], x) := by
    have := matchToks_ws1 [Tok.lit ['D','a','t','e'], Tok.many isWSCh false, Tok.lit ['|'], Tok.many isWSCh false, Tok.lit ['S','t','a','t','u','s'], Tok.many isWSCh false, Tok.lit ['|'], Tok.many isWSCh false, Tok.lit ['#'], Tok.many isWSCh false, Tok.lit ['|']]
      'D' ('a' :: 't' :: 'e' :: ' ' :: '|' :: ' ' :: 'S' :: 't' :: 'a' :: 't' :: 'u' :: 's' :: ' ' :: '|' :: ' ' :: '#' :: ' ' :: '|' :: x) ([['D','a','t','e'], [' '], ['|'], [' '], ['S','t','a','t','u','s'], [' '], ['|'], [' '], ['#'], [' '], ['|']], x)
      (by decide) b11
    simpa using this
  have b13 : matchToks [Tok.lit ['|'], Tok.many isWSCh false, Tok.lit ['D','a','t','e'], Tok.many isWSCh false, Tok.lit ['|'], Tok.many isWSCh false, Tok.lit ['S','t','a','t','u','s'], Tok.many isWSCh false, Tok.lit ['|'], Tok.many isWSCh false, Tok.lit ['#'], Tok.many isWSCh false, Tok.lit ['|']]
      ('|' :: ' ' :: 'D' :: 'a' :: 't' :: 'e' :: ' ' :: '|' :: ' ' :: 'S' :: 't' :: 'a' :: 't' :: 'u' :: 's' :: ' ' :: '|' :: ' ' :: '#' :: ' ' :: '|' :: x) = some ([['|'], [' '], ['D','a','t','e'], [' '], ['|'], [' '], ['S','t','a','t','u','s'], [' '], ['|'], [' '], ['#'], [' '], ['|']], x) := by
    have := matchToks_lit_append ['|']
      [Tok.many isWSCh false, Tok.lit ['D','a','t','e'], Tok.many isWSCh false, Tok.lit ['|'], Tok.many isWSCh false, Tok.lit ['S','t','a','t','u','s'], Tok.many isWSCh false, Tok.lit ['|'], Tok.many isWSCh false, Tok.lit ['#'], Tok.many isWSCh false, Tok.lit ['|']]
      (' ' :: 'D' :: 'a' :: 't' :: 'e' :: ' ' :: '|' :: ' ' :: 'S' :: 't' :: 'a' :: 't' :: 'u' :: 's' :: ' ' :: '|' :: ' ' :: '#' :: ' ' :: '|' :: x) ([[' '], ['D','a','t','e'], [' '], ['|'], [' '], ['S','t','a','t','u','s'], [' '], ['|'], [' '], ['#'], [' '], ['|']], x) b12
    simpa using this
  have hshape : headerRowText ++ x = '|' :: ' ' :: 'D' :: 'a' :: 't' :: 'e' :: ' ' :: '|' :: ' ' :: 'S' :: 't' :: 'a' :: 't' :: 'u' :: 's' :: ' ' :: '|' :: ' ' :: '#' :: ' ' :: '|' :: x := by
    simp [headerRowText]
  rw [hshape]
  exact b13

theorem matchToks_divider_concrete (x : List Char) :
    matchToks dividerToks (dividerRowText ++ x) =
      some ([['|'], [' '], ['-','-','-','-'], [' '], ['|'], [' '], ['-','-','-','-','-','-'], [' '], ['|'], [' '], ['-'], [' '], ['|']], x) := by
  have b1 : matchToks [Tok.lit ['|']]
      ('|' :: x) = some ([['|']], x) := by
    have := matchToks_lit_append ['|']
      [] x ([], x) rfl
    simpa using this
  have b2 : matchToks [Tok.many isWSCh false, Tok.lit ['|']]
      (' ' :: '|' :: x) = some ([[' '], ['|']], x) := by
    have := matchToks_ws1 [Tok.lit ['|']]
      '|' (x) ([['|']], x)
      (by decide) b1
    simpa using this
  have b3 : matchToks [Tok.many1 isDashRe false, Tok.many isWSCh false, Tok.lit ['|']]
      ('-' :: ' ' :: '|' :: x) = some ([['-'], [' '], ['|']], x) := by
    have hsp : (('-' :: ' ' :: '|' :: x).takeWhile isDashRe).length = 1 := by
      simp [List.takeWhile_cons, dsh1, dsh2]
    have := matchToks_many1_greedy isDashRe [Tok.many isWSCh false, Tok.lit ['|']]
      ('-' :: ' ' :: '|' :: x) 1 hsp (by norm_num) ([[' '], ['|']], x) b2
    simpa using this
  have b4 : matchToks [Tok.many isWSCh false, Tok.many1 isDashRe false, Tok.many isWSCh false, Tok.lit ['|']]
      (' ' :: '-' :: ' ' :: '|' :: x) = some ([[' '], ['-'], [' '], ['|']], x) := by
    have := matchToks_ws1 [Tok.many1 isDashRe false, Tok.many isWSCh false, Tok.lit ['|']]
      '-' (' ' :: '|' :: x) ([['-'], [' '], ['|']], x)
      (by decide) b3
    simpa using this
  have b5 : matchToks [Tok.lit ['|'], Tok.many isWSCh false, Tok.many1 isDashRe false, Tok.many isWSCh false, Tok.lit ['|']]
      ('|' :: ' ' :: '-' :: ' ' :: '|' :: x) = some ([['|'], [' '], ['-'], [' '], ['|']], x) := by
    have := matchToks_lit_append ['|']
      [Tok.many isWSCh false, Tok.many1 isDashRe false, Tok.many isWSCh false, Tok.lit ['|']]
      (' ' :: '-' :: ' ' :: '|' :: x) ([[' '], ['-'], [' '], ['|']], x) b4
    simpa using this
  have b6 : matchToks [Tok.many isWSCh false, Tok.lit ['|'], Tok.many isWSCh false, Tok.many1 isDashRe false, Tok.many isWSCh false, Tok.lit ['|']]
      (' ' :: '|' :: ' ' :: '-' :: ' ' :: '|' :: x) = some ([[' '], ['|'], [' '], ['-'], [' '], ['|']], x) := by
    have := matchToks_ws1 [Tok.lit ['|'], Tok.many isWSCh false, Tok.many1 isDashRe false, Tok.many isWSCh false, Tok.lit ['|']]
      '|' (' ' :: '-' :: ' ' :: '|' :: x) ([['|'], [' '], ['-'], [' '], ['|']], x)
      (by decide) b5
    simpa using this
  have b7 : matchToks [Tok.many1 isDashRe false, Tok.many isWSCh false, Tok.lit ['|'], Tok.many isWSCh false, Tok.many1 isDashRe false, Tok.many isWSCh false, Tok.lit ['|']]
      ('-' :: '-' :: '-' :: '-' :: '-' :: '-' :: ' ' :: '|' :: ' ' :: '-' :: ' ' :: '|' :: x) = some ([['-','-','-','-','-','-'], [' '], ['|'], [' '], ['-'], [' '], ['|']], x) := by
    have hsp : (('-' :: '-' :: '-' :: '-' :: '-' :: '-' :: ' ' :: '|' :: ' ' :: '-' :: ' ' :: '|' :: x).takeWhile isDashRe).length = 6 := by
      simp [List.takeWhile_cons, dsh1, dsh2]
    have := matchToks_many1_greedy isDashRe [Tok.many isWSCh false, Tok.lit ['|'], Tok.many isWSCh false, Tok.many1 isDashRe false, Tok.many isWSCh false, Tok.lit ['|']]
      ('-' :: '-' :: '-' :: '-' :: '-' :: '-' :: ' ' :: '|' :: ' ' :: '-' :: ' ' :: '|' :: x) 6 hsp (by norm_num) ([[' '], ['|'], [' '], ['-'], [' '], ['|']], x) b6
    simpa using this
  have b8 : matchToks [Tok.many isWSCh false, Tok.many1 isDashRe false, Tok.many isWSCh false, Tok.lit ['|'], Tok.many isWSCh false, Tok.many1 isDashRe false, Tok.many isWSCh false, Tok.lit ['|']]
      (' ' :: '-' :: '-' :: '-' :: '-' :: '-' :: '-' :: ' ' :: '|' :: ' ' :: '-' :: ' ' :: '|' :: x) = some ([[' '], ['-','-','-','-','-','-'], [' '], ['|'], [' '], ['-'], [' '], ['|']], x) := by
    have := matchToks_ws1 [Tok.many1 isDashRe false, Tok.many isWSCh false, Tok.lit ['|'], Tok.many isWSCh false, Tok.many1 isDashRe false, Tok.many isWSCh false, Tok.lit ['|']]
      '-' ('-' :: '-' :: '-' :: '-' :: '-' :: ' ' :: '|' :: ' ' :: '-' :: ' ' :: '|' :: x) ([['-','-','-','-','-','-'], [' '], ['|'], [' '], ['-'], [' '], ['|']], x)
      (by decide) b7
    simpa using this
  have b9 : matchToks [Tok.lit ['|'], Tok.many isWSCh false, Tok.many1 isDashRe false, Tok.many isWSCh false, Tok.lit ['|'], Tok.many isWSCh false, Tok.many1 isDashRe false, Tok.many isWSCh false, Tok.lit ['|']]
      ('|' :: ' ' :: '-' :: '-' :: '-' :: '-' :: '-' :: '-' :: ' ' :: '|' :: ' ' :: '-' :: ' ' :: '|' :: x) = some ([['|'], [' '], ['-','-','-','-','-','-'], [' '], ['|'], [' '], ['-'], [' '], ['|']], x) := by
    have := matchToks_lit_append ['|']
      [Tok.many isWSCh false, Tok.many1 isDashRe false, Tok.many isWSCh false, Tok.lit ['|'], Tok.many isWSCh false, Tok.many1 isDashRe false, Tok.many isWSCh false, Tok.lit ['|']]
      (' ' :: '-' :: '-' :: '-' :: '-' :: '-' :: '-' :: ' ' :: '|' :: ' ' :: '-' :: ' ' :: '|' :: x) ([[' '], ['-','-','-','-','-','-'], [' '], ['|'], [' '], ['-'], [' '], ['|']], x) b8
    simpa using this
  have b10 : matchToks [Tok.many isWSCh false, Tok.lit ['|'], Tok.many isWSCh false, Tok.many1 isDashRe false, Tok.many isWSCh false, Tok.lit ['|'], Tok.many isWSCh false, Tok.many1 isDashRe false, Tok.many isWSCh false, Tok.lit ['|']]
      (' ' :: '|' :: ' ' :: '-' :: '-' :: '-' :: '-' :: '-' :: '-' :: ' ' :: '|' :: ' ' :: '-' :: ' ' :: '|' :: x) = some ([[' '], ['|'], [' '], ['-','-','-','-','-','-'], [' '], ['|'], [' '], ['-'], [' '], ['|']], x) := by
    have := matchToks_ws1 [Tok.lit ['|'], Tok.many isWSCh false, Tok.many1 isDashRe false, Tok.many isWSCh false, Tok.lit ['|'], Tok.many isWSCh false, Tok.many1 isDashRe false, Tok.many isWSCh false, Tok.lit ['|']]
      '|' (' ' :: '-' :: '-' :: '-' :: '-' :: '-' :: '-' :: ' ' :: '|' :: ' ' :: '-' :: ' ' :: '|' :: x) ([['|'], [' '], ['-','-','-','-','-','-'], [' '], ['|'], [' '], ['-'], [' '], ['|']], x)
      (by decide) b9
    simpa using this
  have b11 : matchToks [Tok.many1 isDashRe false, Tok.many isWSCh false, Tok.lit ['|'], Tok.many isWSCh false, Tok.many1 isDashRe false, Tok.many isWSCh false, Tok.lit ['|'], Tok.many isWSCh false, Tok.many1 isDashRe false, Tok.many isWSCh false, Tok.lit ['|']]
      ('-' :: '-' :: '-' :: '-' :: ' ' :: '|' :: ' ' :: '-' :: '-' :: '-' :: '-' :: '-' :: '-' :: ' ' :: '|' :: ' ' :: '-' :: ' ' :: '|' :: x) = some ([['-','-','-','-'], [' '], ['|'], [' '], ['-','-','-','-','-','-'], [' '], ['|'], [' '], ['-'], [' '], ['|']], x) := by
    have hsp : (('-' :: '-' :: '-' :: '-' :: ' ' :: '|' :: ' ' :: '-' :: '-' :: '-' :: '-' :: '-' :: '-' :: ' ' :: '|' :: ' ' :: '-' :: ' ' :: '|' :: x).takeWhile isDashRe).length = 4 := by
      simp [List.takeWhile_cons, dsh1, dsh2]
    have := matchToks_many1_greedy isDashRe [Tok.many isWSCh false, Tok.lit ['|'], Tok.many isWSCh false, Tok.many1 isDashRe false, Tok.many isWSCh false, Tok.lit ['|'], Tok.many isWSCh false, Tok.many1 isDashRe false, Tok.many isWSCh false, Tok.lit ['|']]
      ('-' :: '-' :: '-' :: '-' :: ' ' :: '|' :: ' ' :: '-' :: '-' :: '-' :: '-' :: '-' :: '-' :: ' ' :: '|' :: ' ' :: '-' :: ' ' :: '|' :: x) 4 hsp (by norm_num) ([[' '], ['|'], [' '], ['-','-','-','-','-','-'], [' '], ['|'], [' '], ['-'], [' '], ['|']], x) b10
    simpa using this
  have b12 : matchToks [Tok.many isWSCh false, Tok.many1 isDashRe false, Tok.many isWSCh false, Tok.lit ['|'], Tok.many isWSCh false, Tok.many1 isDashRe false, Tok.many isWSCh false, Tok.lit ['|'], Tok.many isWSCh false, Tok.many1 isDashRe false, Tok.many isWSCh false, Tok.lit ['|']]
      (' ' :: '-' :: '-' :: '-' :: '-' :: ' ' :: '|' :: ' ' :: '-' :: '-' :: '-' :: '-' :: '-' :: '-' :: ' ' :: '|' :: ' ' :: '-' :: ' ' :: '|' :: x) = some ([[' '], ['-','-','-','-'], [' '], ['|'], [' '], ['-','-','-','-','-','-'], [' '], ['|'], [' '], ['-'], [' '], ['|']], x) := by
    have := matchToks_ws1 [Tok.many1 isDashRe false, Tok.many isWSCh false, Tok.lit ['|'], Tok.many isWSCh false, Tok.many1 isDashRe false, Tok.many isWSCh false, Tok.lit ['|'], Tok.many isWSCh false, Tok.many1 isDashRe false, Tok.many isWSCh false, Tok.lit ['|']]
      '-' ('-' :: '-' :: '-' :: ' ' :: '|' :: ' ' :: '-' :: '-' :: '-' :: '-' :: '-' :: '-' :: ' ' :: '|' :: ' ' :: '-' :: ' ' :: '|' :: x) ([['-','-','-','-'], [' '], ['|'], [' '], ['-','-','-','-','-','-'], [' '], ['|'], [' '], ['-'], [' '], ['|']], x)
      (by decide) b11
    simpa using this
  have b13 : matchToks [Tok.lit ['|'], Tok.many isWSCh false, Tok.many1 isDashRe false, Tok.many isWSCh false, Tok.lit ['|'], Tok.many isWSCh false, Tok.many1 isDashRe false, Tok.many isWSCh false, Tok.lit ['|'], Tok.many isWSCh false, Tok.many1 isDashRe false, Tok.many isWSCh false, Tok.lit ['|']]
      ('|' :: ' ' :: '-' :: '-' :: '-' :: '-' :: ' ' :: '|' :: ' ' :: '-' :: '-' :: '-' :: '-' :: '-' :: '-' :: ' ' :: '|' :: ' ' :: '-' :: ' ' :: '|' :: x) = some ([['|'], [' '], ['-','-','-','-'], [' '], ['|'], [' '], ['-','-','-','-','-','-'], [' '], ['|'], [' '], ['-'], [' '], ['|']], x) := by
    have := matchToks_lit_append ['|']
      [Tok.many isWSCh false, Tok.many1 isDashRe false, Tok.many isWSCh false, Tok.lit ['|'], Tok.many isWSCh false, Tok.many1 isDashRe false, Tok.many isWSCh false, Tok.lit ['|'], Tok.many isWSCh false, Tok.many1 isDashRe false, Tok.many isWSCh false, Tok.lit ['|']]
      (' ' :: '-' :: '-' :: '-' :: '-' :: ' ' :: '|' :: ' ' :: '-' :: '-' :: '-' :: '-' :: '-' :: '-' :: ' ' :: '|' :: ' ' :: '-' :: ' ' :: '|' :: x) ([[' '], ['-','-','-','-'], [' '], ['|'], [' '], ['-','-','-','-','-','-'], [' '], ['|'], [' '], ['-'], [' '], ['|']], x) b12
    simpa using this
  have hshape : dividerRowText ++ x = '|' :: ' ' :: '-' :: '-' :: '-' :: '-' :: ' ' :: '|' :: ' ' :: '-' :: '-' :: '-' :: '-' :: '-' :: '-' :: ' ' :: '|' :: ' ' :: '-' :: ' ' :: '|' :: x := by
    simp [dividerRowText]
  rw [hshape]
  exact b13

theorem matchToks_row (c1 c2 : List Char) (n : ℕ) (rest : List Char)
    (h1 : cleanCellP c1) (h2 : cleanCellP c2) :
    matchToks rowToks (rowText c1 c2 n ++ rest) =
      some ([['|'], [' '], c1, [' '], ['|'], [' '], c2, [' '], ['|'], [' '],
             natToChars n, [' '], ['|']], rest) := by
  obtain ⟨h1ne, h1c⟩ := h1
  obtain ⟨h2ne, h2c⟩ := h2
  have hNne : natToChars n ≠ [] := natToChars_ne_nil n
  have hNdig : ∀ c ∈ natToChars n, isDigitCh c = true := isDigit_natToChars n
  have w1 : isWSCh ' ' = true := by decide
  have w2 : isWSCh '|' = false := by decide
  have hA : matchToks [Tok.lit ['|']] ('|' :: rest) = some ([['|']], rest) := by
    have := matchToks_lit_append ['|'] [] rest ([], rest) rfl
    simpa using this
  have hC : matchToks [Tok.many isWSCh false, Tok.lit ['|']]
      (' ' :: '|' :: rest) = some ([[' '], ['|']], rest) := by
    have hsp : ((' ' :: '|' :: rest).takeWhile isWSCh).length = 1 := by
      simp [List.takeWhile_cons, w1, w2]
    have := matchToks_many_greedy isWSCh [Tok.lit ['|']]
      (' ' :: '|' :: rest) 1 hsp ([['|']], rest) hA
    simpa using this
  have hD : matchToks [Tok.many1 isDigitCh false, Tok.many isWSCh false,
      Tok.lit ['|']] (natToChars n ++ ' ' :: '|' :: rest) =
      some ([natToChars n, [' '], ['|']], rest) := by
    have hsp : ((natToChars n ++ ' ' :: '|' :: rest).takeWhile isDigitCh) =
        natToChars n :=
      (span_append isDigitCh (natToChars n) (' ' :: '|' :: rest) hNdig
        (fun c hc => by
          simp only [List.head?_cons, Option.some.injEq] at hc
          rw [← hc]; decide)).1
    have hk1 : 0 < (natToChars n).length := List.length_pos.mpr hNne
    have := matchToks_many1_greedy isDigitCh
      [Tok.many isWSCh false, Tok.lit ['|']]
      (natToChars n ++ ' ' :: '|' :: rest) (natToChars n).length
      (by rw [hsp]) hk1 ([[' '], ['|']], rest)
      (by rw [List.drop_left]; exact hC)
    rw [List.take_left] at this
    exact this
  have hE : matchToks [Tok.many isWSCh false, Tok.many1 isDigitCh false,
      Tok.many isWSCh false, Tok.lit ['|']]
      (' ' :: (natToChars n ++ ' ' :: '|' :: rest)) =
      some ([[' '], natToChars n, [' '], ['|']], rest) := by
    have hsp : ((' ' :: (natToChars n ++ ' ' :: '|' :: rest)).takeWhile
        isWSCh).length = 1 := by
      rcases hd : natToChars n with _ | ⟨d, N'⟩
      · exact absurd hd hNne
      · have hdg : isDigitCh d = true := by
          apply hNdig; rw [hd]; exact List.mem_cons_self d N'
        simp [List.takeWhile_cons, w1, digit_not_ws d hdg]
    have := matchToks_many_greedy isWSCh
      [Tok.many1 isDigitCh false, Tok.many isWSCh false, Tok.lit ['|']]
      (' ' :: (natToChars n ++ ' ' :: '|' :: rest)) 1 hsp
      ([natToChars n, [' '], ['|']], rest) hD
    simpa using this
  have hF := matchToks_cell
    [Tok.many isWSCh false, Tok.many1 isDigitCh false, Tok.many isWSCh false,
     Tok.lit ['|']] c2 (' ' :: (natToChars n ++ ' ' :: '|' :: rest))
    ([[' '], natToChars n, [' '], ['|']], rest) h2c hE
  have hG : matchToks (Tok.many isWSCh false :: Tok.many isDotRe true ::
      Tok.many isWSCh false :: Tok.lit ['|'] :: Tok.many isWSCh false ::
      Tok.many1 isDigitCh false :: Tok.many isWSCh false ::
      Tok.lit ['|'] :: [])
      (' ' :: (c2 ++ ' ' :: '|' :: (' ' :: (natToChars n ++ ' ' :: '|' ::
        rest)))) =
      some ([[' '], c2, [' '], ['|'], [' '], natToChars n, [' '], ['|']],
        rest) := by
    have hsp : ((' ' :: (c2 ++ ' ' :: '|' :: (' ' :: (natToChars n ++
        ' ' :: '|' :: rest)))).takeWhile isWSCh).length = 1 := by
      rcases hd : c2 with _ | ⟨d, C'⟩
      · exact absurd hd h2ne
      · have hdw : isWSCh d = false := by
          have := h2c d (by rw [hd]; exact List.mem_cons_self d C')
          exact this.2.1
        simp [List.takeWhile_cons, w1, hdw]
    have := matchToks_many_greedy isWSCh
      (Tok.many isDotRe true :: Tok.many isWSCh false :: Tok.lit ['|'] ::
       Tok.many isWSCh false :: Tok.many1 isDigitCh false ::
       Tok.many isWSCh false :: Tok.lit ['|'] :: [])
      (' ' :: (c2 ++ ' ' :: '|' :: (' ' :: (natToChars n ++ ' ' :: '|' ::
        rest)))) 1 hsp
      ([c2, [' '], ['|'], [' '], natToChars n, [' '], ['|']], rest) hF
    simpa using this
  have hH := matchToks_cell
    (Tok.many isWSCh false :: Tok.many isDotRe true :: Tok.many isWSCh false ::
     Tok.lit ['|'] :: Tok.many isWSCh false :: Tok.many1 isDigitCh false ::
     Tok.many isWSCh false :: Tok.lit ['|'] :: []) c1
    (' ' :: (c2 ++ ' ' :: '|' :: (' ' :: (natToChars n ++ ' ' :: '|' ::
      rest))))
    ([[' '], c2, [' '], ['|'], [' '], natToChars n, [' '], ['|']], rest)
    h1c hG
  have hI : matchToks (Tok.many isWSCh false :: Tok.many isDotRe true ::
      Tok.many isWSCh false :: Tok.lit ['|'] :: Tok.many isWSCh false ::
      Tok.many isDotRe true :: Tok.many isWSCh false :: Tok.lit ['|'] ::
      Tok.many isWSCh false :: Tok.many1 isDigitCh false ::
      Tok.many isWSCh false :: Tok.lit ['|'] :: [])
      (' ' :: (c1 ++ ' ' :: '|' :: (' ' :: (c2 ++ ' ' :: '|' :: (' ' ::
        (natToChars n ++ ' ' :: '|' :: rest)))))) =
      some ([[' '], c1, [' '], ['|'], [' '], c2, [' '], ['|'], [' '],
             natToChars n, [' '], ['|']], rest) := by
    have hsp : ((' ' :: (c1 ++ ' ' :: '|' :: (' ' :: (c2 ++ ' ' :: '|' ::
        (' ' :: (natToChars n ++ ' ' :: '|' :: rest)))))).takeWhile
        isWSCh).length = 1 := by
      rcases hd : c1 with _ | ⟨d, C'⟩
      · exact absurd hd h1ne
      · have hdw : isWSCh d = false := by
          have := h1c d (by rw [hd]; exact List.mem_cons_self d C')
          exact this.2.1
        simp [List.takeWhile_cons, w1, hdw]
    have := matchToks_many_greedy isWSCh
      (Tok.many isDotRe true :: Tok.many isWSCh false :: Tok.lit ['|'] ::
       Tok.many isWSCh false :: Tok.many isDotRe true ::
       Tok.many isWSCh false :: Tok.lit ['|'] :: Tok.many isWSCh false ::
       Tok.many1 isDigitCh false :: Tok.many isWSCh false ::
       Tok.lit ['|'] :: [])
      (' ' :: (c1 ++ ' ' :: '|' :: (' ' :: (c2 ++ ' ' :: '|' :: (' ' ::
        (natToChars n ++ ' ' :: '|' :: rest)))))) 1 hsp
      ([c1, [' '], ['|'], [' '], c2, [' '], ['|'], [' '], natToChars n,
        [' '], ['|']], rest) hH
    simpa using this
  have hshape : rowText c1 c2 n ++ rest =
      '|' :: ' ' :: (c1 ++ ' ' :: '|' :: (' ' :: (c2 ++ ' ' :: '|' ::
        (' ' :: (natToChars n ++ ' ' :: '|' :: rest))))) := by
    simp [rowText]
  rw [hshape]
  show matchToks (Tok.lit ['|'] :: Tok.many isWSCh false ::
      Tok.many isDotRe true :: Tok.many isWSCh false :: Tok.lit ['|'] ::
      Tok.many isWSCh false :: Tok.many isDotRe true ::
      Tok.many isWSCh false :: Tok.lit ['|'] :: Tok.many isWSCh false ::
      Tok.many1 isDigitCh false :: Tok.many isWSCh false ::
      Tok.lit ['|'] :: []) _ = _
  have := matchToks_lit_append ['|']
    (Tok.many isWSCh false :: Tok.many isDotRe true :: Tok.many isWSCh false ::
     Tok.lit ['|'] :: Tok.many isWSCh false :: Tok.many isDotRe true ::
     Tok.many isWSCh false :: Tok.lit ['|'] :: Tok.many isWSCh false ::
     Tok.many1 isDigitCh false :: Tok.many isWSCh false ::
     Tok.lit ['|'] :: [])
    (' ' :: (c1 ++ ' ' :: '|' :: (' ' :: (c2 ++ ' ' :: '|' :: (' ' ::
      (natToChars n ++ ' ' :: '|' :: rest))))))
    ([[' '], c1, [' '], ['|'], [' '], c2, [' '], ['|'], [' '],
      natToChars n, [' '], ['|']], rest) hI
  simpa using this

/-! ### Search and scan lemmas -/

theorem searchToksAux_found (ts : List Tok) (s : List Char) (i : ℕ)
    (q : List (List Char) × List Char) (h : matchToks ts s = some q) :
    searchToksAux ts s i = some (i, q.1, q.2) := by
  cases s with
  | nil => simp [searchToksAux, h]
  | cons c rest => simp [searchToksAux, h]

theorem searchToksAux_cons_no (ts : List Tok) (c : Char) (rest : List Char)
    (i : ℕ) (h : matchToks ts (c :: rest) = none) :
    searchToksAux ts (c :: rest) i = searchToksAux ts rest (i + 1) := by
  simp [searchToksAux, h]

theorem searchToksAux_nil (ts : List Tok) (i : ℕ)
    (h : matchToks ts [] = none) : searchToksAux ts [] i = none := by
  simp [searchToksAux, h]

theorem matchToks_rowToks_nil : matchToks rowToks [] = none := by
  show matchToks (Tok.lit ['|'] :: _) [] = none
  exact matchToks_lit_nil '|' [] _

theorem matchToks_rowToks_nl (s : List Char) :
    matchToks rowToks ('\n' :: s) = none := by
  show matchToks (Tok.lit ['|'] :: _) ('\n' :: s) = none
  exact matchToks_lit_head_ne '|' [] _ '\n' s (by decide)


theorem rowsJoin_cons (r : List Char × List Char × ℕ)
    (r2 : List Char × List Char × ℕ) (tl : List (List Char × List Char × ℕ)) :
    rowsJoin (r :: r2 :: tl) =
      rowText r.1 r.2.1 r.2.2 ++ '\n' :: rowsJoin (r2 :: tl) := rfl

theorem scanToksAux_succ_found (ts : List Tok) (fuel : ℕ) (s : List Char)
    (i : ℕ) (segs : List (List Char)) (rest : List Char)
    (h : searchToksAux ts s 0 = some (i, segs, rest)) :
    scanToksAux ts (fuel + 1) s = segs :: scanToksAux ts fuel rest := by
  have hu : scanToksAux ts (fuel + 1) s =
      match searchToksAux ts s 0 with
      | none => []
      | some (_, segs2, rest2) => segs2 :: scanToksAux ts fuel rest2 := rfl
  rw [hu, h]

theorem scanToksAux_succ_none (ts : List Tok) (fuel : ℕ) (s : List Char)
    (h : searchToksAux ts s 0 = none) :
    scanToksAux ts (fuel + 1) s = [] := by
  have hu : scanToksAux ts (fuel + 1) s =
      match searchToksAux ts s 0 with
      | none => []
      | some (_, segs2, rest2) => segs2 :: scanToksAux ts fuel rest2 := rfl
  rw [hu, h]

/-- Scanning the joined rows yields one match per row, whose capture (index
10) is that row's rendered sequence number; a single leading newline (the
separator left over from the previous match) is skipped. -/
theorem scanToksAux_rowsJoin (rows : List (List Char × List Char × ℕ))
    (hclean : ∀ r ∈ rows, cleanCellP r.1 ∧ cleanCellP r.2.1) :
    ∀ fuel, rows.length < fuel →
      scanToksAux rowToks fuel (rowsJoin rows) =
        rows.map (fun r => [['|'], [' '], r.1, [' '], ['|'], [' '], r.2.1,
          [' '], ['|'], [' '], natToChars r.2.2, [' '], ['|']]) ∧
      scanToksAux rowToks fuel ('\n' :: rowsJoin rows) =
        rows.map (fun r => [['|'], [' '], r.1, [' '], ['|'], [' '], r.2.1,
          [' '], ['|'], [' '], natToChars r.2.2, [' '], ['|']]) := by
  induction rows with
  | nil =>
      intro fuel hf
      rcases fuel with _ | fuel
      · omega
      · constructor
        · show scanToksAux rowToks (fuel + 1) [] = []
          exact scanToksAux_succ_none rowToks fuel []
            (searchToksAux_nil rowToks 0 matchToks_rowToks_nil)
        · show scanToksAux rowToks (fuel + 1) ['\n'] = []
          refine scanToksAux_succ_none rowToks fuel ['\n'] ?_
          rw [searchToksAux_cons_no rowToks '\n' [] 0 (matchToks_rowToks_nl []),
            searchToksAux_nil rowToks 1 matchToks_rowToks_nil]
  | cons r tl ih =>
      intro fuel hf
      rcases fuel with _ | fuel
      · omega
      · have hr := hclean r (List.mem_cons_self r tl)
        cases tl with
        | nil =>
            have hm : matchToks rowToks (rowsJoin [r]) =
                some ([['|'], [' '], r.1, [' '], ['|'], [' '], r.2.1, [' '],
                  ['|'], [' '], natToChars r.2.2, [' '], ['|']], []) := by
              have := matchToks_row r.1 r.2.1 r.2.2 [] hr.1 hr.2
              simpa [rowsJoin] using this
            have hz : scanToksAux rowToks fuel [] = [] := by
              rcases fuel with _ | fuel
              · rfl
              · exact scanToksAux_succ_none rowToks fuel []
                  (searchToksAux_nil rowToks 0 matchToks_rowToks_nil)
            constructor
            · rw [scanToksAux_succ_found rowToks fuel _ 0 _ []
                (searchToksAux_found rowToks _ 0 _ hm), hz]
              rfl
            · rw [scanToksAux_succ_found rowToks fuel _ 1 _ [] (by
                rw [searchToksAux_cons_no rowToks _ _ 0
                  (matchToks_rowToks_nl (rowsJoin [r]))]
                exact searchToksAux_found rowToks _ 1 _ hm), hz]
              rfl
        | cons r2 tl2 =>
            have htl : ∀ x ∈ r2 :: tl2, cleanCellP x.1 ∧ cleanCellP x.2.1 :=
              fun x hx => hclean x (List.mem_cons_of_mem r hx)
            have hm : matchToks rowToks (rowsJoin (r :: r2 :: tl2)) =
                some ([['|'], [' '], r.1, [' '], ['|'], [' '], r.2.1, [' '],
                  ['|'], [' '], natToChars r.2.2, [' '], ['|']],
                  '\n' :: rowsJoin (r2 :: tl2)) := by
              rw [rowsJoin_cons]
              exact matchToks_row r.1 r.2.1 r.2.2 ('\n' :: rowsJoin (r2 :: tl2))
                hr.1 hr.2
            have hcont := (ih htl fuel (by simp at hf ⊢; omega)).2
            constructor
            · rw [scanToksAux_succ_found rowToks fuel _ 0 _ _
                (searchToksAux_found rowToks _ 0 _ hm), hcont]
              rfl
            · rw [scanToksAux_succ_found rowToks fuel _ 1 _ _ (by
                rw [searchToksAux_cons_no rowToks _ _ 0
                  (matchToks_rowToks_nl (rowsJoin (r :: r2 :: tl2)))]
                exact searchToksAux_found rowToks _ 1 _ hm), hcont]
              rfl

/-! ### Structure of the rendered table text -/

theorem isDotRe_ne_nl (c : Char) (h : isDotRe c = true) : c ≠ '\n' := by
  simp only [isDotRe, Bool.not_eq_true] at h
  intro hcon
  rw [hcon] at h
  simp at h

theorem rowText_noNL (f ind : List Char) (n : ℕ)
    (hf : cleanCellP f) (hi : cleanCellP ind) :
    ∀ c ∈ rowText f ind n, c ≠ '\n' := by
  intro c hc hcon
  subst hcon
  have hfn : ('\n' : Char) ∉ f :=
    fun hm => absurd (hf.2 '\n' hm).1 (by decide)
  have hin : ('\n' : Char) ∉ ind :=
    fun hm => absurd (hi.2 '\n' hm).1 (by decide)
  have hNn : ('\n' : Char) ∉ natToChars n :=
    fun hm => absurd (isDigit_natToChars n '\n' hm) (by decide)
  simp [rowText, hfn, hin, hNn] at hc

theorem rowsJoin_head (r : List Char × List Char × ℕ)
    (tl : List (List Char × List Char × ℕ)) :
    ∃ v, rowsJoin (r :: tl) = '|' :: v := by
  cases tl with
  | nil => exact ⟨_, rfl⟩
  | cons r2 tl2 => exact ⟨_, rfl⟩

theorem rowsJoin_nl_split (rows : List (List Char × List Char × ℕ))
    (hclean : ∀ r ∈ rows, cleanCellP r.1 ∧ cleanCellP r.2.1) :
    ∀ t u, rowsJoin rows = t ++ '\n' :: u → ∃ v, u = '|' :: v := by
  induction rows with
  | nil =>
      intro t u ht
      have := congrArg List.length ht
      simp [rowsJoin] at this
      omega
  | cons r tl ih =>
      intro t u ht
      have hr := hclean r (List.mem_cons_self r tl)
      have hnr : '\n' ∉ rowText r.1 r.2.1 r.2.2 := by
        intro hcon
        exact rowText_noNL r.1 r.2.1 r.2.2 hr.1 hr.2 '\n' hcon rfl
      cases tl with
      | nil =>
          exfalso
          apply hnr
          show '\n' ∈ rowsJoin [r]
          rw [ht]
          simp
      | cons r2 tl2 =>
          rw [rowsJoin_cons] at ht
          obtain ⟨t2, hb, _⟩ :=
            append_split_of_not_mem '\n' (rowText r.1 r.2.1 r.2.2)
              ('\n' :: rowsJoin (r2 :: tl2)) t u ht hnr
          cases t2 with
          | nil =>
              simp only [List.nil_append, List.cons.injEq] at hb
              rw [← hb.2]
              exact rowsJoin_head r2 tl2
          | cons x t3 =>
              simp only [List.cons_append, List.cons.injEq] at hb
              exact ih (fun x hx => hclean x (List.mem_cons_of_mem r hx))
                t3 u hb.2

theorem rowsJoin_dnl_skip (rows : List (List Char × List Char × ℕ))
    (hclean : ∀ r ∈ rows, cleanCellP r.1 ∧ cleanCellP r.2.1) (s2 : List Char) :
    ∀ t u, rowsJoin rows = t ++ u → u ≠ [] →
      isPrefixL ['\n', '\n'] (u ++ s2) = false := by
  intro t u ht hu
  rcases u with _ | ⟨x, v⟩
  · exact absurd rfl hu
  by_cases hx : x = '\n'
  · subst hx
    obtain ⟨v2, hv⟩ := rowsJoin_nl_split rows hclean t v ht
    subst hv
    exact isPrefixL_two_ne '\n' '\n' '|' (v2 ++ s2) (by decide)
  · exact isPrefixL_head_ne '\n' ['\n'] (v ++ s2) x hx

theorem rowsJoin_no_dnl (rows : List (List Char × List Char × ℕ))
    (hclean : ∀ r ∈ rows, cleanCellP r.1 ∧ cleanCellP r.2.1) :
    indexOfSubstr ['\n', '\n'] (rowsJoin rows) = none := by
  apply indexOfSubstrAux_none
  intro t u ht
  rcases u with _ | ⟨x, v⟩
  · exact isPrefixL_nil_right ['\n', '\n'] (by simp)
  · have := rowsJoin_dnl_skip rows hclean [] t (x :: v) ht (by simp)
    simpa using this

theorem rowText_length_pos (f ind : List Char) (n : ℕ) :
    0 < (rowText f ind n).length := by
  simp [rowText]

theorem rowsJoin_length_ge (rows : List (List Char × List Char × ℕ)) :
    rows.length ≤ (rowsJoin rows).length := by
  induction rows with
  | nil => simp [rowsJoin]
  | cons r tl ih =>
      cases tl with
      | nil =>
          show 1 ≤ (rowText r.1 r.2.1 r.2.2).length
          exact rowText_length_pos r.1 r.2.1 r.2.2
      | cons r2 tl2 =>
          rw [rowsJoin_cons]
          have h1 := rowText_length_pos r.1 r.2.1 r.2.2
          simp only [List.length_cons, List.length_append] at ih ⊢
          omega

theorem rowScanNumbers_rowsJoin (rows : List (List Char × List Char × ℕ))
    (hclean : ∀ r ∈ rows, cleanCellP r.1 ∧ cleanCellP r.2.1) :
    rowScanNumbers (rowsJoin rows) = rows.map (fun r => r.2.2) := by
  unfold rowScanNumbers scanToks
  rw [(scanToksAux_rowsJoin rows hclean ((rowsJoin rows).length + 1)
    (by have := rowsJoin_length_ge rows; omega)).1]
  rw [List.map_map]
  apply List.map_congr_left
  intro r _
  show digitsVal (List.getD _ 10 []) = r.2.2
  have hg : List.getD [['|'], [' '], r.1, [' '], ['|'], [' '], r.2.1,
      [' '], ['|'], [' '], natToChars r.2.2, [' '], ['|']] 10 [] =
      natToChars r.2.2 := rfl
  rw [hg, digitsVal_natToChars]

/-! ### The well-formed-table insertion path -/

theorem headerRowText_noNL : ∀ c ∈ headerRowText, c ≠ '\n' := by decide

theorem headerRowText_length : headerRowText.length = 21 := rfl

theorem dividerRowText_length : dividerRowText.length = 21 := rfl

theorem dividerRowText_noNL : ∀ c ∈ dividerRowText, c ≠ '\n' := by decide

theorem addCompletionRecordL_insert
    (pre post HP C R1 R2 R3 : List Char) (heading : String)
    (rows : List (List Char × List Char × ℕ))
    (datetime status : String) (pos : LedgerPosition)
    (fmtFn : String → List Char) (ci si : String)
    (hH : '\n' ∉ heading.data)
    (hclean : ∀ r ∈ rows, cleanCellP r.1 ∧ cleanCellP r.2.1)
    (hHP : HP = ['#', '#', ' '] ++ heading.data)
    (hR3 : R3 = rowsJoin rows ++ '\n' :: '\n' :: post)
    (hR2 : R2 = dividerRowText ++ '\n' :: R3)
    (hR1 : R1 = headerRowText ++ '\n' :: R2)
    (hC : C = pre ++ HP ++ '\n' :: R1)
    (hfind : indexOfSubstr HP C = some pre.length) :
    addCompletionRecordL C datetime status heading pos fmtFn ci si =
      pre ++ HP ++ '\n' :: headerRowText ++
        '\n' :: dividerRowText ++
        '\n' :: rowText (fmtFn datetime)
            (if status = "completed" then ci else si).data
            ((rows.map (fun r => r.2.2)).foldl max 0 + 1) ++
        '\n' :: rowsJoin rows ++ '\n' :: '\n' :: post := by
  have hHPnl : ∀ y ∈ HP, y ≠ '\n' := by
    intro y hy
    rw [hHP] at hy
    rcases List.mem_append.mp hy with h | h
    · simp only [List.mem_cons, List.not_mem_nil, or_false] at h
      rcases h with rfl | rfl | rfl <;> decide
    · intro hcon
      rw [hcon] at h
      exact hH h
  have hdropHead : C.drop pre.length = HP ++ '\n' :: R1 := by
    rw [hC, List.append_assoc]
    exact List.drop_left pre _
  have hnl1 : indexOfCharFrom '\n' C pre.length =
      some (pre.length + HP.length) :=
    indexOfCharFrom_split '\n' C HP R1 pre.length hdropHead hHPnl
  have hdropA : C.drop (pre.length + HP.length + 1) = R1 := by
    rw [hC]
    have hsh : pre ++ HP ++ '\n' :: R1 = (pre ++ HP ++ ['\n']) ++ R1 := by
      simp [List.append_assoc]
    rw [hsh]
    exact List.drop_left' (by
      simp only [List.length_append, List.length_cons, List.length_nil,
        headerRowText_length, dividerRowText_length]
      try omega)
  have hheader : searchToksAux headerToks R1 0 =
      some (0, [['|'], [' '], ['D','a','t','e'], [' '], ['|'], [' '],
        ['S','t','a','t','u','s'], [' '], ['|'], [' '], ['#'], [' '],
        ['|']], '\n' :: R2) :=
    searchToksAux_found headerToks R1 0
      ([['|'], [' '], ['D','a','t','e'], [' '], ['|'], [' '],
        ['S','t','a','t','u','s'], [' '], ['|'], [' '], ['#'], [' '],
        ['|']], '\n' :: R2)
      (by rw [hR1]; exact matchToks_header_concrete ('\n' :: R2))
  have hdropA' : C.drop (pre.length + HP.length + 1) =
      headerRowText ++ '\n' :: R2 := by rw [hdropA, hR1]
  have hnl2 : indexOfCharFrom '\n' C (pre.length + HP.length + 1) =
      some (pre.length + HP.length + 1 + 21) := by
    have := indexOfCharFrom_split '\n' C headerRowText R2
      (pre.length + HP.length + 1) hdropA' headerRowText_noNL
    simpa using this
  have hdropD : C.drop (pre.length + HP.length + 1 + 21 + 1) = R2 := by
    rw [hC]
    have hsh : pre ++ HP ++ '\n' :: R1 =
        (pre ++ HP ++ '\n' :: headerRowText ++ ['\n']) ++ R2 := by
      rw [hR1]
      simp [List.append_assoc]
    rw [hsh]
    exact List.drop_left' (by
      simp only [List.length_append, List.length_cons, List.length_nil,
        headerRowText_length, dividerRowText_length]
      try omega)
  have hdiv : searchToksAux dividerToks R2 0 =
      some (0, [['|'], [' '], ['-','-','-','-'], [' '], ['|'], [' '],
        ['-','-','-','-','-','-'], [' '], ['|'], [' '], ['-'], [' '],
        ['|']], '\n' :: R3) :=
    searchToksAux_found dividerToks R2 0
      ([['|'], [' '], ['-','-','-','-'], [' '], ['|'], [' '],
        ['-','-','-','-','-','-'], [' '], ['|'], [' '], ['-'], [' '],
        ['|']], '\n' :: R3)
      (by rw [hR2]; exact matchToks_divider_concrete ('\n' :: R3))
  have hdropD' : C.drop (pre.length + HP.length + 1 + 21 + 1) =
      dividerRowText ++ '\n' :: R3 := by rw [hdropD, hR2]
  have hnl3 : indexOfCharFrom '\n' C (pre.length + HP.length + 1 + 21 + 1) =
      some (pre.length + HP.length + 1 + 21 + 1 + 21) := by
    have := indexOfCharFrom_split '\n' C dividerRowText R3
      (pre.length + HP.length + 1 + 21 + 1) hdropD' dividerRowText_noNL
    simpa using this
  have hdropE : C.drop (pre.length + HP.length + 1 + 21 + 1 + 21 + 1) =
      R3 := by
    rw [hC]
    have hsh : pre ++ HP ++ '\n' :: R1 =
        (pre ++ HP ++ '\n' :: headerRowText ++ '\n' :: dividerRowText ++
          ['\n']) ++ R3 := by
      rw [hR1, hR2]
      simp [List.append_assoc]
    rw [hsh]
    exact List.drop_left' (by
      simp only [List.length_append, List.length_cons, List.length_nil,
        headerRowText_length, dividerRowText_length]
      try omega)
  have htend : indexOfSubstrFrom ['\n', '\n'] C
      (pre.length + HP.length + 1 + 21 + 1 + 21 + 1) =
      some (pre.length + HP.length + 1 + 21 + 1 + 21 + 1 +
        (rowsJoin rows).length) := by
    unfold indexOfSubstrFrom
    rw [hdropE]
    have hsh : R3 = (rowsJoin rows ++ ['\n', '\n']) ++ post := by
      rw [hR3]
      simp [List.append_assoc]
    rw [hsh]
    have hsplit := indexOfSubstr_split ['\n', '\n'] (rowsJoin rows) post
      (fun t u ht hu => rowsJoin_dnl_skip rows hclean (['\n', '\n'] ++ post)
        t u ht hu)
    rw [hsplit]
    rfl
  have htake : C.take (pre.length + HP.length + 1 + 21 + 1 + 21 + 1) =
      pre ++ HP ++ '\n' :: headerRowText ++ '\n' :: dividerRowText ++
        ['\n'] := by
    rw [hC]
    have hsh : pre ++ HP ++ '\n' :: R1 =
        (pre ++ HP ++ '\n' :: headerRowText ++ '\n' :: dividerRowText ++
          ['\n']) ++ R3 := by
      rw [hR1, hR2]
      simp [List.append_assoc]
    rw [hsh]
    exact List.take_left' (by
      simp only [List.length_append, List.length_cons, List.length_nil,
        headerRowText_length, dividerRowText_length]
      try omega)
  unfold addCompletionRecordL
  dsimp only
  rw [← hHP]
  rw [hfind]
  dsimp only
  rw [hnl1]
  dsimp only
  rw [hdropA]
  rw [hheader]
  dsimp only
  simp only [Nat.add_zero]
  rw [hnl2]
  dsimp only
  rw [hdropD]
  rw [hdiv]
  dsimp only
  simp only [Nat.add_zero]
  rw [hnl3]
  dsimp only
  rw [htend]
  dsimp only
  rw [if_pos (show 0 < pre.length + HP.length + 1 + 21 + 1 + 21 + 1 +
    (rowsJoin rows).length by omega)]
  have hL : pre.length + HP.length + 1 + 21 + 1 + 21 + 1 +
      (rowsJoin rows).length -
      (pre.length + HP.length + 1 + 21 + 1 + 21 + 1) =
      (rowsJoin rows).length := by omega
  unfold sliceL
  rw [hdropE, hL]
  have htk : R3.take (rowsJoin rows).length = rowsJoin rows := by
    rw [hR3]
    exact List.take_left' rfl
  rw [htk, rowScanNumbers_rowsJoin rows hclean, htake]
  simp [List.append_assoc]
  exact hR3

theorem addCompletionRecordL_insert_eof
    (pre HP C R1 R2 R3 : List Char) (heading : String)
    (rows : List (List Char × List Char × ℕ))
    (datetime status : String) (pos : LedgerPosition)
    (fmtFn : String → List Char) (ci si : String)
    (hH : '\n' ∉ heading.data)
    (hclean : ∀ r ∈ rows, cleanCellP r.1 ∧ cleanCellP r.2.1)
    (hHP : HP = ['#', '#', ' '] ++ heading.data)
    (hR3 : R3 = rowsJoin rows)
    (hR2 : R2 = dividerRowText ++ '\n' :: R3)
    (hR1 : R1 = headerRowText ++ '\n' :: R2)
    (hC : C = pre ++ HP ++ '\n' :: R1)
    (hfind : indexOfSubstr HP C = some pre.length) :
    addCompletionRecordL C datetime status heading pos fmtFn ci si =
      pre ++ HP ++ '\n' :: headerRowText ++
        '\n' :: dividerRowText ++
        '\n' :: rowText (fmtFn datetime)
            (if status = "completed" then ci else si).data
            ((rows.map (fun r => r.2.2)).foldl max 0 + 1) ++
        '\n' :: rowsJoin rows := by
  have hHPnl : ∀ y ∈ HP, y ≠ '\n' := by
    intro y hy
    rw [hHP] at hy
    rcases List.mem_append.mp hy with h | h
    · simp only [List.mem_cons, List.not_mem_nil, or_false] at h
      rcases h with rfl | rfl | rfl <;> decide
    · intro hcon
      rw [hcon] at h
      exact hH h
  have hdropHead : C.drop pre.length = HP ++ '\n' :: R1 := by
    rw [hC, List.append_assoc]
    exact List.drop_left pre _
  have hnl1 : indexOfCharFrom '\n' C pre.length =
      some (pre.length + HP.length) :=
    indexOfCharFrom_split '\n' C HP R1 pre.length hdropHead hHPnl
  have hdropA : C.drop (pre.length + HP.length + 1) = R1 := by
    rw [hC]
    have hsh : pre ++ HP ++ '\n' :: R1 = (pre ++ HP ++ ['\n']) ++ R1 := by
      simp [List.append_assoc]
    rw [hsh]
    exact List.drop_left' (by
      simp only [List.length_append, List.length_cons, List.length_nil]
      try omega)
  have hheader : searchToksAux headerToks R1 0 =
      some (0, [['|'], [' '], ['D','a','t','e'], [' '], ['|'], [' '],
        ['S','t','a','t','u','s'], [' '], ['|'], [' '], ['#'], [' '],
        ['|']], '\n' :: R2) :=
    searchToksAux_found headerToks R1 0
      ([['|'], [' '], ['D','a','t','e'], [' '], ['|'], [' '],
        ['S','t','a','t','u','s'], [' '], ['|'], [' '], ['#'], [' '],
        ['|']], '\n' :: R2)
      (by rw [hR1]; exact matchToks_header_concrete ('\n' :: R2))
  have hdropA' : C.drop (pre.length + HP.length + 1) =
      headerRowText ++ '\n' :: R2 := by rw [hdropA, hR1]
  have hnl2 : indexOfCharFrom '\n' C (pre.length + HP.length + 1) =
      some (pre.length + HP.length + 1 + 21) := by
    have := indexOfCharFrom_split '\n' C headerRowText R2
      (pre.length + HP.length + 1) hdropA' headerRowText_noNL
    simpa using this
  have hdropD : C.drop (pre.length + HP.length + 1 + 21 + 1) = R2 := by
    rw [hC]
    have hsh : pre ++ HP ++ '\n' :: R1 =
        (pre ++ HP ++ '\n' :: headerRowText ++ ['\n']) ++ R2 := by
      rw [hR1]
      simp [List.append_assoc]
    rw [hsh]
    exact List.drop_left' (by
      simp only [List.length_append, List.length_cons, List.length_nil,
        headerRowText_length]
      try omega)
  have hdiv : searchToksAux dividerToks R2 0 =
      some (0, [['|'], [' '], ['-','-','-','-'], [' '], ['|'], [' '],
        ['-','-','-','-','-','-'], [' '], ['|'], [' '], ['-'], [' '],
        ['|']], '\n' :: R3) :=
    searchToksAux_found dividerToks R2 0
      ([['|'], [' '], ['-','-','-','-'], [' '], ['|'], [' '],
        ['-','-','-','-','-','-'], [' '], ['|'], [' '], ['-'], [' '],
        ['|']], '\n' :: R3)
      (by rw [hR2]; exact matchToks_divider_concrete ('\n' :: R3))
  have hdropD' : C.drop (pre.length + HP.length + 1 + 21 + 1) =
      dividerRowText ++ '\n' :: R3 := by rw [hdropD, hR2]
  have hnl3 : indexOfCharFrom '\n' C (pre.length + HP.length + 1 + 21 + 1) =
      some (pre.length + HP.length + 1 + 21 + 1 + 21) := by
    have := indexOfCharFrom_split '\n' C dividerRowText R3
      (pre.length + HP.length + 1 + 21 + 1) hdropD' dividerRowText_noNL
    simpa using this
  have hdropE : C.drop (pre.length + HP.length + 1 + 21 + 1 + 21 + 1) =
      R3 := by
    rw [hC]
    have hsh : pre ++ HP ++ '\n' :: R1 =
        (pre ++ HP ++ '\n' :: headerRowText ++ '\n' :: dividerRowText ++
          ['\n']) ++ R3 := by
      rw [hR1, hR2]
      simp [List.append_assoc]
    rw [hsh]
    exact List.drop_left' (by
      simp only [List.length_append, List.length_cons, List.length_nil,
        headerRowText_length, dividerRowText_length]
      try omega)
  have htend : indexOfSubstrFrom ['\n', '\n'] C
      (pre.length + HP.length + 1 + 21 + 1 + 21 + 1) = none := by
    unfold indexOfSubstrFrom
    rw [hdropE, hR3, rowsJoin_no_dnl rows hclean]
    rfl
  have htake : C.take (pre.length + HP.length + 1 + 21 + 1 + 21 + 1) =
      pre ++ HP ++ '\n' :: headerRowText ++ '\n' :: dividerRowText ++
        ['\n'] := by
    rw [hC]
    have hsh : pre ++ HP ++ '\n' :: R1 =
        (pre ++ HP ++ '\n' :: headerRowText ++ '\n' :: dividerRowText ++
          ['\n']) ++ R3 := by
      rw [hR1, hR2]
      simp [List.append_assoc]
    rw [hsh]
    exact List.take_left' (by
      simp only [List.length_append, List.length_cons, List.length_nil,
        headerRowText_length, dividerRowText_length]
      try omega)
  unfold addCompletionRecordL
  dsimp only
  rw [← hHP]
  rw [hfind]
  dsimp only
  rw [hnl1]
  dsimp only
  rw [hdropA]
  rw [hheader]
  dsimp only
  simp only [Nat.add_zero]
  rw [hnl2]
  dsimp only
  rw [hdropD]
  rw [hdiv]
  dsimp only
  simp only [Nat.add_zero]
  rw [hnl3]
  dsimp only
  rw [htend]
  dsimp only
  rw [hdropE, hR3, rowScanNumbers_rowsJoin rows hclean, htake]
  simp [List.append_assoc]

theorem addCompletionRecordL_fresh_bottom (C : List Char)
    (datetime status heading : String)
    (fmtFn : String → List Char) (ci si : String)
    (hnone : indexOfSubstr (['#', '#', ' '] ++ heading.data) C = none) :
    addCompletionRecordL C datetime status heading LedgerPosition.bottom
        fmtFn ci si =
      C ++ '\n' :: '\n' :: ((['#', '#', ' '] ++ heading.data) ++
        '\n' :: tableText (fmtFn datetime)
          (if status = "completed" then ci else si).data) := by
  unfold addCompletionRecordL
  dsimp only
  rw [hnone]

theorem heading_skip_cond (orig HP X2 : List Char) (hne : HP ≠ [])
    (hnl : ∀ y ∈ HP, y ≠ '\n')
    (hnone : ∀ t u, orig = t ++ u → isPrefixL HP u = false) :
    ∀ t u, orig ++ ['\n', '\n'] = t ++ u → u ≠ [] →
      isPrefixL HP (u ++ X2) = false := by
  intro t u ht hu
  have hlen : orig.length + 2 = t.length + u.length := by
    have := congrArg List.length ht
    simpa using this
  have hlu : 1 ≤ u.length := by
    rcases u with _ | ⟨x, v⟩
    · exact absurd rfl hu
    · simp
  by_cases hk : t.length ≤ orig.length
  · have hu2 : u = orig.drop t.length ++ ['\n', '\n'] := by
      have h1 : u = (orig ++ ['\n', '\n']).drop t.length := by
        rw [ht]
        exact (List.drop_left t u).symm
      rw [h1, List.drop_append_eq_append_drop]
      have h0 : t.length - orig.length = 0 := by omega
      rw [h0]
      rfl
    have hsplit : orig = orig.take t.length ++ orig.drop t.length :=
      (List.take_append_drop t.length orig).symm
    have hvfalse : isPrefixL HP (orig.drop t.length) = false :=
      hnone (orig.take t.length) (orig.drop t.length) hsplit
    by_cases hv : HP.length ≤ (orig.drop t.length).length
    · rw [hu2]
      have hsh : orig.drop t.length ++ ['\n', '\n'] ++ X2 =
          orig.drop t.length ++ (['\n', '\n'] ++ X2) := by
        simp [List.append_assoc]
      rw [hsh]
      simp only [isPrefixL] at hvfalse ⊢
      rw [List.take_append_of_le_length hv]
      exact hvfalse
    · push_neg at hv
      by_contra hcon
      rw [Bool.not_eq_false] at hcon
      simp only [isPrefixL, decide_eq_true_eq] at hcon
      have hmem : '\n' ∈ HP := by
        rw [← hcon, hu2]
        have hsh : orig.drop t.length ++ ['\n', '\n'] ++ X2 =
            orig.drop t.length ++ ('\n' :: ('\n' :: X2)) := by
          simp [List.append_assoc]
        rw [hsh, List.take_append_eq_append_take]
        apply List.mem_append_right
        have hpos : 0 < HP.length - (orig.drop t.length).length := by omega
        rcases Nat.exists_eq_add_of_lt hpos with ⟨d, hd⟩
        rw [show HP.length - (orig.drop t.length).length = d + 1 by omega]
        rw [List.take_succ_cons]
        exact List.mem_cons_self '\n' _
      exact hnl '\n' hmem rfl
  · have ht1 : t.length = orig.length + 1 := by omega
    have hu2 : u = ['\n'] := by
      have h1 : u = (orig ++ ['\n', '\n']).drop t.length := by
        rw [ht]
        exact (List.drop_left t u).symm
      rw [h1, List.drop_append_eq_append_drop, ht1]
      have h2 : orig.drop (orig.length + 1) = [] :=
        List.drop_eq_nil_of_le (by omega)
      have h3 : orig.length + 1 - orig.length = 1 := by omega
      rw [h2, h3]
      rfl
    rcases HP with _ | ⟨h0, HP'⟩
    · exact absurd rfl hne
    · rw [hu2]
      exact isPrefixL_head_ne h0 HP' X2 '\n'
        (fun hcon => hnl h0 (List.mem_cons_self h0 HP') hcon.symm)

theorem indexOfSubstr_after_fresh (orig HP X : List Char) (hne : HP ≠ [])
    (hnl : ∀ y ∈ HP, y ≠ '\n')
    (hnone : indexOfSubstr HP orig = none) :
    indexOfSubstr HP (orig ++ '\n' :: '\n' :: (HP ++ X)) =
      some (orig.length + 2) := by
  have hsh : orig ++ '\n' :: '\n' :: (HP ++ X) =
      (orig ++ ['\n', '\n']) ++ HP ++ X := by
    simp [List.append_assoc]
  rw [hsh]
  have := indexOfSubstr_split HP (orig ++ ['\n', '\n']) X
    (heading_skip_cond orig HP (HP ++ X) hne hnl
      (indexOfSubstr_none_forall HP orig hnone))
  rw [this]
  simp

/-! ### The rebuild path (header present, no recognizable divider) -/

theorem addCompletionRecordL_rebuild
    (pre post HP C R1 junk : List Char) (heading : String)
    (datetime status : String) (pos : LedgerPosition)
    (fmtFn : String → List Char) (ci si : String)
    (hH : '\n' ∉ heading.data)
    (hjnl : '\n' ∉ junk)
    (hjne : junk ≠ [])
    (hHP : HP = ['#', '#', ' '] ++ heading.data)
    (hR1 : R1 = headerRowText ++ '\n' :: junk ++ '\n' :: '\n' :: post)
    (hC : C = pre ++ HP ++ '\n' :: R1)
    (hfind : indexOfSubstr HP C = some pre.length)
    (hnodiv : searchToksAux dividerToks (junk ++ '\n' :: '\n' :: post) 0 =
      none) :
    addCompletionRecordL C datetime status heading pos fmtFn ci si =
      pre ++ HP ++ '\n' :: tableText (fmtFn datetime)
          (if status = "completed" then ci else si).data ++
        '\n' :: '\n' :: post := by
  have hHPnl : ∀ y ∈ HP, y ≠ '\n' := by
    intro y hy
    rw [hHP] at hy
    rcases List.mem_append.mp hy with h | h
    · simp only [List.mem_cons, List.not_mem_nil, or_false] at h
      rcases h with rfl | rfl | rfl <;> decide
    · intro hcon
      rw [hcon] at h
      exact hH h
  have hdropHead : C.drop pre.length = HP ++ '\n' :: R1 := by
    rw [hC, List.append_assoc]
    exact List.drop_left pre _
  have hnl1 : indexOfCharFrom '\n' C pre.length =
      some (pre.length + HP.length) :=
    indexOfCharFrom_split '\n' C HP R1 pre.length hdropHead hHPnl
  have hdropA : C.drop (pre.length + HP.length + 1) = R1 := by
    rw [hC]
    have hsh : pre ++ HP ++ '\n' :: R1 = (pre ++ HP ++ ['\n']) ++ R1 := by
      simp [List.append_assoc]
    rw [hsh]
    exact List.drop_left' (by
      simp only [List.length_append, List.length_cons, List.length_nil]
      try omega)
  have hheader : searchToksAux headerToks R1 0 =
      some (0, [['|'], [' '], ['D','a','t','e'], [' '], ['|'], [' '],
        ['S','t','a','t','u','s'], [' '], ['|'], [' '], ['#'], [' '],
        ['|']], '\n' :: (junk ++ '\n' :: '\n' :: post)) :=
    searchToksAux_found headerToks R1 0
      ([['|'], [' '], ['D','a','t','e'], [' '], ['|'], [' '],
        ['S','t','a','t','u','s'], [' '], ['|'], [' '], ['#'], [' '],
        ['|']], '\n' :: (junk ++ '\n' :: '\n' :: post))
      (by rw [hR1]; exact matchToks_header_concrete _)
  have hdropA' : C.drop (pre.length + HP.length + 1) =
      headerRowText ++ '\n' :: (junk ++ '\n' :: '\n' :: post) := by
    rw [hdropA, hR1]
    simp [List.append_assoc]
  have hnl2 : indexOfCharFrom '\n' C (pre.length + HP.length + 1) =
      some (pre.length + HP.length + 1 + 21) := by
    have := indexOfCharFrom_split '\n' C headerRowText
      (junk ++ '\n' :: '\n' :: post)
      (pre.length + HP.length + 1) hdropA' headerRowText_noNL
    simpa using this
  have hdropD : C.drop (pre.length + HP.length + 1 + 21 + 1) =
      junk ++ '\n' :: '\n' :: post := by
    rw [hC]
    have hsh : pre ++ HP ++ '\n' :: R1 =
        (pre ++ HP ++ '\n' :: headerRowText ++ ['\n']) ++
          (junk ++ '\n' :: '\n' :: post) := by
      rw [hR1]
      simp [List.append_assoc]
    rw [hsh]
    exact List.drop_left' (by
      simp only [List.length_append, List.length_cons, List.length_nil,
        headerRowText_length]
      try omega)
  have hskip : ∀ t u, (headerRowText ++ '\n' :: junk) = t ++ u → u ≠ [] →
      isPrefixL ['\n', '\n'] (u ++ (['\n', '\n'] ++ post)) = false := by
    intro t u ht hu
    rcases u with _ | ⟨x, v⟩
    · exact absurd rfl hu
    by_cases hx : x = '\n'
    · subst hx
      obtain ⟨t2, hb, _⟩ := append_split_of_not_mem '\n' headerRowText
        ('\n' :: junk) t v ht
        (by intro hcon; exact headerRowText_noNL '\n' hcon rfl)
      cases t2 with
      | nil =>
          simp only [List.nil_append, List.cons.injEq] at hb
          rcases hj : junk with _ | ⟨c0, j2⟩
          · exact absurd hj hjne
          · rw [← hb.2, hj]
            exact isPrefixL_two_ne '\n' '\n' c0 (j2 ++ (['\n', '\n'] ++ post))
              (by
                intro hcon
                apply hjnl
                rw [hj, hcon]
                exact List.mem_cons_self '\n' j2)
      | cons y t3 =>
          simp only [List.cons_append, List.cons.injEq] at hb
          exfalso
          apply hjnl
          rw [hb.2]
          exact List.mem_append_right t3 (List.mem_cons_self '\n' v)
    · exact isPrefixL_head_ne '\n' ['\n'] (v ++ (['\n', '\n'] ++ post)) x hx
  have htend : indexOfSubstrFrom ['\n', '\n'] C
      (pre.length + HP.length + 1) =
      some (pre.length + HP.length + 1 + (22 + junk.length)) := by
    unfold indexOfSubstrFrom
    rw [hdropA, hR1]
    have hsh : headerRowText ++ '\n' :: junk ++ '\n' :: '\n' :: post =
        (headerRowText ++ '\n' :: junk) ++ ['\n', '\n'] ++ post := by
      simp [List.append_assoc]
    rw [hsh]
    have hsplit := indexOfSubstr_split ['\n', '\n']
      (headerRowText ++ '\n' :: junk) post hskip
    rw [hsplit]
    simp [List.length_append, List.length_cons, headerRowText_length]
    try omega
  have htake : C.take (pre.length + HP.length + 1) =
      pre ++ HP ++ ['\n'] := by
    rw [hC]
    have hsh : pre ++ HP ++ '\n' :: R1 = (pre ++ HP ++ ['\n']) ++ R1 := by
      simp [List.append_assoc]
    rw [hsh]
    exact List.take_left' (by
      simp only [List.length_append, List.length_cons, List.length_nil]
      try omega)
  have hdropT : C.drop (pre.length + HP.length + 1 + (22 + junk.length)) =
      '\n' :: '\n' :: post := by
    rw [hC]
    have hsh : pre ++ HP ++ '\n' :: R1 =
        (pre ++ HP ++ '\n' :: headerRowText ++ '\n' :: junk) ++
          '\n' :: '\n' :: post := by
      rw [hR1]
      simp [List.append_assoc]
    rw [hsh]
    exact List.drop_left' (by
      simp only [List.length_append, List.length_cons, List.length_nil,
        headerRowText_length]
      omega)
  unfold addCompletionRecordL
  dsimp only
  rw [← hHP]
  rw [hfind]
  dsimp only
  rw [hnl1]
  dsimp only
  rw [hdropA]
  rw [hheader]
  dsimp only
  simp only [Nat.add_zero]
  rw [hnl2]
  dsimp only
  rw [hdropD]
  rw [hnodiv]
  dsimp only
  rw [htend]
  dsimp only
  rw [if_pos (show 0 < pre.length + HP.length + 1 + (22 + junk.length)
    by omega)]
  rw [htake, hdropT]
  simp [List.append_assoc]

/-! ### Folding the editor over the missed dates -/


theorem find_heading_pre (pre HP rest : List Char)
    (hpre : ∀ i X, i < pre.length →
      isPrefixL HP (List.drop i pre ++ X) = false) :
    indexOfSubstr HP (pre ++ HP ++ rest) = some pre.length := by
  have := indexOfSubstr_split HP pre rest (fun t u ht hu => by
    have hlen : t.length < pre.length := by
      have := congrArg List.length ht
      simp at this
      rcases u with _ | ⟨x, v⟩
      · exact absurd rfl hu
      · simp at this
        omega
    have hu2 : u = pre.drop t.length := by
      rw [ht]
      exact (List.drop_left t u).symm
    rw [hu2]
    exact hpre t.length (HP ++ rest) hlen)
  exact this

theorem foldl_max_init (l : List ℕ) :
    ∀ a, List.foldl max a l = max a (List.foldl max 0 l) := by
  induction l with
  | nil => intro a; simp
  | cons x t ih =>
      intro a
      simp only [List.foldl_cons]
      rw [ih (max a x), ih (max 0 x), Nat.zero_max, Nat.max_assoc]

theorem stackRows_cons (f : String → List Char) (ind : List Char) (m : ℕ)
    (d : String) (tl : List String) :
    stackRows f ind m (d :: tl) =
      stackRows f ind (m + 1) tl ++ [(f d, ind, m + 1)] := rfl

theorem foldl_insert_eof (heading status : String)
    (fmtFn : String → List Char) (ci si : String) (pos : LedgerPosition)
    (pre : List Char)
    (hH : '\n' ∉ heading.data)
    (hpre : ∀ i X, i < pre.length →
      isPrefixL (['#', '#', ' '] ++ heading.data)
        (List.drop i pre ++ X) = false)
    (hind : cleanCellP (if status = "completed" then ci else si).data) :
    ∀ (dates : List String) (rows0 : List (List Char × List Char × ℕ))
      (m : ℕ),
      rows0 ≠ [] →
      (∀ r ∈ rows0, cleanCellP r.1 ∧ cleanCellP r.2.1) →
      (∀ d ∈ dates, cleanCellP (fmtFn d)) →
      (rows0.map (fun r => r.2.2)).foldl max 0 = m →
      List.foldl
        (fun c d => addCompletionRecordL c d status heading pos fmtFn ci si)
        (pre ++ (['#', '#', ' '] ++ heading.data) ++ '\n' :: headerRowText ++
          '\n' :: dividerRowText ++ '\n' :: rowsJoin rows0) dates =
      pre ++ (['#', '#', ' '] ++ heading.data) ++ '\n' :: headerRowText ++
        '\n' :: dividerRowText ++
        '\n' :: rowsJoin (stackRows fmtFn
          (if status = "completed" then ci else si).data m dates ++ rows0) := by
  intro dates
  induction dates with
  | nil =>
      intro rows0 m hne hcl hdt hm
      simp [stackRows, List.foldl_nil]
  | cons d tl ih =>
      intro rows0 m hne hcl hdt hm
      rw [List.foldl_cons]
      have hstep := addCompletionRecordL_insert_eof pre
        (['#', '#', ' '] ++ heading.data)
        (pre ++ (['#', '#', ' '] ++ heading.data) ++ '\n' :: headerRowText ++
          '\n' :: dividerRowText ++ '\n' :: rowsJoin rows0)
        (headerRowText ++ '\n' :: (dividerRowText ++ '\n' :: rowsJoin rows0))
        (dividerRowText ++ '\n' :: rowsJoin rows0)
        (rowsJoin rows0) heading rows0 d status pos fmtFn ci si hH hcl
        rfl rfl rfl rfl
        (by simp [List.append_assoc])
        (by
          have hsh : pre ++ (['#', '#', ' '] ++ heading.data) ++
              '\n' :: headerRowText ++ '\n' :: dividerRowText ++
              '\n' :: rowsJoin rows0 =
              pre ++ (['#', '#', ' '] ++ heading.data) ++
                ('\n' :: headerRowText ++ '\n' :: dividerRowText ++
                  '\n' :: rowsJoin rows0) := by
            simp [List.append_assoc]
          rw [hsh]
          exact find_heading_pre pre (['#', '#', ' '] ++ heading.data) _ hpre)
      rw [hm] at hstep
      rw [hstep]
      have hnewrows : pre ++ (['#', '#', ' '] ++ heading.data) ++
          '\n' :: headerRowText ++ '\n' :: dividerRowText ++
          '\n' :: rowText (fmtFn d)
            (if status = "completed" then ci else si).data (m + 1) ++
          '\n' :: rowsJoin rows0 =
          pre ++ (['#', '#', ' '] ++ heading.data) ++ '\n' :: headerRowText ++
          '\n' :: dividerRowText ++
          '\n' :: rowsJoin (((fmtFn d),
            (if status = "completed" then ci else si).data, m + 1) ::
            rows0) := by
        rcases rows0 with _ | ⟨r0, rs0⟩
        · exact absurd rfl hne
        · rw [rowsJoin_cons]
          simp [List.append_assoc]
      rw [hnewrows]
      have hmax : ((((fmtFn d),
          (if status = "completed" then ci else si).data, m + 1) ::
          rows0).map (fun r => r.2.2)).foldl max 0 = m + 1 := by
        simp only [List.map_cons, List.foldl_cons]
        rw [foldl_max_init, hm, Nat.zero_max]
        exact Nat.max_eq_left (by omega)
      have := ih (((fmtFn d),
          (if status = "completed" then ci else si).data, m + 1) :: rows0)
        (m + 1) (by simp)
        (by
          intro r hr
          rcases List.mem_cons.mp hr with rfl | hr2
          · exact ⟨hdt d (List.mem_cons_self d tl), hind⟩
          · exact hcl r hr2)
        (fun x hx => hdt x (List.mem_cons_of_mem d hx)) hmax
      rw [this]
      rw [stackRows_cons]
      have hlist : stackRows fmtFn
          (if status = "completed" then ci else si).data (m + 1) tl ++
          (((fmtFn d), (if status = "completed" then ci else si).data,
            m + 1) :: rows0) =
          (stackRows fmtFn (if status = "completed" then ci else si).data
            (m + 1) tl ++ [((fmtFn d),
            (if status = "completed" then ci else si).data, m + 1)]) ++
          rows0 := by
        simp [List.append_assoc]
      rw [hlist]

/-! ### Claim-level theorems (ledger editor) -/

/-- C1 (counterexample): rows with non-numeric sequence cells are not
ignored by the row scan.  With data rows `| x | y | n/a |` and
`| 3 | b | 7 |`, the global regex's `\s*` crosses the newline and its one
match captures `3` from the next row's first cell, so the inserted row is
numbered `4` - not `8 = 1 + max {7}` as the claim predicts. -/
theorem addCompletionRecord_nonNumeric_row_counterexample :
    addCompletionRecordL
      ("pre\n## Done\n| Date | Status | # |\n| ---- | ------ | - |\n| x | y | n/a |\n| 3 | b | 7 |\n\npost").data
      "2023-02-01" "completed" "Done" LedgerPosition.bottom
      (fun d => d.data) "done" "skip" =
    ("pre\n## Done\n| Date | Status | # |\n| ---- | ------ | - |\n| 2023-02-01 | done | 4 |\n| x | y | n/a |\n| 3 | b | 7 |\n\npost").data ∧
    rowScanNumbers ("| x | y | n/a |\n| 3 | b | 7 |").data = [3] := by
  constructor
  · decide
  · decide

/-- C1 (amended): on a well-formed ledger whose data rows all carry clean
cells and numeric sequence cells, `addCompletionRecord` inserts exactly one
row directly under the divider, numbered `1 + max` of the existing rendered
numbers; and two successive calls starting from a document with no heading
yield rows numbered `1` then `2`, the newest directly under the divider. -/
theorem addCompletionRecord_sequence_numbering :
    (∀ (pre post : List Char) (heading : String)
       (rows : List (List Char × List Char × ℕ))
       (datetime status : String) (pos : LedgerPosition)
       (fmtFn : String → List Char) (ci si : String),
       '\n' ∉ heading.data →
       (∀ r ∈ rows, cleanCellP r.1 ∧ cleanCellP r.2.1) →
       indexOfSubstr (['#', '#', ' '] ++ heading.data)
         (pre ++ (['#', '#', ' '] ++ heading.data) ++ '\n' :: headerRowText ++
           '\n' :: dividerRowText ++ '\n' :: rowsJoin rows ++
           '\n' :: '\n' :: post) = some pre.length →
       addCompletionRecordL
         (pre ++ (['#', '#', ' '] ++ heading.data) ++ '\n' :: headerRowText ++
           '\n' :: dividerRowText ++ '\n' :: rowsJoin rows ++
           '\n' :: '\n' :: post) datetime status heading pos fmtFn ci si =
       pre ++ (['#', '#', ' '] ++ heading.data) ++ '\n' :: headerRowText ++
         '\n' :: dividerRowText ++
         '\n' :: rowText (fmtFn datetime)
             (if status = "completed" then ci else si).data
             ((rows.map (fun r => r.2.2)).foldl max 0 + 1) ++
         '\n' :: rowsJoin rows ++ '\n' :: '\n' :: post) ∧
    (∀ (orig : List Char) (heading d1 d2 status : String)
       (fmtFn : String → List Char) (ci si : String),
       '\n' ∉ heading.data →
       indexOfSubstr (['#', '#', ' '] ++ heading.data) orig = none →
       cleanCellP (fmtFn d1) →
       cleanCellP (if status = "completed" then ci else si).data →
       addCompletionRecordL orig d1 status heading LedgerPosition.bottom
           fmtFn ci si =
         orig ++ '\n' :: '\n' :: ((['#', '#', ' '] ++ heading.data) ++
           '\n' :: tableText (fmtFn d1)
             (if status = "completed" then ci else si).data) ∧
       addCompletionRecordL
           (orig ++ '\n' :: '\n' :: ((['#', '#', ' '] ++ heading.data) ++
             '\n' :: tableText (fmtFn d1)
               (if status = "completed" then ci else si).data))
           d2 status heading LedgerPosition.bottom fmtFn ci si =
         (orig ++ ['\n', '\n']) ++ (['#', '#', ' '] ++ heading.data) ++
           '\n' :: headerRowText ++ '\n' :: dividerRowText ++
           '\n' :: rowText (fmtFn d2)
             (if status = "completed" then ci else si).data 2 ++
           '\n' :: rowText (fmtFn d1)
             (if status = "completed" then ci else si).data 1) := by
  constructor
  · intro pre post heading rows datetime status pos fmtFn ci si hH hclean hfind
    exact addCompletionRecordL_insert pre post
      (['#', '#', ' '] ++ heading.data) _ _ _ _ heading rows datetime status
      pos fmtFn ci si hH hclean rfl rfl rfl rfl
      (by simp [List.append_assoc]) hfind
  · intro orig heading d1 d2 status fmtFn ci si hH hnone hd1 hind
    have hne : (['#', '#', ' '] ++ heading.data) ≠ [] := by simp
    have hnl : ∀ y ∈ (['#', '#', ' '] ++ heading.data), y ≠ '\n' := by
      intro y hy
      rcases List.mem_append.mp hy with h | h
      · simp only [List.mem_cons, List.not_mem_nil, or_false] at h
        rcases h with rfl | rfl | rfl <;> decide
      · intro hcon
        rw [hcon] at h
        exact hH h
    refine ⟨addCompletionRecordL_fresh_bottom orig d1 status heading fmtFn
      ci si hnone, ?_⟩
    have hfind2 := indexOfSubstr_after_fresh orig
      (['#', '#', ' '] ++ heading.data)
      ('\n' :: tableText (fmtFn d1)
        (if status = "completed" then ci else si).data) hne hnl hnone
    have hstep := addCompletionRecordL_insert_eof (orig ++ ['\n', '\n'])
      (['#', '#', ' '] ++ heading.data)
      (orig ++ '\n' :: '\n' :: ((['#', '#', ' '] ++ heading.data) ++
        '\n' :: tableText (fmtFn d1)
          (if status = "completed" then ci else si).data))
      (headerRowText ++ '\n' :: (dividerRowText ++
        '\n' :: rowsJoin [((fmtFn d1),
          (if status = "completed" then ci else si).data, 1)]))
      (dividerRowText ++ '\n' :: rowsJoin [((fmtFn d1),
        (if status = "completed" then ci else si).data, 1)])
      (rowsJoin [((fmtFn d1),
        (if status = "completed" then ci else si).data, 1)])
      heading [((fmtFn d1), (if status = "completed" then ci else si).data, 1)]
      d2 status LedgerPosition.bottom fmtFn ci si hH
      (by
        intro x hx
        simp only [List.mem_cons, List.not_mem_nil, or_false] at hx
        rw [hx]
        exact ⟨hd1, hind⟩)
      rfl rfl rfl rfl
      (by simp [tableText, rowsJoin, List.append_assoc])
      (by
        rw [show orig ++ '\n' :: '\n' :: ((['#', '#', ' '] ++ heading.data) ++
            '\n' :: tableText (fmtFn d1)
              (if status = "completed" then ci else si).data) =
          orig ++ '\n' :: '\n' :: ((['#', '#', ' '] ++ heading.data) ++
            ('\n' :: tableText (fmtFn d1)
              (if status = "completed" then ci else si).data)) from rfl]
        rw [hfind2]
        simp)
    rw [hstep]
    have hmax : (([((fmtFn d1),
        (if status = "completed" then ci else si).data, 1)].map
        (fun r => r.2.2)).foldl max 0) = 1 := rfl
    rw [hmax]
    simp [rowsJoin, List.append_assoc]

/-- C7: when the configured heading is present but followed by a table
header row and a junk line with no recognizable divider row anywhere after
it, `addCompletionRecord` replaces the malformed fragment with a freshly
built table (header row, divider row, one data row numbered 1), keeping
the text after the blank line; the repair is total - no error escapes. -/
theorem addCompletionRecord_rebuilds_malformed
    (pre post junk : List Char) (heading : String)
    (datetime status : String) (pos : LedgerPosition)
    (fmtFn : String → List Char) (ci si : String)
    (hH : '\n' ∉ heading.data)
    (hjnl : '\n' ∉ junk)
    (hjne : junk ≠ [])
    (hfind : indexOfSubstr (['#', '#', ' '] ++ heading.data)
      (pre ++ (['#', '#', ' '] ++ heading.data) ++ '\n' :: headerRowText ++
        '\n' :: junk ++ '\n' :: '\n' :: post) = some pre.length)
    (hnodiv : searchToksAux dividerToks (junk ++ '\n' :: '\n' :: post) 0 =
      none) :
    addCompletionRecordL
      (pre ++ (['#', '#', ' '] ++ heading.data) ++ '\n' :: headerRowText ++
        '\n' :: junk ++ '\n' :: '\n' :: post)
      datetime status heading pos fmtFn ci si =
    pre ++ (['#', '#', ' '] ++ heading.data) ++
      '\n' :: tableText (fmtFn datetime)
        (if status = "completed" then ci else si).data ++
      '\n' :: '\n' :: post := by
  exact addCompletionRecordL_rebuild pre post
    (['#', '#', ' '] ++ heading.data) _ _ junk heading datetime status pos
    fmtFn ci si hH hjnl hjne rfl rfl
    (by simp [List.append_assoc]) hfind hnodiv

/-- C5: on the missed-occurrences path, the orchestrator sets the due
property to the value `calculateNextDueDate(currentDue, now, recurrence)`
computed with "now" as the completion time, and appends exactly one ledger
record per missed date - each stamped with that missed date, not "now",
bearing the indicator selected by the caller's decision - with consecutive
sequence numbers `1..k`, newest on top. -/
theorem handleMissedRecurrences_missed_path (fuel : ℕ) (now : DateTime)
    (settings : RecurringTasksSettings) (note : NoteModel) (action : String)
    (missedDates : List String) (currentDue : String) (r : RecurrenceInfo)
    (nd : String)
    (hcalc : calculateNextDueDate fuel now currentDue
      (String.mk (formatFull now)) r = some nd)
    (hpos : settings.completionPosition = LedgerPosition.bottom)
    (hH : '\n' ∉ settings.completionHeading.data)
    (hnone : indexOfSubstr
      (['#', '#', ' '] ++ settings.completionHeading.data) note.content =
      none)
    (hdates : ∀ d ∈ missedDates, cleanCellP (settings.displayFormat d))
    (hind : cleanCellP (if action = "complete" then
      settings.completedIndicator else settings.skippedIndicator).data)
    (hne : missedDates ≠ []) :
    handleMissedRecurrences fuel now settings note action missedDates
        currentDue r =
      some { dueValue := nd,
             content := note.content ++ '\n' :: '\n' ::
               ((['#', '#', ' '] ++ settings.completionHeading.data) ++
                 '\n' :: headerRowText ++ '\n' :: dividerRowText ++
                 '\n' :: rowsJoin (stackRows settings.displayFormat
                   (if action = "complete" then settings.completedIndicator
                    else settings.skippedIndicator).data 0 missedDates)) } := by
  have hst : (if (if action = "complete" then "completed" else "skipped") =
      ("completed" : String) then settings.completedIndicator
      else settings.skippedIndicator) =
      (if action = "complete" then settings.completedIndicator
       else settings.skippedIndicator) := by
    by_cases h : action = "complete"
    · rw [if_pos h, if_pos h, if_pos rfl]
    · rw [if_neg h, if_neg h, if_neg (by decide)]
  unfold handleMissedRecurrences
  rw [hcalc]
  dsimp only
  rw [hpos]
  rcases missedDates with _ | ⟨d0, tl⟩
  · exact absurd rfl hne
  rw [List.foldl_cons]
  rw [addCompletionRecordL_fresh_bottom note.content d0
    (if action = "complete" then "completed" else "skipped")
    settings.completionHeading settings.displayFormat
    settings.completedIndicator settings.skippedIndicator hnone]
  have hnl : ∀ y ∈ (['#', '#', ' '] ++ settings.completionHeading.data),
      y ≠ '\n' := by
    intro y hy
    rcases List.mem_append.mp hy with h | h
    · simp only [List.mem_cons, List.not_mem_nil, or_false] at h
      rcases h with rfl | rfl | rfl <;> decide
    · intro hcon
      rw [hcon] at h
      exact hH h
  have hpre : ∀ i X, i < (note.content ++ ['\n', '\n']).length →
      isPrefixL (['#', '#', ' '] ++ settings.completionHeading.data)
        (List.drop i (note.content ++ ['\n', '\n']) ++ X) = false := by
    intro i X hi
    apply heading_skip_cond note.content
      (['#', '#', ' '] ++ settings.completionHeading.data) X (by simp) hnl
      (indexOfSubstr_none_forall _ note.content hnone)
      ((note.content ++ ['\n', '\n']).take i)
      (List.drop i (note.content ++ ['\n', '\n']))
      (List.take_append_drop i (note.content ++ ['\n', '\n'])).symm
    intro hcon
    have := congrArg List.length hcon
    simp at this
    simp at hi
    omega
  have hshape : note.content ++ '\n' :: '\n' ::
      ((['#', '#', ' '] ++ settings.completionHeading.data) ++
        '\n' :: tableText (settings.displayFormat d0)
          (if (if action = "complete" then "completed" else "skipped") =
            ("completed" : String) then settings.completedIndicator
           else settings.skippedIndicator).data) =
      (note.content ++ ['\n', '\n']) ++
        (['#', '#', ' '] ++ settings.completionHeading.data) ++
        '\n' :: headerRowText ++ '\n' :: dividerRowText ++
        '\n' :: rowsJoin [((settings.displayFormat d0),
          (if (if action = "complete" then "completed" else "skipped") =
            ("completed" : String) then settings.completedIndicator
           else settings.skippedIndicator).data, 1)] := by
    simp [tableText, rowsJoin, List.append_assoc]
  rw [hshape]
  rw [foldl_insert_eof settings.completionHeading
    (if action = "complete" then "completed" else "skipped")
    settings.displayFormat settings.completedIndicator
    settings.skippedIndicator LedgerPosition.bottom
    (note.content ++ ['\n', '\n']) hH hpre
    (by rw [hst]; exact hind) tl
    [((settings.displayFormat d0),
      (if (if action = "complete" then "completed" else "skipped") =
        ("completed" : String) then settings.completedIndicator
       else settings.skippedIndicator).data, 1)]
    1 (by simp)
    (by
      intro x hx
      simp only [List.mem_cons, List.not_mem_nil, or_false] at hx
      rw [hx]
      exact ⟨hdates d0 (List.mem_cons_self d0 tl), by rw [hst]; exact hind⟩)
    (fun x hx => hdates x (List.mem_cons_of_mem d0 hx)) rfl]
  rw [hst]
  have hrows : stackRows settings.displayFormat
      (if action = "complete" then settings.completedIndicator
       else settings.skippedIndicator).data 1 tl ++
      [((settings.displayFormat d0),
        (if action = "complete" then settings.completedIndicator
         else settings.skippedIndicator).data, 1)] =
      stackRows settings.displayFormat
        (if action = "complete" then settings.completedIndicator
         else settings.skippedIndicator).data 0 (d0 :: tl) := by
    rw [stackRows_cons]
  rw [hrows]
  congr 1
  simp [List.append_assoc]

/-- `C1` witness: a well-formed two-row ledger (numbers 5 and 2) receives
row number 6 directly under the divider, and two successive calls on a
document with no heading produce rows numbered 1 then 2, newest on top. -/
theorem addCompletionRecord_sequence_numbering_witness :
    addCompletionRecordL
      ("A\n## Done\n| Date | Status | # |\n| ---- | ------ | - |\n| 2023-01-08 | ok | 5 |\n| 2023-01-01 | ok | 2 |\n\nB").data
      "2023-01-15" "completed" "Done" LedgerPosition.bottom
      (fun d => d.data) "ok" "sk" =
    ("A\n## Done\n| Date | Status | # |\n| ---- | ------ | - |\n| 2023-01-15 | ok | 6 |\n| 2023-01-08 | ok | 5 |\n| 2023-01-01 | ok | 2 |\n\nB").data ∧
    addCompletionRecordL ("hello").data "D1" "completed" "Done"
      LedgerPosition.bottom (fun d => d.data) "ok" "sk" =
    ("hello\n\n## Done\n| Date | Status | # |\n| ---- | ------ | - |\n| D1 | ok | 1 |").data ∧
    addCompletionRecordL
      ("hello\n\n## Done\n| Date | Status | # |\n| ---- | ------ | - |\n| D1 | ok | 1 |").data
      "D2" "completed" "Done" LedgerPosition.bottom (fun d => d.data)
      "ok" "sk" =
    ("hello\n\n## Done\n| Date | Status | # |\n| ---- | ------ | - |\n| D2 | ok | 2 |\n| D1 | ok | 1 |").data := by
  refine ⟨?_, ?_, ?_⟩
  · have := addCompletionRecord_sequence_numbering.1 ("A\n").data ("B").data
      "Done" [(("2023-01-08").data, ("ok").data, 5),
              (("2023-01-01").data, ("ok").data, 2)]
      "2023-01-15" "completed" LedgerPosition.bottom (fun d => d.data)
      "ok" "sk" (by decide) (by decide) (by decide)
    rw [show ("A\n## Done\n| Date | Status | # |\n| ---- | ------ | - |\n| 2023-01-08 | ok | 5 |\n| 2023-01-01 | ok | 2 |\n\nB").data =
      ("A\n").data ++ (['#', '#', ' '] ++ ("Done").data) ++
        '\n' :: headerRowText ++ '\n' :: dividerRowText ++
        '\n' :: rowsJoin [(("2023-01-08").data, ("ok").data, 5),
          (("2023-01-01").data, ("ok").data, 2)] ++
        '\n' :: '\n' :: ("B").data from by decide]
    rw [this]
    decide
  · have := (addCompletionRecord_sequence_numbering.2 ("hello").data "Done"
      "D1" "D2" "completed" (fun d => d.data) "ok" "sk"
      (by decide) (by decide) (by decide) (by decide)).1
    rw [this]
    decide
  · have hpair := addCompletionRecord_sequence_numbering.2 ("hello").data
      "Done" "D1" "D2" "completed" (fun d => d.data) "ok" "sk"
      (by decide) (by decide) (by decide) (by decide)
    rw [show ("hello\n\n## Done\n| Date | Status | # |\n| ---- | ------ | - |\n| D1 | ok | 1 |").data =
      ("hello").data ++ '\n' :: '\n' :: ((['#', '#', ' '] ++ ("Done").data) ++
        '\n' :: tableText (("D1").data)
          (if ("completed" : String) = "completed" then ("ok" : String)
           else ("sk" : String)).data) from by decide]
    rw [hpair.2]
    decide

/-- `C7` witness: a heading followed by a header row and the junk line
`garbage` with no divider is rebuilt into a fresh one-row table. -/
theorem addCompletionRecord_rebuilds_malformed_witness :
    addCompletionRecordL
      ("X\n## Done\n| Date | Status | # |\ngarbage\n\nY").data
      "2023-01-01" "completed" "Done" LedgerPosition.bottom
      (fun d => d.data) "ok" "sk" =
    ("X\n## Done\n| Date | Status | # |\n| ---- | ------ | - |\n| 2023-01-01 | ok | 1 |\n\nY").data := by
  have := addCompletionRecord_rebuilds_malformed ("X\n").data ("Y").data
    ("garbage").data "Done" "2023-01-01" "completed" LedgerPosition.bottom
    (fun d => d.data) "ok" "sk" (by decide) (by decide) (by decide)
    (by decide) (by decide)
  rw [show ("X\n## Done\n| Date | Status | # |\ngarbage\n\nY").data =
    ("X\n").data ++ (['#', '#', ' '] ++ ("Done").data) ++
      '\n' :: headerRowText ++ '\n' :: ("garbage").data ++
      '\n' :: '\n' :: ("Y").data from by decide]
  rw [this]
  decide

/-- `C5` witness: two missed dates of a weekly task are appended as two
skipped/completed rows stamped with the missed dates, numbered 1 then 2,
and the due property becomes the first weekly increment not before now. -/
theorem handleMissedRecurrences_missed_path_witness :
    handleMissedRecurrences 10 ⟨2023, 1, 22, 0, 0, 0⟩
      ⟨"due", "Done", LedgerPosition.bottom, "ok", "sk", fun d => d.data⟩
      ⟨"old", ("hello").data⟩ "complete" ["2023-01-01", "2023-01-08"]
      "2023-01-01" ⟨1, RUnit.week, RMode.after_due⟩ =
    some ⟨"2023-01-22",
      ("hello\n\n## Done\n| Date | Status | # |\n| ---- | ------ | - |\n| 2023-01-08 | ok | 2 |\n| 2023-01-01 | ok | 1 |").data⟩ := by
  have := handleMissedRecurrences_missed_path 10 ⟨2023, 1, 22, 0, 0, 0⟩
    ⟨"due", "Done", LedgerPosition.bottom, "ok", "sk", fun d => d.data⟩
    ⟨"old", ("hello").data⟩ "complete" ["2023-01-01", "2023-01-08"]
    "2023-01-01" ⟨1, RUnit.week, RMode.after_due⟩ "2023-01-22"
    (by decide) rfl (by decide) (by decide) (by decide) (by decide)
    (by decide)
  rw [this]
  simp only [Option.some.injEq, NoteModel.mk.injEq]
  decide

